import Mathlib
namespace Sokoban

/-- Field of a level area (enum Field in src/defs.rs). -/
inductive Field where
  | Empty
  | Wall
  | Pack
  | Player
  | Target
  | PackOnTarget
  | PlayerOnTarget
  deriving DecidableEq

/-- Direction of a move (enum Direction in src/defs.rs). -/
inductive Direction where
  | Left
  | Right
  | Up
  | Down
  | PushLeft
  | PushRight
  | PushUp
  | PushDown
  | NoDirection
  deriving DecidableEq

/-- Check level error (enum CheckError in src/defs.rs). -/
inductive CheckError where
  | NoPlayer
  | TooManyPlayers
  | NoPacksAndTargets
  | LevelOpen
  | TooFewPacks (n : Nat)
  | TooFewTargets (n : Nat)
  | PackNotAvailable (x y : Nat)
  | TargetNotAvailable (x y : Nat)
  | LockedPackApartWalls (x y : Nat)
  | Locked2x2Block (x y : Nat)
  deriving DecidableEq

/-- Error caused while parsing or creating a level (enum ParseError). -/
inductive ParseError where
  | EmptyLines
  | WrongField (x y : Nat)
  | WrongSize (x y : Nat)
  deriving DecidableEq

/-- Field::is_player. -/
def Field.is_player : Field → Bool
  | .Player => true
  | .PlayerOnTarget => true
  | _ => false

/-- Field::is_pack. -/
def Field.is_pack : Field → Bool
  | .Pack => true
  | .PackOnTarget => true
  | _ => false

/-- Field::is_target. -/
def Field.is_target : Field → Bool
  | .Target => true
  | .PackOnTarget => true
  | .PlayerOnTarget => true
  | _ => false

/-- Field::set_player. -/
def Field.set_player : Field → Field
  | .Target => .PlayerOnTarget
  | .PackOnTarget => .PlayerOnTarget
  | _ => .Player

/-- Field::unset_player; none models the panic on a field without a player. -/
def Field.unset_player : Field → Option Field
  | .Player => some .Empty
  | .PlayerOnTarget => some .Target
  | _ => none

/-- Field::set_pack. -/
def Field.set_pack : Field → Field
  | .Target => .PackOnTarget
  | .PlayerOnTarget => .PackOnTarget
  | _ => .Pack

/-- Field::unset_pack; none models the panic on a field without a pack. -/
def Field.unset_pack : Field → Option Field
  | .Pack => some .Empty
  | .PackOnTarget => some .Target
  | _ => none

/-- char_to_field from src/defs.rs. -/
def char_to_field (c : Char) : Field :=
  if c = ' ' then .Empty
  else if c = '#' then .Wall
  else if c = '@' then .Player
  else if c = '+' then .PlayerOnTarget
  else if c = '.' then .Target
  else if c = '$' then .Pack
  else if c = '*' then .PackOnTarget
  else .Empty

/-- is_not_field from src/defs.rs. -/
def is_not_field (c : Char) : Bool :=
  c != ' ' && c != '#' && c != '@' && c != '+' && c != '.' && c != '$' && c != '*'

/-- Iterator::position over a list (used for locating the player). -/
def position (p : α → Bool) : List α → Option Nat
  | [] => none
  | a :: l => if p a then some 0 else (position p l).map (· + 1)

/-- Checked usize subtraction: none models the debug-mode overflow panic. -/
def checkedSub (a b : Nat) : Option Nat :=
  if b ≤ a then some (a - b) else none

/-- Level in game (struct Level in src/level.rs). -/
structure Level where
  name : String
  width : Nat
  height : Nat
  area : List Field
  deriving DecidableEq

deriving instance DecidableEq for Except

/-- Level::empty. -/
def Level.empty : Level :=
  ⟨"", 0, 0, []⟩

/-- Level::new. -/
def Level.new (name : String) (width height : Nat) (area : List Field) :
    Except ParseError Level :=
  if area.length = width * height then
    .ok ⟨name, width, height, area⟩
  else
    .error (.WrongSize width height)

/-- Level::from_str (string length is char count; used with ASCII input only). -/
def Level.from_str (name : String) (width height : Nat) (astr : String) :
    Except ParseError Level :=
  let cs := astr.toList
  if cs.length ≠ width * height then
    .error (.WrongSize width height)
  else
    match position is_not_field cs with
    | some pp => .error (.WrongField (pp % width) (pp / width))
    | none => .ok ⟨name, width, height, cs.map char_to_field⟩

/-- The field at linear index i of the area (Vec indexing via getD). -/
def Level.cell (l : Level) (i : Nat) : Field :=
  l.area.getD i Field.Wall

/-- Item of the explicit flood-fill stack (struct StackItem in Level::check_level_by_fill). -/
structure StackItem where
  x : Nat
  y : Nat
  d : Direction

/-- Functional update of the boolean filled grid. -/
def updateFilled (f : Nat → Bool) (i : Nat) : Nat → Bool :=
  fun j => if j = i then true else f j

/-- One-while-loop body of Level::check_level_by_fill, with fuel.
Returns the filled grid and the touch_frames flag; none means the fuel ran
out (which a later theorem shows cannot happen from a well-formed start). -/
def fillLoop (l : Level) : Nat → (Nat → Bool) → List StackItem → Bool →
    Option ((Nat → Bool) × Bool)
  | 0, _, _, _ => none
  | _ + 1, filled, [], touch => some (filled, touch)
  | fuel + 1, filled, it :: rest, touch =>
    let idx := it.y * l.width + it.x
    if l.cell idx = .Wall ∨ (filled idx = true ∧ it.d = .Left) then
      fillLoop l fuel filled rest touch
    else
      let filled1 := updateFilled filled idx
      match it.d with
      | .Left =>
        if it.x > 0 then
          fillLoop l fuel filled1
            (⟨it.x - 1, it.y, .Left⟩ :: ⟨it.x, it.y, .Right⟩ :: rest) touch
        else
          fillLoop l fuel filled1 (⟨it.x, it.y, .Right⟩ :: rest) true
      | .Right =>
        if it.x + 1 < l.width then
          fillLoop l fuel filled1
            (⟨it.x + 1, it.y, .Left⟩ :: ⟨it.x, it.y, .Down⟩ :: rest) touch
        else
          fillLoop l fuel filled1 (⟨it.x, it.y, .Down⟩ :: rest) true
      | .Down =>
        if it.y > 0 then
          fillLoop l fuel filled1
            (⟨it.x, it.y - 1, .Left⟩ :: ⟨it.x, it.y, .Up⟩ :: rest) touch
        else
          fillLoop l fuel filled1 (⟨it.x, it.y, .Up⟩ :: rest) true
      | .Up =>
        if it.y + 1 < l.height then
          fillLoop l fuel filled1
            (⟨it.x, it.y + 1, .Left⟩ :: ⟨it.x, it.y, .NoDirection⟩ :: rest) touch
        else
          fillLoop l fuel filled1 rest true
      | .NoDirection =>
        fillLoop l fuel filled1 rest touch
      | _ =>
        fillLoop l fuel filled1 (it :: rest) touch

/-- Fuel that always suffices for the flood-fill loop (proved below). -/
def fillFuel (l : Level) : Nat :=
  10 * (l.width * l.height) + 2

/-- The flood-fill walk of Level::check_level_by_fill from (px, py). -/
def runFill (l : Level) (px py : Nat) : Option ((Nat → Bool) × Bool) :=
  fillLoop l (fillFuel l) (fun _ => false) [⟨px, py, .Left⟩] false

/-- The availability scans at the end of Level::check_level_by_fill:
PackNotAvailable for every plain Pack cell not filled, then
TargetNotAvailable for every plain Target cell not filled, both in
row-major index order. -/
def availErrs (l : Level) (filled : Nat → Bool) : List CheckError :=
  ((List.range l.area.length).filterMap fun i =>
    if l.cell i = .Pack ∧ filled i = false then
      some (.PackNotAvailable (i % l.width) (i / l.width))
    else none) ++
  ((List.range l.area.length).filterMap fun i =>
    if l.cell i = .Target ∧ filled i = false then
      some (.TargetNotAvailable (i % l.width) (i / l.width))
    else none)

/-- Level::check_level_by_fill: the flood fill plus LevelOpen and the
availability scans, in source order. -/
def Level.check_level_by_fill (l : Level) (px py : Nat) :
    Option (List CheckError) :=
  match runFill l px py with
  | none => none
  | some (filled, touch) =>
    some ((if touch then [CheckError.LevelOpen] else []) ++ availErrs l filled)

/-- Number of player fields in the area. -/
def Level.playersNum (l : Level) : Nat :=
  (l.area.filter fun f => f.is_player).length

/-- Number of pack fields in the area. -/
def Level.packsNum (l : Level) : Nat :=
  (l.area.filter fun f => f.is_pack).length

/-- Number of target fields in the area. -/
def Level.targetsNum (l : Level) : Nat :=
  (l.area.filter fun f => f.is_target).length

/-- The player-count errors of Level::check. -/
def Level.playerErrs (l : Level) : List CheckError :=
  match l.playersNum with
  | 0 => [.NoPlayer]
  | 1 => []
  | _ => [.TooManyPlayers]

/-- The pack/target-count errors of Level::check. -/
def Level.countErrs (l : Level) : List CheckError :=
  if l.packsNum < l.targetsNum then [.TooFewPacks l.targetsNum]
  else if l.targetsNum < l.packsNum then [.TooFewTargets l.packsNum]
  else []

/-- The reachability errors of Level::check: the flood fill runs only when
a player exists. -/
def Level.fillErrs (l : Level) : Option (List CheckError) :=
  match position (fun f => f.is_player) l.area with
  | some pp => l.check_level_by_fill (pp % l.width) (pp / l.width)
  | none => some []

/-- The 2x2 block-lock scan of Level::check.  The loop bounds height-1 and
width-1 are checked subtractions: their underflow (the debug-mode panic
for a degenerate level) propagates as none.  The width-1 bound is
evaluated once per outer iteration, as in the source. -/
def Level.lock2x2Errs (l : Level) : Option (List CheckError) := do
  let hb ← checkedSub l.height 1
  (List.range hb).foldlM (fun acc iy => do
    let wb ← checkedSub l.width 1
    let row := (List.range wb).filterMap fun ix =>
      let ful := l.cell (iy * l.width + ix)
      let fur := l.cell (iy * l.width + ix + 1)
      let fdl := l.cell ((iy + 1) * l.width + ix)
      let fdr := l.cell ((iy + 1) * l.width + ix + 1)
      if (ful.is_pack = true ∨ ful = .Wall) ∧ (fur.is_pack = true ∨ fur = .Wall) ∧
         (fdl.is_pack = true ∨ fdl = .Wall) ∧ (fdr.is_pack = true ∨ fdr = .Wall) then
        let packs := (if ful.is_pack then 1 else 0) + (if fur.is_pack then 1 else 0) +
                     (if fdl.is_pack then 1 else 0) + (if fdr.is_pack then 1 else 0)
        let packs_on_target :=
          (if ful = .PackOnTarget then 1 else 0) + (if fur = .PackOnTarget then 1 else 0) +
          (if fdl = .PackOnTarget then 1 else 0) + (if fdr = .PackOnTarget then 1 else 0)
        if packs_on_target ≠ packs then some (.Locked2x2Block ix iy) else none
      else none
    pure (acc ++ row)) ([] : List CheckError)

/-- The corner-lock scan of Level::check (interior cells only); loop bounds
modelled as in lock2x2Errs, with both ranges starting at 1. -/
def Level.lockCornerErrs (l : Level) : Option (List CheckError) := do
  let hb ← checkedSub l.height 1
  ((List.range hb).drop 1).foldlM (fun acc iy => do
    let wb ← checkedSub l.width 1
    let row := ((List.range wb).drop 1).filterMap fun ix =>
      let fu := l.cell ((iy - 1) * l.width + ix)
      let fl := l.cell (iy * l.width + ix - 1)
      let fc := l.cell (iy * l.width + ix)
      let fr := l.cell (iy * l.width + ix + 1)
      let fd := l.cell ((iy + 1) * l.width + ix)
      if fc = .Pack then
        if (fu = .Wall ∧ (fl = .Wall ∨ fr = .Wall)) ∨
           (fd = .Wall ∧ (fl = .Wall ∨ fr = .Wall)) ∨
           (fl = .Wall ∧ (fu = .Wall ∨ fd = .Wall)) ∨
           (fr = .Wall ∧ (fu = .Wall ∨ fd = .Wall)) then
          some (.LockedPackApartWalls ix iy)
        else none
      else none
    pure (acc ++ row)) ([] : List CheckError)

/-- Level::check: all five checks accumulate into one error list, in
source order; Ok exactly when the list is empty; none models a panic. -/
def Level.check (l : Level) : Option (Except (List CheckError) Unit) := do
  let e3 ← l.fillErrs
  let e4 ← l.lock2x2Errs
  let e5 ← l.lockCornerErrs
  let errs := l.playerErrs ++ l.countErrs ++ e3 ++ e4 ++ e5
  pure (if errs.length ≠ 0 then .error errs else .ok ())

/-- Game state in a level (struct LevelState in src/level_state.rs). -/
structure LevelState where
  level : Level
  player_x : Nat
  player_y : Nat
  area : List Field
  moves : List Direction
  pushes_count : Nat
  deriving DecidableEq

/-- LevelState::new: locate the player, then run the full Level::check and
propagate its errors; none models a panic inside check. -/
def LevelState.new (level : Level) :
    Option (Except (List CheckError) LevelState) :=
  match position (fun f => f.is_player) level.area with
  | some pp =>
    match level.check with
    | none => none
    | some (.error e) => some (.error e)
    | some (.ok _) =>
      some (.ok ⟨level, pp % level.width, pp / level.width, level.area, [], 0⟩)
  | none => some (.error [.NoPlayer])

/-- LevelState::reset: restore everything from the source level; none
models the no-player panic and the copy_from_slice length panic. -/
def LevelState.reset (s : LevelState) : Option LevelState :=
  match position (fun f => f.is_player) s.level.area with
  | some pp =>
    if s.area.length = s.level.area.length then
      some { s with
        moves := [],
        player_x := pp % s.level.width,
        player_y := pp / s.level.width,
        area := s.level.area,
        pushes_count := 0 }
    else none
  | none => none

/-- The field at linear index i of the state's working area. -/
def LevelState.cell (s : LevelState) (i : Nat) : Field :=
  s.area.getD i Field.Wall

/-- LevelState::make_move.  The returned pair is (moved, pushed); none
models a panic (which cannot happen on a well-formed state).  The
boundary guards mirror the source exactly; new_x and new_y use truncating
Nat subtraction because the source value is unused whenever the
corresponding guard fails. -/
def LevelState.make_move (s : LevelState) (dir : Direction) :
    Option ((Bool × Bool) × LevelState) :=
  let width := s.level.width
  let height := s.level.height
  let this_pos := s.player_y * width + s.player_x
  let setup : Option Nat × Option Nat × Nat × Nat × Direction × Direction :=
    match dir with
    | .Left | .PushLeft =>
      (if s.player_x > 0 then some (this_pos - 1) else none,
       if s.player_x > 1 then some (this_pos - 2) else none,
       s.player_x - 1, s.player_y, .Left, .PushLeft)
    | .Right | .PushRight =>
      (if s.player_x < width - 1 then some (this_pos + 1) else none,
       if s.player_x < width - 2 then some (this_pos + 2) else none,
       s.player_x + 1, s.player_y, .Right, .PushRight)
    | .Up | .PushUp =>
      (if s.player_y > 0 then some (this_pos - width) else none,
       if s.player_y > 1 then some (this_pos - 2 * width) else none,
       s.player_x, s.player_y - 1, .Up, .PushUp)
    | .Down | .PushDown =>
      (if s.player_y < height - 1 then some (this_pos + width) else none,
       if s.player_y < height - 2 then some (this_pos + 2 * width) else none,
       s.player_x, s.player_y + 1, .Down, .PushDown)
    | .NoDirection => (none, none, 0, 0, .NoDirection, .NoDirection)
  match setup with
  | (pnext_pos, pnext2_pos, new_x, new_y, ddir, push_dir) =>
    match pnext_pos with
    | some next_pos =>
      match s.cell next_pos with
      | .Empty | .Target =>
        let area1 := s.area.set next_pos (s.cell next_pos).set_player
        match (area1.getD this_pos Field.Wall).unset_player with
        | some c =>
          some ((true, false),
            { s with
              area := area1.set this_pos c,
              player_x := new_x, player_y := new_y,
              moves := s.moves ++ [ddir] })
        | none => none
      | .Pack | .PackOnTarget =>
        match pnext2_pos with
        | some next2_pos =>
          if s.cell next2_pos ≠ .Wall ∧ (s.cell next2_pos).is_pack = false then
            let area1 := s.area.set next2_pos (s.cell next2_pos).set_pack
            let area2 := area1.set next_pos ((area1.getD next_pos Field.Wall).set_player)
            match (area2.getD this_pos Field.Wall).unset_player with
            | some c =>
              some ((true, true),
                { s with
                  area := area2.set this_pos c,
                  player_x := new_x, player_y := new_y,
                  moves := s.moves ++ [push_dir],
                  pushes_count := s.pushes_count + 1 })
            | none => none
          else some ((false, false), s)
        | none => some ((false, false), s)
      | _ => some ((false, false), s)
    | none => some ((false, false), s)

/-- LevelState::undo_move.  Returns (undone, new state); none models the
frame panics, the unknown-direction panic and the unset panics. -/
def LevelState.undo_move (s : LevelState) : Option (Bool × LevelState) :=
  match s.moves.getLast? with
  | none => some (false, s)
  | some dir =>
    let moves1 := s.moves.dropLast
    let width := s.level.width
    let height := s.level.height
    let this_pos := s.player_y * width + s.player_x
    let cont : Option (Nat × Option Nat × Nat × Nat) :=
      match dir with
      | .Right | .PushRight =>
        if s.player_x = 0 then none
        else some (this_pos - 1,
          (if dir = .PushRight then some (this_pos + 1) else none),
          s.player_x - 1, s.player_y)
      | .Left | .PushLeft =>
        if s.player_x ≥ width - 1 then none
        else if dir = .PushLeft then
          match checkedSub this_pos 1 with
          | some np => some (this_pos + 1, some np, s.player_x + 1, s.player_y)
          | none => none
        else some (this_pos + 1, none, s.player_x + 1, s.player_y)
      | .Down | .PushDown =>
        if s.player_y = 0 then none
        else some (this_pos - width,
          (if dir = .PushDown then some (this_pos + width) else none),
          s.player_x, s.player_y - 1)
      | .Up | .PushUp =>
        if s.player_y ≥ height - 1 then none
        else if dir = .PushUp then
          match checkedSub this_pos width with
          | some np => some (this_pos + width, some np, s.player_x, s.player_y + 1)
          | none => none
        else some (this_pos + width, none, s.player_x, s.player_y + 1)
      | .NoDirection => none
    match cont with
    | none => none
    | some (prev_pos, pnext_pos, old_x, old_y) =>
      let step1 : Option (List Field × Nat) :=
        match pnext_pos with
        | some next_pos =>
          match (s.cell next_pos).unset_pack with
          | some c =>
            let a1 := s.area.set next_pos c
            some (a1.set this_pos ((a1.getD this_pos Field.Wall).set_pack),
              s.pushes_count - 1)
          | none => none
        | none =>
          match (s.cell this_pos).unset_player with
          | some c => some (s.area.set this_pos c, s.pushes_count)
          | none => none
      match step1 with
      | none => none
      | some (a2, pc) =>
        some (true,
          { s with
            area := a2.set prev_pos ((a2.getD prev_pos Field.Wall).set_player),
            player_x := old_x, player_y := old_y,
            moves := moves1, pushes_count := pc })

/-- Is a direction one of the four push variants. -/
def isPushDir : Direction → Bool
  | .PushLeft | .PushRight | .PushUp | .PushDown => true
  | _ => false

/-- Well-formedness invariant of a play state over level l: the level
reference, the grid size, player bounds, the unique player tag at the
player position, the pushes counter, and the one-player property of the
source level. -/
def WF (l : Level) (s : LevelState) : Prop :=
  s.level = l ∧
  l.area.length = l.width * l.height ∧
  s.area.length = l.width * l.height ∧
  s.player_x < l.width ∧
  s.player_y < l.height ∧
  (s.area.getD (s.player_y * l.width + s.player_x) Field.Wall).is_player = true ∧
  (∀ i, i < s.area.length → (s.area.getD i Field.Wall).is_player = true →
    i = s.player_y * l.width + s.player_x) ∧
  s.pushes_count = (s.moves.filter isPushDir).length ∧
  (l.area.filter fun f => f.is_player).length = 1

/-- States reachable from LevelState::new by make_move, undo_move, reset. -/
inductive Reachable (l : Level) : LevelState → Prop where
  | init (s : LevelState) : LevelState.new l = some (.ok s) → Reachable l s
  | mv (s s' : LevelState) (d : Direction) (r : Bool × Bool) :
      Reachable l s → s.make_move d = some (r, s') → Reachable l s'
  | undo (s s' : LevelState) (b : Bool) :
      Reachable l s → s.undo_move = some (b, s') → Reachable l s'
  | rst (s s' : LevelState) :
      Reachable l s → s.reset = some s' → Reachable l s'

def ring3 : Level :=
  ⟨"", 3, 3, [.Wall, .Wall, .Wall, .Wall, .Player, .Wall, .Wall, .Wall, .Wall]⟩

def ring3State : LevelState := ⟨ring3, 1, 1, ring3.area, [], 0⟩

def lvl53 : Level :=
  ⟨"", 5, 3, [.Wall, .Wall, .Wall, .Wall, .Wall,
              .Wall, .Target, .Pack, .Player, .Wall,
              .Wall, .Wall, .Wall, .Wall, .Wall]⟩

def st53 : LevelState := ⟨lvl53, 3, 1, lvl53.area, [], 0⟩

def st53p : LevelState :=
  ⟨lvl53, 2, 1, [.Wall, .Wall, .Wall, .Wall, .Wall,
                 .Wall, .PackOnTarget, .Player, .Empty, .Wall,
                 .Wall, .Wall, .Wall, .Wall, .Wall], [.PushLeft], 1⟩

/-- Four-neighbourhood adjacency of grid coordinates. -/
def adj (x y x2 y2 : Nat) : Prop :=
  (x2 = x + 1 ∧ y2 = y) ∨ (x = x2 + 1 ∧ y2 = y) ∨
  (x2 = x ∧ y2 = y + 1) ∨ (x2 = x ∧ y = y2 + 1)

/-- The 4-connected component of non-wall cells containing (px, py):
ordinary flood-fill reachability, walls impassable, every other cell
(including cells holding boxes) passable. -/
inductive Reach (l : Level) (px py : Nat) : Nat → Nat → Prop where
  | base : Reach l px py px py
  | step {x y x2 y2 : Nat} : Reach l px py x y → adj x y x2 y2 →
      x2 < l.width → y2 < l.height →
      l.cell (y2 * l.width + x2) ≠ .Wall → Reach l px py x2 y2

/-- Direction rank in the walk's emission order Left, Right, Down, Up. -/
def rankD : Direction → Nat
  | .Left => 0
  | .Right => 1
  | .Down => 2
  | .Up => 3
  | _ => 4

/-- Bounds and direction sanity of the stack items. -/
def BP (l : Level) (stk : List StackItem) : Prop :=
  ∀ it ∈ stk, it.x < l.width ∧ it.y < l.height ∧
    (it.d = .Left ∨ it.d = .Right ∨ it.d = .Down ∨ it.d = .Up ∨
      it.d = .NoDirection)

/-- An item whose direction advanced past Left has already filled its cell. -/
def DInv (l : Level) (filled : Nat → Bool) (stk : List StackItem) : Prop :=
  ∀ it ∈ stk, it.d ≠ .Left → filled (it.y * l.width + it.x) = true

/-- Every filled index is an in-bounds cell of the player's component. -/
def SInv1 (l : Level) (px py : Nat) (filled : Nat → Bool) : Prop :=
  ∀ j, filled j = true → ∃ x y, x < l.width ∧ y < l.height ∧
    j = y * l.width + x ∧ Reach l px py x y

/-- Every stack item sits at the start or adjacent to a reached cell. -/
def SInv2 (l : Level) (px py : Nat) (stk : List StackItem) : Prop :=
  ∀ it ∈ stk, (it.x = px ∧ it.y = py) ∨
    ∃ x y, Reach l px py x y ∧ adj x y it.x it.y

/-- The start cell is filled or still scheduled. -/
def StartInv (l : Level) (px py : Nat) (filled : Nat → Bool)
    (stk : List StackItem) : Prop :=
  filled (py * l.width + px) = true ∨ ∃ it ∈ stk, it.x = px ∧ it.y = py

/-- Neighbour k of (x, y) is out of bounds, a wall, filled, or scheduled. -/
def nbOK (l : Level) (filled : Nat → Bool) (stk : List StackItem)
    (x y k : Nat) : Prop :=
  match k with
  | 0 => x = 0 ∨ l.cell (y * l.width + (x - 1)) = .Wall ∨
      filled (y * l.width + (x - 1)) = true ∨
      ∃ it ∈ stk, it.x = x - 1 ∧ it.y = y
  | 1 => ¬(x + 1 < l.width) ∨ l.cell (y * l.width + (x + 1)) = .Wall ∨
      filled (y * l.width + (x + 1)) = true ∨
      ∃ it ∈ stk, it.x = x + 1 ∧ it.y = y
  | 2 => y = 0 ∨ l.cell ((y - 1) * l.width + x) = .Wall ∨
      filled ((y - 1) * l.width + x) = true ∨
      ∃ it ∈ stk, it.x = x ∧ it.y = y - 1
  | 3 => ¬(y + 1 < l.height) ∨ l.cell ((y + 1) * l.width + x) = .Wall ∨
      filled ((y + 1) * l.width + x) = true ∨
      ∃ it ∈ stk, it.x = x ∧ it.y = y + 1
  | _ => True

/-- Every neighbour of a filled cell is accounted for: either a pending
item at the cell itself will emit it later, or it is settled. -/
def CInv (l : Level) (filled : Nat → Bool) (stk : List StackItem) : Prop :=
  ∀ x y, x < l.width → y < l.height → filled (y * l.width + x) = true →
    ∀ k, k < 4 →
      (∃ it ∈ stk, it.x = x ∧ it.y = y ∧ it.d ≠ .Left ∧ rankD it.d ≤ k) ∨
      nbOK l filled stk x y k

/-- The full loop invariant of the flood fill. -/
def FillInv (l : Level) (px py : Nat) (filled : Nat → Bool)
    (stk : List StackItem) : Prop :=
  BP l stk ∧ DInv l filled stk ∧ SInv1 l px py filled ∧
    SInv2 l px py stk ∧ StartInv l px py filled stk ∧ CInv l filled stk

/-- Cost of a pending stack item by direction, for the loop potential. -/
def dCost : Direction → Nat
  | .Left => 1
  | .Right => 9
  | .Down => 6
  | .Up => 3
  | _ => 1

def stackCost (stk : List StackItem) : Nat :=
  (stk.map (fun it => dCost it.d)).sum

/-- Number of still-unfilled cell indices below width*height. -/
def ucount (l : Level) (filled : Nat → Bool) : Nat :=
  ((Finset.range (l.width * l.height)).filter (fun i => filled i = false)).card

/-- Potential that strictly decreases on every flood-fill iteration. -/
def Phi (l : Level) (filled : Nat → Bool) (stk : List StackItem) : Nat :=
  10 * ucount l filled + stackCost stk

def lvlC4 : Level :=
  ⟨"", 7, 3,
    [.Wall, .Wall, .Wall, .Wall, .Wall, .Wall, .Wall,
     .Wall, .Player, .Empty, .Wall, .PackOnTarget, .Wall, .Wall,
     .Wall, .Wall, .Wall, .Wall, .Wall, .Wall, .Wall]⟩

def lvl51 : Level :=
  ⟨"", 5, 1, [.Wall, .Player, .Pack, .Empty, .Wall]⟩

def lvlW0H1 : Level :=
  ⟨"", 0, 1, []⟩

/-! ### General list and field lemmas, and the move/undo round trip -/

theorem getD_set_self {α : Type _} (l : List α) (i : Nat) (a d : α)
    (h : i < l.length) : (l.set i a).getD i d = a := by
  simp [List.getD_eq_getElem?_getD, List.getElem?_set_self h]

theorem getD_set_ne {α : Type _} (l : List α) {i j : Nat} (hij : i ≠ j)
    (a d : α) : (l.set i a).getD j d = l.getD j d := by
  simp [List.getD_eq_getElem?_getD, List.getElem?_set_ne hij]

theorem set_getD_self {α : Type _} (l : List α) (i : Nat) (d : α)
    (h : i < l.length) : l.set i (l.getD i d) = l := by
  apply List.ext_getElem?
  intro n
  rcases eq_or_ne i n with rfl | hne
  · simp [List.getElem?_set_self h, List.getD_eq_getElem?_getD,
      List.getElem?_eq_getElem h]
  · simp [List.getElem?_set_ne hne]

/-- Generic two-cell area roundtrip: overwrite cells n and t, then restore
their original contents in the same order. -/
theorem set_roundtrip2 {α : Type _} (A : List α) (t n : Nat) (X c : α) (d : α)
    (ht : t < A.length) (hn : n < A.length) (hne : n ≠ t) :
    (((A.set n X).set t c).set n (A.getD n d)).set t (A.getD t d) = A := by
  apply List.ext_getElem?
  intro k
  rcases eq_or_ne t k with rfl | hkt
  · rw [List.getElem?_set_self (by simpa using ht)]
    simp [List.getD_eq_getElem?_getD, List.getElem?_eq_getElem ht]
  · rw [List.getElem?_set_ne hkt]
    rcases eq_or_ne n k with rfl | hkn
    · rw [List.getElem?_set_self (by simpa using hn)]
      simp [List.getD_eq_getElem?_getD, List.getElem?_eq_getElem hn]
    · rw [List.getElem?_set_ne hkn, List.getElem?_set_ne hkt,
        List.getElem?_set_ne hkn]

/-- Generic three-cell area roundtrip for the push move. -/
theorem set_roundtrip3 {α : Type _} (A : List α) (t n m : Nat) (X Y c : α)
    (d : α) (ht : t < A.length) (hn : n < A.length) (hm : m < A.length)
    (hnt : n ≠ t) (hmt : m ≠ t) (hmn : m ≠ n) :
    (((((A.set m X).set n Y).set t c).set m (A.getD m d)).set n
        (A.getD n d)).set t (A.getD t d) = A := by
  apply List.ext_getElem?
  intro k
  rcases eq_or_ne t k with rfl | hkt
  · rw [List.getElem?_set_self (by simpa using ht)]
    simp [List.getD_eq_getElem?_getD, List.getElem?_eq_getElem ht]
  · rw [List.getElem?_set_ne hkt]
    rcases eq_or_ne n k with rfl | hkn
    · rw [List.getElem?_set_self (by simpa using hn)]
      simp [List.getD_eq_getElem?_getD, List.getElem?_eq_getElem hn]
    · rw [List.getElem?_set_ne hkn]
      rcases eq_or_ne m k with rfl | hkm
      · rw [List.getElem?_set_self (by simpa using hm)]
        simp [List.getD_eq_getElem?_getD, List.getElem?_eq_getElem hm]
      · rw [List.getElem?_set_ne hkm, List.getElem?_set_ne hkt,
          List.getElem?_set_ne hkn, List.getElem?_set_ne hkm]



theorem Field.unset_set_player (v : Field) (hv : v = .Empty ∨ v = .Target) :
    v.set_player.unset_player = some v := by
  rcases hv with rfl | rfl <;> rfl

theorem Field.set_unset_player (f c : Field) (hf : f.is_player = true)
    (h : f.unset_player = some c) : c.set_player = f := by
  cases f <;> simp_all [Field.unset_player, Field.is_player] <;>
    (subst h; rfl)

theorem Field.unset_set_pack (v : Field) (hv : v = .Empty ∨ v = .Target) :
    v.set_pack.unset_pack = some v := by
  rcases hv with rfl | rfl <;> rfl

theorem Field.set_pack_set_player (v : Field) (hv : v.is_pack = true) :
    v.set_player.set_pack = v := by
  cases v <;> simp_all [Field.is_pack] <;> rfl

theorem Field.eq_empty_or_target (v : Field) (h1 : v ≠ .Wall)
    (h2 : v.is_pack = false) (h3 : v.is_player = false) :
    v = .Empty ∨ v = .Target := by
  cases v <;> simp_all [Field.is_pack, Field.is_player]

theorem Field.player_cases (f : Field) (hf : f.is_player = true) :
    f = .Player ∨ f = .PlayerOnTarget := by
  cases f <;> simp_all [Field.is_player]

theorem idx_lt {x y w h : Nat} (hx : x < w) (hy : y < h) :
    y * w + x < w * h := by
  calc y * w + x < y * w + w := by omega
  _ = (y + 1) * w := by ring
  _ ≤ h * w := Nat.mul_le_mul_right w hy
  _ = w * h := Nat.mul_comm h w



theorem undo_eval_left_plain (lvl : Level) (ux uy : Nat) (B : List Field)
    (mv : List Direction) (pc : Nat) (hguard : ¬ ux ≥ lvl.width - 1) (c2 : Field)
    (hc2 : (B.getD (uy * lvl.width + ux) Field.Wall).unset_player = some c2) :
    LevelState.undo_move ⟨lvl, ux, uy, B, mv ++ [.Left], pc⟩ =
      some (true, ⟨lvl, ux + 1, uy,
        (B.set (uy * lvl.width + ux) c2).set (uy * lvl.width + ux + 1)
          (((B.set (uy * lvl.width + ux) c2).getD (uy * lvl.width + ux + 1)
            Field.Wall).set_player), mv, pc⟩) := by
  simp only [LevelState.undo_move, LevelState.cell, List.getLast?_concat,
    List.dropLast_concat, if_neg hguard]
  simp only [show (Direction.Left = Direction.PushLeft) = False by simp, if_false, hc2]

theorem undo_eval_left_push (lvl : Level) (ux uy : Nat) (B : List Field)
    (mv : List Direction) (pc : Nat) (hguard : ¬ ux ≥ lvl.width - 1)
    (ht1 : 1 ≤ uy * lvl.width + ux) (c2 : Field)
    (hc2 : (B.getD (uy * lvl.width + ux - 1) Field.Wall).unset_pack = some c2) :
    LevelState.undo_move ⟨lvl, ux, uy, B, mv ++ [.PushLeft], pc⟩ =
      some (true, ⟨lvl, ux + 1, uy,
        ((B.set (uy * lvl.width + ux - 1) c2).set (uy * lvl.width + ux)
            (((B.set (uy * lvl.width + ux - 1) c2).getD (uy * lvl.width + ux)
              Field.Wall).set_pack)).set (uy * lvl.width + ux + 1)
          ((((B.set (uy * lvl.width + ux - 1) c2).set (uy * lvl.width + ux)
              (((B.set (uy * lvl.width + ux - 1) c2).getD (uy * lvl.width + ux)
                Field.Wall).set_pack)).getD (uy * lvl.width + ux + 1)
            Field.Wall).set_player), mv, pc - 1⟩) := by
  simp only [LevelState.undo_move, LevelState.cell, List.getLast?_concat,
    List.dropLast_concat, if_neg hguard]
  simp only [show (Direction.PushLeft = Direction.PushLeft) = True by simp, if_true,
    checkedSub, if_pos ht1, hc2]

theorem undo_eval_right_plain (lvl : Level) (ux uy : Nat) (B : List Field)
    (mv : List Direction) (pc : Nat) (hguard : ¬ ux = 0) (c2 : Field)
    (hc2 : (B.getD (uy * lvl.width + ux) Field.Wall).unset_player = some c2) :
    LevelState.undo_move ⟨lvl, ux, uy, B, mv ++ [.Right], pc⟩ =
      some (true, ⟨lvl, ux - 1, uy,
        (B.set (uy * lvl.width + ux) c2).set (uy * lvl.width + ux - 1)
          (((B.set (uy * lvl.width + ux) c2).getD (uy * lvl.width + ux - 1)
            Field.Wall).set_player), mv, pc⟩) := by
  simp only [LevelState.undo_move, LevelState.cell, List.getLast?_concat,
    List.dropLast_concat, if_neg hguard]
  simp only [show (Direction.Right = Direction.PushRight) = False by simp, if_false, hc2]

theorem undo_eval_right_push (lvl : Level) (ux uy : Nat) (B : List Field)
    (mv : List Direction) (pc : Nat) (hguard : ¬ ux = 0) (c2 : Field)
    (hc2 : (B.getD (uy * lvl.width + ux + 1) Field.Wall).unset_pack = some c2) :
    LevelState.undo_move ⟨lvl, ux, uy, B, mv ++ [.PushRight], pc⟩ =
      some (true, ⟨lvl, ux - 1, uy,
        ((B.set (uy * lvl.width + ux + 1) c2).set (uy * lvl.width + ux)
            (((B.set (uy * lvl.width + ux + 1) c2).getD (uy * lvl.width + ux)
              Field.Wall).set_pack)).set (uy * lvl.width + ux - 1)
          ((((B.set (uy * lvl.width + ux + 1) c2).set (uy * lvl.width + ux)
              (((B.set (uy * lvl.width + ux + 1) c2).getD (uy * lvl.width + ux)
                Field.Wall).set_pack)).getD (uy * lvl.width + ux - 1)
            Field.Wall).set_player), mv, pc - 1⟩) := by
  simp only [LevelState.undo_move, LevelState.cell, List.getLast?_concat,
    List.dropLast_concat, if_neg hguard]
  simp only [show (Direction.PushRight = Direction.PushRight) = True by simp, if_true, hc2]

theorem undo_eval_up_plain (lvl : Level) (ux uy : Nat) (B : List Field)
    (mv : List Direction) (pc : Nat) (hguard : ¬ uy ≥ lvl.height - 1) (c2 : Field)
    (hc2 : (B.getD (uy * lvl.width + ux) Field.Wall).unset_player = some c2) :
    LevelState.undo_move ⟨lvl, ux, uy, B, mv ++ [.Up], pc⟩ =
      some (true, ⟨lvl, ux, uy + 1,
        (B.set (uy * lvl.width + ux) c2).set (uy * lvl.width + ux + lvl.width)
          (((B.set (uy * lvl.width + ux) c2).getD (uy * lvl.width + ux + lvl.width)
            Field.Wall).set_player), mv, pc⟩) := by
  simp only [LevelState.undo_move, LevelState.cell, List.getLast?_concat,
    List.dropLast_concat, if_neg hguard]
  simp only [show (Direction.Up = Direction.PushUp) = False by simp, if_false, hc2]

theorem undo_eval_up_push (lvl : Level) (ux uy : Nat) (B : List Field)
    (mv : List Direction) (pc : Nat) (hguard : ¬ uy ≥ lvl.height - 1)
    (htw : lvl.width ≤ uy * lvl.width + ux) (c2 : Field)
    (hc2 : (B.getD (uy * lvl.width + ux - lvl.width) Field.Wall).unset_pack = some c2) :
    LevelState.undo_move ⟨lvl, ux, uy, B, mv ++ [.PushUp], pc⟩ =
      some (true, ⟨lvl, ux, uy + 1,
        ((B.set (uy * lvl.width + ux - lvl.width) c2).set (uy * lvl.width + ux)
            (((B.set (uy * lvl.width + ux - lvl.width) c2).getD (uy * lvl.width + ux)
              Field.Wall).set_pack)).set (uy * lvl.width + ux + lvl.width)
          ((((B.set (uy * lvl.width + ux - lvl.width) c2).set (uy * lvl.width + ux)
              (((B.set (uy * lvl.width + ux - lvl.width) c2).getD (uy * lvl.width + ux)
                Field.Wall).set_pack)).getD (uy * lvl.width + ux + lvl.width)
            Field.Wall).set_player), mv, pc - 1⟩) := by
  simp only [LevelState.undo_move, LevelState.cell, List.getLast?_concat,
    List.dropLast_concat, if_neg hguard]
  simp only [show (Direction.PushUp = Direction.PushUp) = True by simp, if_true,
    checkedSub, if_pos htw, hc2]

theorem undo_eval_down_plain (lvl : Level) (ux uy : Nat) (B : List Field)
    (mv : List Direction) (pc : Nat) (hguard : ¬ uy = 0) (c2 : Field)
    (hc2 : (B.getD (uy * lvl.width + ux) Field.Wall).unset_player = some c2) :
    LevelState.undo_move ⟨lvl, ux, uy, B, mv ++ [.Down], pc⟩ =
      some (true, ⟨lvl, ux, uy - 1,
        (B.set (uy * lvl.width + ux) c2).set (uy * lvl.width + ux - lvl.width)
          (((B.set (uy * lvl.width + ux) c2).getD (uy * lvl.width + ux - lvl.width)
            Field.Wall).set_player), mv, pc⟩) := by
  simp only [LevelState.undo_move, LevelState.cell, List.getLast?_concat,
    List.dropLast_concat, if_neg hguard]
  simp only [show (Direction.Down = Direction.PushDown) = False by simp, if_false, hc2]

theorem undo_eval_down_push (lvl : Level) (ux uy : Nat) (B : List Field)
    (mv : List Direction) (pc : Nat) (hguard : ¬ uy = 0) (c2 : Field)
    (hc2 : (B.getD (uy * lvl.width + ux + lvl.width) Field.Wall).unset_pack = some c2) :
    LevelState.undo_move ⟨lvl, ux, uy, B, mv ++ [.PushDown], pc⟩ =
      some (true, ⟨lvl, ux, uy - 1,
        ((B.set (uy * lvl.width + ux + lvl.width) c2).set (uy * lvl.width + ux)
            (((B.set (uy * lvl.width + ux + lvl.width) c2).getD (uy * lvl.width + ux)
              Field.Wall).set_pack)).set (uy * lvl.width + ux - lvl.width)
          ((((B.set (uy * lvl.width + ux + lvl.width) c2).set (uy * lvl.width + ux)
              (((B.set (uy * lvl.width + ux + lvl.width) c2).getD (uy * lvl.width + ux)
                Field.Wall).set_pack)).getD (uy * lvl.width + ux - lvl.width)
            Field.Wall).set_player), mv, pc - 1⟩) := by
  simp only [LevelState.undo_move, LevelState.cell, List.getLast?_concat,
    List.dropLast_concat, if_neg hguard]
  simp only [show (Direction.PushDown = Direction.PushDown) = True by simp, if_true, hc2]


theorem roundtrip_left (lvl : Level) (px py : Nat) (A : List Field)
    (mv : List Direction) (pc : Nat) (pushed : Bool) (s' : LevelState)
    (hlen : A.length = lvl.width * lvl.height)
    (hx : px < lvl.width) (hy : py < lvl.height)
    (hp : (A.getD (py * lvl.width + px) Field.Wall).is_player = true)
    (hu : ∀ i, i < A.length → (A.getD i Field.Wall).is_player = true →
      i = py * lvl.width + px)
    (h : LevelState.make_move ⟨lvl, px, py, A, mv, pc⟩ .Left =
      some ((true, pushed), s')) :
    s'.undo_move = some (true, ⟨lvl, px, py, A, mv, pc⟩) := by
  have htA : py * lvl.width + px < A.length := hlen ▸ idx_lt hx hy
  simp only [LevelState.make_move, LevelState.cell] at h
  repeat' split at h
  all_goals (try cases h)
  · -- destination Empty, plain move
    rename_i o1 n hn f hf o2 c hc
    have hpx0 : 0 < px := by by_contra hq; rw [if_neg hq] at hn; cases hn
    rw [if_pos hpx0] at hn; injection hn with hn; subst hn
    have hnA : py * lvl.width + px - 1 < A.length := by omega
    have hne : py * lvl.width + px - 1 ≠ py * lvl.width + px := by omega
    have hne' : py * lvl.width + px ≠ py * lvl.width + px - 1 := hne.symm
    have hv : A.getD (py * lvl.width + px - 1) Field.Wall = Field.Empty ∨
        A.getD (py * lvl.width + px - 1) Field.Wall = Field.Target := Or.inl hf
    simp only [getD_set_ne, getD_set_self, List.length_set, hne, hne', htA, hnA,
      ne_eq, not_false_eq_true] at hc
    have hcp : c.set_player = A.getD (py * lvl.width + px) Field.Wall :=
      Field.set_unset_player _ _ hp hc
    rw [undo_eval_left_plain lvl (px - 1) py _ mv pc (by omega)
      (A.getD (py * lvl.width + px - 1) Field.Wall) ?hc2]
    case hc2 =>
      rw [show py * lvl.width + (px - 1) = py * lvl.width + px - 1 from by omega]
      simp only [getD_set_ne, getD_set_self, List.length_set, hne, hne', htA, hnA,
        ne_eq, not_false_eq_true]
      exact Field.unset_set_player _ hv
    rw [show py * lvl.width + (px - 1) + 1 = py * lvl.width + px from by omega]
    rw [show py * lvl.width + (px - 1) = py * lvl.width + px - 1 from by omega]
    rw [show px - 1 + 1 = px from by omega]
    simp only [getD_set_ne, getD_set_self, List.length_set, hne, hne', htA, hnA,
      ne_eq, not_false_eq_true]
    rw [hcp, set_roundtrip2 A _ _ _ _ _ htA hnA hne]
  · -- destination Target, plain move
    rename_i o1 n hn f hf o2 c hc
    have hpx0 : 0 < px := by by_contra hq; rw [if_neg hq] at hn; cases hn
    rw [if_pos hpx0] at hn; injection hn with hn; subst hn
    have hnA : py * lvl.width + px - 1 < A.length := by omega
    have hne : py * lvl.width + px - 1 ≠ py * lvl.width + px := by omega
    have hne' : py * lvl.width + px ≠ py * lvl.width + px - 1 := hne.symm
    have hv : A.getD (py * lvl.width + px - 1) Field.Wall = Field.Empty ∨
        A.getD (py * lvl.width + px - 1) Field.Wall = Field.Target := Or.inr hf
    simp only [getD_set_ne, getD_set_self, List.length_set, hne, hne', htA, hnA,
      ne_eq, not_false_eq_true] at hc
    have hcp : c.set_player = A.getD (py * lvl.width + px) Field.Wall :=
      Field.set_unset_player _ _ hp hc
    rw [undo_eval_left_plain lvl (px - 1) py _ mv pc (by omega)
      (A.getD (py * lvl.width + px - 1) Field.Wall) ?hc2]
    case hc2 =>
      rw [show py * lvl.width + (px - 1) = py * lvl.width + px - 1 from by omega]
      simp only [getD_set_ne, getD_set_self, List.length_set, hne, hne', htA, hnA,
        ne_eq, not_false_eq_true]
      exact Field.unset_set_player _ hv
    rw [show py * lvl.width + (px - 1) + 1 = py * lvl.width + px from by omega]
    rw [show py * lvl.width + (px - 1) = py * lvl.width + px - 1 from by omega]
    rw [show px - 1 + 1 = px from by omega]
    simp only [getD_set_ne, getD_set_self, List.length_set, hne, hne', htA, hnA,
      ne_eq, not_false_eq_true]
    rw [hcp, set_roundtrip2 A _ _ _ _ _ htA hnA hne]
  · -- destination Pack, push move
    rename_i o1 n hn f hf o2 m hm hbb o3 c hc
    have hpx1 : 1 < px := by by_contra hq; rw [if_neg hq] at hm; cases hm
    rw [if_pos hpx1] at hm; injection hm with hm; subst hm
    have hpx0 : 0 < px := by omega
    rw [if_pos hpx0] at hn; injection hn with hn; subst hn
    have hnA : py * lvl.width + px - 1 < A.length := by omega
    have hmA : py * lvl.width + px - 2 < A.length := by omega
    have hne : py * lvl.width + px - 1 ≠ py * lvl.width + px := by omega
    have hne' : py * lvl.width + px ≠ py * lvl.width + px - 1 := hne.symm
    have hne2 : py * lvl.width + px - 2 ≠ py * lvl.width + px := by omega
    have hne2' : py * lvl.width + px ≠ py * lvl.width + px - 2 := hne2.symm
    have hne3 : py * lvl.width + px - 2 ≠ py * lvl.width + px - 1 := by omega
    have hne3' : py * lvl.width + px - 1 ≠ py * lvl.width + px - 2 := hne3.symm
    have hnp : (A.getD (py * lvl.width + px - 2) Field.Wall).is_player = false := by
      cases hq : (A.getD (py * lvl.width + px - 2) Field.Wall).is_player
      · rfl
      · exact absurd (hu _ hmA hq) (by omega)
    have hvm : A.getD (py * lvl.width + px - 2) Field.Wall = Field.Empty ∨
        A.getD (py * lvl.width + px - 2) Field.Wall = Field.Target :=
      Field.eq_empty_or_target _ hbb.1 hbb.2 hnp
    have hvp : (A.getD (py * lvl.width + px - 1) Field.Wall).is_pack = true := by
      rw [hf]; rfl
    simp only [getD_set_ne, getD_set_self, List.length_set, hne, hne', hne2, hne2',
      hne3, hne3', htA, hnA, hmA, ne_eq, not_false_eq_true] at hc
    have hcp : c.set_player = A.getD (py * lvl.width + px) Field.Wall :=
      Field.set_unset_player _ _ hp hc
    rw [undo_eval_left_push lvl (px - 1) py _ mv (pc + 1) (by omega) (by omega)
      (A.getD (py * lvl.width + px - 2) Field.Wall) ?hc2]
    case hc2 =>
      rw [show py * lvl.width + (px - 1) - 1 = py * lvl.width + px - 2 from by omega]
      simp only [getD_set_ne, getD_set_self, List.length_set, hne, hne', hne2, hne2',
        hne3, hne3', htA, hnA, hmA, ne_eq, not_false_eq_true]
      exact Field.unset_set_pack _ hvm
    rw [show py * lvl.width + (px - 1) - 1 = py * lvl.width + px - 2 from by omega]
    rw [show py * lvl.width + (px - 1) + 1 = py * lvl.width + px from by omega]
    rw [show py * lvl.width + (px - 1) = py * lvl.width + px - 1 from by omega]
    rw [show px - 1 + 1 = px from by omega]
    rw [show pc + 1 - 1 = pc from by omega]
    simp only [getD_set_ne, getD_set_self, List.length_set, hne, hne', hne2, hne2',
      hne3, hne3', htA, hnA, hmA, ne_eq, not_false_eq_true]
    rw [Field.set_pack_set_player _ hvp, hcp,
      set_roundtrip3 A _ _ _ _ _ _ _ htA hnA hmA hne hne2 hne3]
  · -- destination PackOnTarget, push move
    rename_i o1 n hn f hf o2 m hm hbb o3 c hc
    have hpx1 : 1 < px := by by_contra hq; rw [if_neg hq] at hm; cases hm
    rw [if_pos hpx1] at hm; injection hm with hm; subst hm
    have hpx0 : 0 < px := by omega
    rw [if_pos hpx0] at hn; injection hn with hn; subst hn
    have hnA : py * lvl.width + px - 1 < A.length := by omega
    have hmA : py * lvl.width + px - 2 < A.length := by omega
    have hne : py * lvl.width + px - 1 ≠ py * lvl.width + px := by omega
    have hne' : py * lvl.width + px ≠ py * lvl.width + px - 1 := hne.symm
    have hne2 : py * lvl.width + px - 2 ≠ py * lvl.width + px := by omega
    have hne2' : py * lvl.width + px ≠ py * lvl.width + px - 2 := hne2.symm
    have hne3 : py * lvl.width + px - 2 ≠ py * lvl.width + px - 1 := by omega
    have hne3' : py * lvl.width + px - 1 ≠ py * lvl.width + px - 2 := hne3.symm
    have hnp : (A.getD (py * lvl.width + px - 2) Field.Wall).is_player = false := by
      cases hq : (A.getD (py * lvl.width + px - 2) Field.Wall).is_player
      · rfl
      · exact absurd (hu _ hmA hq) (by omega)
    have hvm : A.getD (py * lvl.width + px - 2) Field.Wall = Field.Empty ∨
        A.getD (py * lvl.width + px - 2) Field.Wall = Field.Target :=
      Field.eq_empty_or_target _ hbb.1 hbb.2 hnp
    have hvp : (A.getD (py * lvl.width + px - 1) Field.Wall).is_pack = true := by
      rw [hf]; rfl
    simp only [getD_set_ne, getD_set_self, List.length_set, hne, hne', hne2, hne2',
      hne3, hne3', htA, hnA, hmA, ne_eq, not_false_eq_true] at hc
    have hcp : c.set_player = A.getD (py * lvl.width + px) Field.Wall :=
      Field.set_unset_player _ _ hp hc
    rw [undo_eval_left_push lvl (px - 1) py _ mv (pc + 1) (by omega) (by omega)
      (A.getD (py * lvl.width + px - 2) Field.Wall) ?hc2]
    case hc2 =>
      rw [show py * lvl.width + (px - 1) - 1 = py * lvl.width + px - 2 from by omega]
      simp only [getD_set_ne, getD_set_self, List.length_set, hne, hne', hne2, hne2',
        hne3, hne3', htA, hnA, hmA, ne_eq, not_false_eq_true]
      exact Field.unset_set_pack _ hvm
    rw [show py * lvl.width + (px - 1) - 1 = py * lvl.width + px - 2 from by omega]
    rw [show py * lvl.width + (px - 1) + 1 = py * lvl.width + px from by omega]
    rw [show py * lvl.width + (px - 1) = py * lvl.width + px - 1 from by omega]
    rw [show px - 1 + 1 = px from by omega]
    rw [show pc + 1 - 1 = pc from by omega]
    simp only [getD_set_ne, getD_set_self, List.length_set, hne, hne', hne2, hne2',
      hne3, hne3', htA, hnA, hmA, ne_eq, not_false_eq_true]
    rw [Field.set_pack_set_player _ hvp, hcp,
      set_roundtrip3 A _ _ _ _ _ _ _ htA hnA hmA hne hne2 hne3]

theorem roundtrip_right (lvl : Level) (px py : Nat) (A : List Field)
    (mv : List Direction) (pc : Nat) (pushed : Bool) (s' : LevelState)
    (hlen : A.length = lvl.width * lvl.height)
    (hx : px < lvl.width) (hy : py < lvl.height)
    (hp : (A.getD (py * lvl.width + px) Field.Wall).is_player = true)
    (hu : ∀ i, i < A.length → (A.getD i Field.Wall).is_player = true →
      i = py * lvl.width + px)
    (h : LevelState.make_move ⟨lvl, px, py, A, mv, pc⟩ .Right =
      some ((true, pushed), s')) :
    s'.undo_move = some (true, ⟨lvl, px, py, A, mv, pc⟩) := by
  have htA : py * lvl.width + px < A.length := hlen ▸ idx_lt hx hy
  simp only [LevelState.make_move, LevelState.cell] at h
  repeat' split at h
  all_goals (try cases h)
  · rename_i o1 n hn f hf o2 c hc
    have hpxw : px < lvl.width - 1 := by by_contra hq; rw [if_neg hq] at hn; cases hn
    rw [if_pos hpxw] at hn; injection hn with hn; subst hn
    have hnA : py * lvl.width + px + 1 < A.length := by
      have h1 := idx_lt (show px + 1 < lvl.width from by omega) hy; omega
    have hne : py * lvl.width + px + 1 ≠ py * lvl.width + px := by omega
    have hne' : py * lvl.width + px ≠ py * lvl.width + px + 1 := hne.symm
    have hv : A.getD (py * lvl.width + px + 1) Field.Wall = Field.Empty ∨
        A.getD (py * lvl.width + px + 1) Field.Wall = Field.Target := Or.inl hf
    simp only [getD_set_ne, getD_set_self, List.length_set, hne, hne', htA, hnA,
      ne_eq, not_false_eq_true] at hc
    have hcp : c.set_player = A.getD (py * lvl.width + px) Field.Wall :=
      Field.set_unset_player _ _ hp hc
    rw [undo_eval_right_plain lvl (px + 1) py _ mv pc (by omega)
      (A.getD (py * lvl.width + px + 1) Field.Wall) ?hc2]
    case hc2 =>
      rw [show py * lvl.width + (px + 1) = py * lvl.width + px + 1 from by omega]
      simp only [getD_set_ne, getD_set_self, List.length_set, hne, hne', htA, hnA,
      ne_eq, not_false_eq_true]
      exact Field.unset_set_player _ hv
    rw [show py * lvl.width + (px + 1) = py * lvl.width + px + 1 from by omega]
    rw [show py * lvl.width + px + 1 - 1 = py * lvl.width + px from by omega]
    rw [show px + 1 - 1 = px from by omega]
    simp only [getD_set_ne, getD_set_self, List.length_set, hne, hne', htA, hnA,
      ne_eq, not_false_eq_true]
    rw [hcp, set_roundtrip2 A _ _ _ _ _ htA hnA hne]
  · rename_i o1 n hn f hf o2 c hc
    have hpxw : px < lvl.width - 1 := by by_contra hq; rw [if_neg hq] at hn; cases hn
    rw [if_pos hpxw] at hn; injection hn with hn; subst hn
    have hnA : py * lvl.width + px + 1 < A.length := by
      have h1 := idx_lt (show px + 1 < lvl.width from by omega) hy; omega
    have hne : py * lvl.width + px + 1 ≠ py * lvl.width + px := by omega
    have hne' : py * lvl.width + px ≠ py * lvl.width + px + 1 := hne.symm
    have hv : A.getD (py * lvl.width + px + 1) Field.Wall = Field.Empty ∨
        A.getD (py * lvl.width + px + 1) Field.Wall = Field.Target := Or.inr hf
    simp only [getD_set_ne, getD_set_self, List.length_set, hne, hne', htA, hnA,
      ne_eq, not_false_eq_true] at hc
    have hcp : c.set_player = A.getD (py * lvl.width + px) Field.Wall :=
      Field.set_unset_player _ _ hp hc
    rw [undo_eval_right_plain lvl (px + 1) py _ mv pc (by omega)
      (A.getD (py * lvl.width + px + 1) Field.Wall) ?hc2]
    case hc2 =>
      rw [show py * lvl.width + (px + 1) = py * lvl.width + px + 1 from by omega]
      simp only [getD_set_ne, getD_set_self, List.length_set, hne, hne', htA, hnA,
      ne_eq, not_false_eq_true]
      exact Field.unset_set_player _ hv
    rw [show py * lvl.width + (px + 1) = py * lvl.width + px + 1 from by omega]
    rw [show py * lvl.width + px + 1 - 1 = py * lvl.width + px from by omega]
    rw [show px + 1 - 1 = px from by omega]
    simp only [getD_set_ne, getD_set_self, List.length_set, hne, hne', htA, hnA,
      ne_eq, not_false_eq_true]
    rw [hcp, set_roundtrip2 A _ _ _ _ _ htA hnA hne]
  · rename_i o1 n hn f hf o2 m hm hbb o3 c hc
    have hpxw2 : px < lvl.width - 2 := by by_contra hq; rw [if_neg hq] at hm; cases hm
    rw [if_pos hpxw2] at hm; injection hm with hm; subst hm
    have hpxw : px < lvl.width - 1 := by omega
    rw [if_pos hpxw] at hn; injection hn with hn; subst hn
    have hnA : py * lvl.width + px + 1 < A.length := by
      have h1 := idx_lt (show px + 1 < lvl.width from by omega) hy; omega
    have hmA : py * lvl.width + px + 2 < A.length := by
      have h1 := idx_lt (show px + 2 < lvl.width from by omega) hy; omega
    have hne : py * lvl.width + px + 1 ≠ py * lvl.width + px := by omega
    have hne' : py * lvl.width + px ≠ py * lvl.width + px + 1 := hne.symm
    have hne2 : py * lvl.width + px + 2 ≠ py * lvl.width + px := by omega
    have hne2' : py * lvl.width + px ≠ py * lvl.width + px + 2 := hne2.symm
    have hne3 : py * lvl.width + px + 2 ≠ py * lvl.width + px + 1 := by omega
    have hne3' : py * lvl.width + px + 1 ≠ py * lvl.width + px + 2 := hne3.symm
    have hnp : (A.getD (py * lvl.width + px + 2) Field.Wall).is_player = false := by
      cases hq : (A.getD (py * lvl.width + px + 2) Field.Wall).is_player
      · rfl
      · exact absurd (hu _ hmA hq) (by omega)
    have hvm : A.getD (py * lvl.width + px + 2) Field.Wall = Field.Empty ∨
        A.getD (py * lvl.width + px + 2) Field.Wall = Field.Target :=
      Field.eq_empty_or_target _ hbb.1 hbb.2 hnp
    have hvp : (A.getD (py * lvl.width + px + 1) Field.Wall).is_pack = true := by
      rw [hf]; rfl
    simp only [getD_set_ne, getD_set_self, List.length_set, hne, hne', hne2, hne2',
      hne3, hne3', htA, hnA, hmA, ne_eq, not_false_eq_true] at hc
    have hcp : c.set_player = A.getD (py * lvl.width + px) Field.Wall :=
      Field.set_unset_player _ _ hp hc
    rw [undo_eval_right_push lvl (px + 1) py _ mv (pc + 1) (by omega)
      (A.getD (py * lvl.width + px + 2) Field.Wall) ?hc2]
    case hc2 =>
      rw [show py * lvl.width + (px + 1) + 1 = py * lvl.width + px + 2 from by omega]
      simp only [getD_set_ne, getD_set_self, List.length_set, hne, hne', hne2, hne2',
      hne3, hne3', htA, hnA, hmA, ne_eq, not_false_eq_true]
      exact Field.unset_set_pack _ hvm
    rw [show py * lvl.width + (px + 1) + 1 = py * lvl.width + px + 2 from by omega]
    rw [show py * lvl.width + (px + 1) = py * lvl.width + px + 1 from by omega]
    rw [show py * lvl.width + px + 1 - 1 = py * lvl.width + px from by omega]
    rw [show px + 1 - 1 = px from by omega]
    rw [show pc + 1 - 1 = pc from by omega]
    simp only [getD_set_ne, getD_set_self, List.length_set, hne, hne', hne2, hne2',
      hne3, hne3', htA, hnA, hmA, ne_eq, not_false_eq_true]
    rw [Field.set_pack_set_player _ hvp, hcp,
      set_roundtrip3 A _ _ _ _ _ _ _ htA hnA hmA hne hne2 hne3]
  · rename_i o1 n hn f hf o2 m hm hbb o3 c hc
    have hpxw2 : px < lvl.width - 2 := by by_contra hq; rw [if_neg hq] at hm; cases hm
    rw [if_pos hpxw2] at hm; injection hm with hm; subst hm
    have hpxw : px < lvl.width - 1 := by omega
    rw [if_pos hpxw] at hn; injection hn with hn; subst hn
    have hnA : py * lvl.width + px + 1 < A.length := by
      have h1 := idx_lt (show px + 1 < lvl.width from by omega) hy; omega
    have hmA : py * lvl.width + px + 2 < A.length := by
      have h1 := idx_lt (show px + 2 < lvl.width from by omega) hy; omega
    have hne : py * lvl.width + px + 1 ≠ py * lvl.width + px := by omega
    have hne' : py * lvl.width + px ≠ py * lvl.width + px + 1 := hne.symm
    have hne2 : py * lvl.width + px + 2 ≠ py * lvl.width + px := by omega
    have hne2' : py * lvl.width + px ≠ py * lvl.width + px + 2 := hne2.symm
    have hne3 : py * lvl.width + px + 2 ≠ py * lvl.width + px + 1 := by omega
    have hne3' : py * lvl.width + px + 1 ≠ py * lvl.width + px + 2 := hne3.symm
    have hnp : (A.getD (py * lvl.width + px + 2) Field.Wall).is_player = false := by
      cases hq : (A.getD (py * lvl.width + px + 2) Field.Wall).is_player
      · rfl
      · exact absurd (hu _ hmA hq) (by omega)
    have hvm : A.getD (py * lvl.width + px + 2) Field.Wall = Field.Empty ∨
        A.getD (py * lvl.width + px + 2) Field.Wall = Field.Target :=
      Field.eq_empty_or_target _ hbb.1 hbb.2 hnp
    have hvp : (A.getD (py * lvl.width + px + 1) Field.Wall).is_pack = true := by
      rw [hf]; rfl
    simp only [getD_set_ne, getD_set_self, List.length_set, hne, hne', hne2, hne2',
      hne3, hne3', htA, hnA, hmA, ne_eq, not_false_eq_true] at hc
    have hcp : c.set_player = A.getD (py * lvl.width + px) Field.Wall :=
      Field.set_unset_player _ _ hp hc
    rw [undo_eval_right_push lvl (px + 1) py _ mv (pc + 1) (by omega)
      (A.getD (py * lvl.width + px + 2) Field.Wall) ?hc2]
    case hc2 =>
      rw [show py * lvl.width + (px + 1) + 1 = py * lvl.width + px + 2 from by omega]
      simp only [getD_set_ne, getD_set_self, List.length_set, hne, hne', hne2, hne2',
      hne3, hne3', htA, hnA, hmA, ne_eq, not_false_eq_true]
      exact Field.unset_set_pack _ hvm
    rw [show py * lvl.width + (px + 1) + 1 = py * lvl.width + px + 2 from by omega]
    rw [show py * lvl.width + (px + 1) = py * lvl.width + px + 1 from by omega]
    rw [show py * lvl.width + px + 1 - 1 = py * lvl.width + px from by omega]
    rw [show px + 1 - 1 = px from by omega]
    rw [show pc + 1 - 1 = pc from by omega]
    simp only [getD_set_ne, getD_set_self, List.length_set, hne, hne', hne2, hne2',
      hne3, hne3', htA, hnA, hmA, ne_eq, not_false_eq_true]
    rw [Field.set_pack_set_player _ hvp, hcp,
      set_roundtrip3 A _ _ _ _ _ _ _ htA hnA hmA hne hne2 hne3]


theorem roundtrip_up (lvl : Level) (px py : Nat) (A : List Field)
    (mv : List Direction) (pc : Nat) (pushed : Bool) (s' : LevelState)
    (hlen : A.length = lvl.width * lvl.height)
    (hx : px < lvl.width) (hy : py < lvl.height)
    (hp : (A.getD (py * lvl.width + px) Field.Wall).is_player = true)
    (hu : ∀ i, i < A.length → (A.getD i Field.Wall).is_player = true →
      i = py * lvl.width + px)
    (h : LevelState.make_move ⟨lvl, px, py, A, mv, pc⟩ .Up =
      some ((true, pushed), s')) :
    s'.undo_move = some (true, ⟨lvl, px, py, A, mv, pc⟩) := by
  have htA : py * lvl.width + px < A.length := hlen ▸ idx_lt hx hy
  simp only [LevelState.make_move, LevelState.cell] at h
  repeat' split at h
  all_goals (try cases h)
  · rename_i o1 n hn f hf o2 c hc
    have hpy0 : 0 < py := by by_contra hq; rw [if_neg hq] at hn; cases hn
    rw [if_pos hpy0] at hn; injection hn with hn; subst hn
    have hw0 : 0 < lvl.width := by omega
    have haw : lvl.width ≤ py * lvl.width := Nat.le_mul_of_pos_left _ hpy0
    have esub : (py - 1) * lvl.width = py * lvl.width - lvl.width := by
      rw [Nat.sub_mul, one_mul]
    have hnA : py * lvl.width + px - lvl.width < A.length := by omega
    have hne : py * lvl.width + px - lvl.width ≠ py * lvl.width + px := by omega
    have hne' : py * lvl.width + px ≠ py * lvl.width + px - lvl.width := hne.symm
    have hv : A.getD (py * lvl.width + px - lvl.width) Field.Wall = Field.Empty ∨
        A.getD (py * lvl.width + px - lvl.width) Field.Wall = Field.Target := Or.inl hf
    simp only [getD_set_ne, getD_set_self, List.length_set, hne, hne', htA, hnA,
      ne_eq, not_false_eq_true] at hc
    have hcp : c.set_player = A.getD (py * lvl.width + px) Field.Wall :=
      Field.set_unset_player _ _ hp hc
    rw [undo_eval_up_plain lvl px (py - 1) _ mv pc (by omega)
      (A.getD (py * lvl.width + px - lvl.width) Field.Wall) ?hc2]
    case hc2 =>
      rw [show (py - 1) * lvl.width + px = py * lvl.width + px - lvl.width from by
        rw [esub]; omega]
      simp only [getD_set_ne, getD_set_self, List.length_set, hne, hne', htA, hnA,
      ne_eq, not_false_eq_true]
      exact Field.unset_set_player _ hv
    rw [show (py - 1) * lvl.width + px = py * lvl.width + px - lvl.width from by
      rw [esub]; omega]
    rw [show py * lvl.width + px - lvl.width + lvl.width = py * lvl.width + px from by omega]
    rw [show py - 1 + 1 = py from by omega]
    simp only [getD_set_ne, getD_set_self, List.length_set, hne, hne', htA, hnA,
      ne_eq, not_false_eq_true]
    rw [hcp, set_roundtrip2 A _ _ _ _ _ htA hnA hne]
  · rename_i o1 n hn f hf o2 c hc
    have hpy0 : 0 < py := by by_contra hq; rw [if_neg hq] at hn; cases hn
    rw [if_pos hpy0] at hn; injection hn with hn; subst hn
    have hw0 : 0 < lvl.width := by omega
    have haw : lvl.width ≤ py * lvl.width := Nat.le_mul_of_pos_left _ hpy0
    have esub : (py - 1) * lvl.width = py * lvl.width - lvl.width := by
      rw [Nat.sub_mul, one_mul]
    have hnA : py * lvl.width + px - lvl.width < A.length := by omega
    have hne : py * lvl.width + px - lvl.width ≠ py * lvl.width + px := by omega
    have hne' : py * lvl.width + px ≠ py * lvl.width + px - lvl.width := hne.symm
    have hv : A.getD (py * lvl.width + px - lvl.width) Field.Wall = Field.Empty ∨
        A.getD (py * lvl.width + px - lvl.width) Field.Wall = Field.Target := Or.inr hf
    simp only [getD_set_ne, getD_set_self, List.length_set, hne, hne', htA, hnA,
      ne_eq, not_false_eq_true] at hc
    have hcp : c.set_player = A.getD (py * lvl.width + px) Field.Wall :=
      Field.set_unset_player _ _ hp hc
    rw [undo_eval_up_plain lvl px (py - 1) _ mv pc (by omega)
      (A.getD (py * lvl.width + px - lvl.width) Field.Wall) ?hc2]
    case hc2 =>
      rw [show (py - 1) * lvl.width + px = py * lvl.width + px - lvl.width from by
        rw [esub]; omega]
      simp only [getD_set_ne, getD_set_self, List.length_set, hne, hne', htA, hnA,
      ne_eq, not_false_eq_true]
      exact Field.unset_set_player _ hv
    rw [show (py - 1) * lvl.width + px = py * lvl.width + px - lvl.width from by
      rw [esub]; omega]
    rw [show py * lvl.width + px - lvl.width + lvl.width = py * lvl.width + px from by omega]
    rw [show py - 1 + 1 = py from by omega]
    simp only [getD_set_ne, getD_set_self, List.length_set, hne, hne', htA, hnA,
      ne_eq, not_false_eq_true]
    rw [hcp, set_roundtrip2 A _ _ _ _ _ htA hnA hne]
  · rename_i o1 n hn f hf o2 m hm hbb o3 c hc
    have hpy1 : 1 < py := by by_contra hq; rw [if_neg hq] at hm; cases hm
    rw [if_pos hpy1] at hm; injection hm with hm; subst hm
    have hpy0 : 0 < py := by omega
    rw [if_pos hpy0] at hn; injection hn with hn; subst hn
    have hw0 : 0 < lvl.width := by omega
    have haw : lvl.width ≤ py * lvl.width := Nat.le_mul_of_pos_left _ hpy0
    have h2w : 2 * lvl.width ≤ py * lvl.width := Nat.mul_le_mul_right _ (by omega)
    have esub : (py - 1) * lvl.width = py * lvl.width - lvl.width := by
      rw [Nat.sub_mul, one_mul]
    have hnA : py * lvl.width + px - lvl.width < A.length := by omega
    have hmA : py * lvl.width + px - 2 * lvl.width < A.length := by omega
    have hne : py * lvl.width + px - lvl.width ≠ py * lvl.width + px := by omega
    have hne' : py * lvl.width + px ≠ py * lvl.width + px - lvl.width := hne.symm
    have hne2 : py * lvl.width + px - 2 * lvl.width ≠ py * lvl.width + px := by omega
    have hne2' : py * lvl.width + px ≠ py * lvl.width + px - 2 * lvl.width := hne2.symm
    have hne3 : py * lvl.width + px - 2 * lvl.width ≠ py * lvl.width + px - lvl.width := by omega
    have hne3' : py * lvl.width + px - lvl.width ≠ py * lvl.width + px - 2 * lvl.width := hne3.symm
    have hnp : (A.getD (py * lvl.width + px - 2 * lvl.width) Field.Wall).is_player = false := by
      cases hq : (A.getD (py * lvl.width + px - 2 * lvl.width) Field.Wall).is_player
      · rfl
      · exact absurd (hu _ hmA hq) (by omega)
    have hvm : A.getD (py * lvl.width + px - 2 * lvl.width) Field.Wall = Field.Empty ∨
        A.getD (py * lvl.width + px - 2 * lvl.width) Field.Wall = Field.Target :=
      Field.eq_empty_or_target _ hbb.1 hbb.2 hnp
    have hvp : (A.getD (py * lvl.width + px - lvl.width) Field.Wall).is_pack = true := by
      rw [hf]; rfl
    simp only [getD_set_ne, getD_set_self, List.length_set, hne, hne', hne2, hne2',
      hne3, hne3', htA, hnA, hmA, ne_eq, not_false_eq_true] at hc
    have hcp : c.set_player = A.getD (py * lvl.width + px) Field.Wall :=
      Field.set_unset_player _ _ hp hc
    rw [undo_eval_up_push lvl px (py - 1) _ mv (pc + 1) (by omega)
      (by rw [esub]; omega)
      (A.getD (py * lvl.width + px - 2 * lvl.width) Field.Wall) ?hc2]
    case hc2 =>
      rw [show (py - 1) * lvl.width + px - lvl.width = py * lvl.width + px - 2 * lvl.width from by
        rw [esub]; omega]
      simp only [getD_set_ne, getD_set_self, List.length_set, hne, hne', hne2, hne2',
      hne3, hne3', htA, hnA, hmA, ne_eq, not_false_eq_true]
      exact Field.unset_set_pack _ hvm
    rw [show (py - 1) * lvl.width + px = py * lvl.width + px - lvl.width from by
      rw [esub]; omega]
    rw [show py * lvl.width + px - lvl.width - lvl.width = py * lvl.width + px - 2 * lvl.width from by omega]
    rw [show py * lvl.width + px - lvl.width + lvl.width = py * lvl.width + px from by omega]
    rw [show py - 1 + 1 = py from by omega]
    rw [show pc + 1 - 1 = pc from by omega]
    simp only [getD_set_ne, getD_set_self, List.length_set, hne, hne', hne2, hne2',
      hne3, hne3', htA, hnA, hmA, ne_eq, not_false_eq_true]
    rw [Field.set_pack_set_player _ hvp, hcp,
      set_roundtrip3 A _ _ _ _ _ _ _ htA hnA hmA hne hne2 hne3]
  · rename_i o1 n hn f hf o2 m hm hbb o3 c hc
    have hpy1 : 1 < py := by by_contra hq; rw [if_neg hq] at hm; cases hm
    rw [if_pos hpy1] at hm; injection hm with hm; subst hm
    have hpy0 : 0 < py := by omega
    rw [if_pos hpy0] at hn; injection hn with hn; subst hn
    have hw0 : 0 < lvl.width := by omega
    have haw : lvl.width ≤ py * lvl.width := Nat.le_mul_of_pos_left _ hpy0
    have h2w : 2 * lvl.width ≤ py * lvl.width := Nat.mul_le_mul_right _ (by omega)
    have esub : (py - 1) * lvl.width = py * lvl.width - lvl.width := by
      rw [Nat.sub_mul, one_mul]
    have hnA : py * lvl.width + px - lvl.width < A.length := by omega
    have hmA : py * lvl.width + px - 2 * lvl.width < A.length := by omega
    have hne : py * lvl.width + px - lvl.width ≠ py * lvl.width + px := by omega
    have hne' : py * lvl.width + px ≠ py * lvl.width + px - lvl.width := hne.symm
    have hne2 : py * lvl.width + px - 2 * lvl.width ≠ py * lvl.width + px := by omega
    have hne2' : py * lvl.width + px ≠ py * lvl.width + px - 2 * lvl.width := hne2.symm
    have hne3 : py * lvl.width + px - 2 * lvl.width ≠ py * lvl.width + px - lvl.width := by omega
    have hne3' : py * lvl.width + px - lvl.width ≠ py * lvl.width + px - 2 * lvl.width := hne3.symm
    have hnp : (A.getD (py * lvl.width + px - 2 * lvl.width) Field.Wall).is_player = false := by
      cases hq : (A.getD (py * lvl.width + px - 2 * lvl.width) Field.Wall).is_player
      · rfl
      · exact absurd (hu _ hmA hq) (by omega)
    have hvm : A.getD (py * lvl.width + px - 2 * lvl.width) Field.Wall = Field.Empty ∨
        A.getD (py * lvl.width + px - 2 * lvl.width) Field.Wall = Field.Target :=
      Field.eq_empty_or_target _ hbb.1 hbb.2 hnp
    have hvp : (A.getD (py * lvl.width + px - lvl.width) Field.Wall).is_pack = true := by
      rw [hf]; rfl
    simp only [getD_set_ne, getD_set_self, List.length_set, hne, hne', hne2, hne2',
      hne3, hne3', htA, hnA, hmA, ne_eq, not_false_eq_true] at hc
    have hcp : c.set_player = A.getD (py * lvl.width + px) Field.Wall :=
      Field.set_unset_player _ _ hp hc
    rw [undo_eval_up_push lvl px (py - 1) _ mv (pc + 1) (by omega)
      (by rw [esub]; omega)
      (A.getD (py * lvl.width + px - 2 * lvl.width) Field.Wall) ?hc2]
    case hc2 =>
      rw [show (py - 1) * lvl.width + px - lvl.width = py * lvl.width + px - 2 * lvl.width from by
        rw [esub]; omega]
      simp only [getD_set_ne, getD_set_self, List.length_set, hne, hne', hne2, hne2',
      hne3, hne3', htA, hnA, hmA, ne_eq, not_false_eq_true]
      exact Field.unset_set_pack _ hvm
    rw [show (py - 1) * lvl.width + px = py * lvl.width + px - lvl.width from by
      rw [esub]; omega]
    rw [show py * lvl.width + px - lvl.width - lvl.width = py * lvl.width + px - 2 * lvl.width from by omega]
    rw [show py * lvl.width + px - lvl.width + lvl.width = py * lvl.width + px from by omega]
    rw [show py - 1 + 1 = py from by omega]
    rw [show pc + 1 - 1 = pc from by omega]
    simp only [getD_set_ne, getD_set_self, List.length_set, hne, hne', hne2, hne2',
      hne3, hne3', htA, hnA, hmA, ne_eq, not_false_eq_true]
    rw [Field.set_pack_set_player _ hvp, hcp,
      set_roundtrip3 A _ _ _ _ _ _ _ htA hnA hmA hne hne2 hne3]


theorem roundtrip_down (lvl : Level) (px py : Nat) (A : List Field)
    (mv : List Direction) (pc : Nat) (pushed : Bool) (s' : LevelState)
    (hlen : A.length = lvl.width * lvl.height)
    (hx : px < lvl.width) (hy : py < lvl.height)
    (hp : (A.getD (py * lvl.width + px) Field.Wall).is_player = true)
    (hu : ∀ i, i < A.length → (A.getD i Field.Wall).is_player = true →
      i = py * lvl.width + px)
    (h : LevelState.make_move ⟨lvl, px, py, A, mv, pc⟩ .Down =
      some ((true, pushed), s')) :
    s'.undo_move = some (true, ⟨lvl, px, py, A, mv, pc⟩) := by
  have htA : py * lvl.width + px < A.length := hlen ▸ idx_lt hx hy
  simp only [LevelState.make_move, LevelState.cell] at h
  repeat' split at h
  all_goals (try cases h)
  · rename_i o1 n hn f hf o2 c hc
    have hpyh : py < lvl.height - 1 := by by_contra hq; rw [if_neg hq] at hn; cases hn
    rw [if_pos hpyh] at hn; injection hn with hn; subst hn
    have hw0 : 0 < lvl.width := by omega
    have eadd : (py + 1) * lvl.width = py * lvl.width + lvl.width := by ring
    have hnA : py * lvl.width + px + lvl.width < A.length := by
      have h1 := idx_lt hx (show py + 1 < lvl.height from by omega)
      rw [eadd] at h1; omega
    have hne : py * lvl.width + px + lvl.width ≠ py * lvl.width + px := by omega
    have hne' : py * lvl.width + px ≠ py * lvl.width + px + lvl.width := hne.symm
    have hv : A.getD (py * lvl.width + px + lvl.width) Field.Wall = Field.Empty ∨
        A.getD (py * lvl.width + px + lvl.width) Field.Wall = Field.Target := Or.inl hf
    simp only [getD_set_ne, getD_set_self, List.length_set, hne, hne', htA, hnA,
      ne_eq, not_false_eq_true] at hc
    have hcp : c.set_player = A.getD (py * lvl.width + px) Field.Wall :=
      Field.set_unset_player _ _ hp hc
    rw [undo_eval_down_plain lvl px (py + 1) _ mv pc (by omega)
      (A.getD (py * lvl.width + px + lvl.width) Field.Wall) ?hc2]
    case hc2 =>
      rw [show (py + 1) * lvl.width + px = py * lvl.width + px + lvl.width from by
        rw [eadd]; omega]
      simp only [getD_set_ne, getD_set_self, List.length_set, hne, hne', htA, hnA,
      ne_eq, not_false_eq_true]
      exact Field.unset_set_player _ hv
    rw [show (py + 1) * lvl.width + px = py * lvl.width + px + lvl.width from by
      rw [eadd]; omega]
    rw [show py * lvl.width + px + lvl.width - lvl.width = py * lvl.width + px from by omega]
    rw [show py + 1 - 1 = py from by omega]
    simp only [getD_set_ne, getD_set_self, List.length_set, hne, hne', htA, hnA,
      ne_eq, not_false_eq_true]
    rw [hcp, set_roundtrip2 A _ _ _ _ _ htA hnA hne]
  · rename_i o1 n hn f hf o2 c hc
    have hpyh : py < lvl.height - 1 := by by_contra hq; rw [if_neg hq] at hn; cases hn
    rw [if_pos hpyh] at hn; injection hn with hn; subst hn
    have hw0 : 0 < lvl.width := by omega
    have eadd : (py + 1) * lvl.width = py * lvl.width + lvl.width := by ring
    have hnA : py * lvl.width + px + lvl.width < A.length := by
      have h1 := idx_lt hx (show py + 1 < lvl.height from by omega)
      rw [eadd] at h1; omega
    have hne : py * lvl.width + px + lvl.width ≠ py * lvl.width + px := by omega
    have hne' : py * lvl.width + px ≠ py * lvl.width + px + lvl.width := hne.symm
    have hv : A.getD (py * lvl.width + px + lvl.width) Field.Wall = Field.Empty ∨
        A.getD (py * lvl.width + px + lvl.width) Field.Wall = Field.Target := Or.inr hf
    simp only [getD_set_ne, getD_set_self, List.length_set, hne, hne', htA, hnA,
      ne_eq, not_false_eq_true] at hc
    have hcp : c.set_player = A.getD (py * lvl.width + px) Field.Wall :=
      Field.set_unset_player _ _ hp hc
    rw [undo_eval_down_plain lvl px (py + 1) _ mv pc (by omega)
      (A.getD (py * lvl.width + px + lvl.width) Field.Wall) ?hc2]
    case hc2 =>
      rw [show (py + 1) * lvl.width + px = py * lvl.width + px + lvl.width from by
        rw [eadd]; omega]
      simp only [getD_set_ne, getD_set_self, List.length_set, hne, hne', htA, hnA,
      ne_eq, not_false_eq_true]
      exact Field.unset_set_player _ hv
    rw [show (py + 1) * lvl.width + px = py * lvl.width + px + lvl.width from by
      rw [eadd]; omega]
    rw [show py * lvl.width + px + lvl.width - lvl.width = py * lvl.width + px from by omega]
    rw [show py + 1 - 1 = py from by omega]
    simp only [getD_set_ne, getD_set_self, List.length_set, hne, hne', htA, hnA,
      ne_eq, not_false_eq_true]
    rw [hcp, set_roundtrip2 A _ _ _ _ _ htA hnA hne]
  · rename_i o1 n hn f hf o2 m hm hbb o3 c hc
    have hpyh2 : py < lvl.height - 2 := by by_contra hq; rw [if_neg hq] at hm; cases hm
    rw [if_pos hpyh2] at hm; injection hm with hm; subst hm
    have hpyh : py < lvl.height - 1 := by omega
    rw [if_pos hpyh] at hn; injection hn with hn; subst hn
    have hw0 : 0 < lvl.width := by omega
    have eadd : (py + 1) * lvl.width = py * lvl.width + lvl.width := by ring
    have eadd2 : (py + 2) * lvl.width = py * lvl.width + 2 * lvl.width := by ring
    have hnA : py * lvl.width + px + lvl.width < A.length := by
      have h1 := idx_lt hx (show py + 1 < lvl.height from by omega)
      rw [eadd] at h1; omega
    have hmA : py * lvl.width + px + 2 * lvl.width < A.length := by
      have h1 := idx_lt hx (show py + 2 < lvl.height from by omega)
      rw [eadd2] at h1; omega
    have hne : py * lvl.width + px + lvl.width ≠ py * lvl.width + px := by omega
    have hne' : py * lvl.width + px ≠ py * lvl.width + px + lvl.width := hne.symm
    have hne2 : py * lvl.width + px + 2 * lvl.width ≠ py * lvl.width + px := by omega
    have hne2' : py * lvl.width + px ≠ py * lvl.width + px + 2 * lvl.width := hne2.symm
    have hne3 : py * lvl.width + px + 2 * lvl.width ≠ py * lvl.width + px + lvl.width := by omega
    have hne3' : py * lvl.width + px + lvl.width ≠ py * lvl.width + px + 2 * lvl.width := hne3.symm
    have hnp : (A.getD (py * lvl.width + px + 2 * lvl.width) Field.Wall).is_player = false := by
      cases hq : (A.getD (py * lvl.width + px + 2 * lvl.width) Field.Wall).is_player
      · rfl
      · exact absurd (hu _ hmA hq) (by omega)
    have hvm : A.getD (py * lvl.width + px + 2 * lvl.width) Field.Wall = Field.Empty ∨
        A.getD (py * lvl.width + px + 2 * lvl.width) Field.Wall = Field.Target :=
      Field.eq_empty_or_target _ hbb.1 hbb.2 hnp
    have hvp : (A.getD (py * lvl.width + px + lvl.width) Field.Wall).is_pack = true := by
      rw [hf]; rfl
    simp only [getD_set_ne, getD_set_self, List.length_set, hne, hne', hne2, hne2',
      hne3, hne3', htA, hnA, hmA, ne_eq, not_false_eq_true] at hc
    have hcp : c.set_player = A.getD (py * lvl.width + px) Field.Wall :=
      Field.set_unset_player _ _ hp hc
    rw [undo_eval_down_push lvl px (py + 1) _ mv (pc + 1) (by omega)
      (A.getD (py * lvl.width + px + 2 * lvl.width) Field.Wall) ?hc2]
    case hc2 =>
      rw [show (py + 1) * lvl.width + px + lvl.width = py * lvl.width + px + 2 * lvl.width from by
        rw [eadd]; omega]
      simp only [getD_set_ne, getD_set_self, List.length_set, hne, hne', hne2, hne2',
      hne3, hne3', htA, hnA, hmA, ne_eq, not_false_eq_true]
      exact Field.unset_set_pack _ hvm
    rw [show (py + 1) * lvl.width + px = py * lvl.width + px + lvl.width from by
      rw [eadd]; omega]
    rw [show py * lvl.width + px + lvl.width + lvl.width = py * lvl.width + px + 2 * lvl.width from by omega]
    rw [show py * lvl.width + px + lvl.width - lvl.width = py * lvl.width + px from by omega]
    rw [show py + 1 - 1 = py from by omega]
    rw [show pc + 1 - 1 = pc from by omega]
    simp only [getD_set_ne, getD_set_self, List.length_set, hne, hne', hne2, hne2',
      hne3, hne3', htA, hnA, hmA, ne_eq, not_false_eq_true]
    rw [Field.set_pack_set_player _ hvp, hcp,
      set_roundtrip3 A _ _ _ _ _ _ _ htA hnA hmA hne hne2 hne3]
  · rename_i o1 n hn f hf o2 m hm hbb o3 c hc
    have hpyh2 : py < lvl.height - 2 := by by_contra hq; rw [if_neg hq] at hm; cases hm
    rw [if_pos hpyh2] at hm; injection hm with hm; subst hm
    have hpyh : py < lvl.height - 1 := by omega
    rw [if_pos hpyh] at hn; injection hn with hn; subst hn
    have hw0 : 0 < lvl.width := by omega
    have eadd : (py + 1) * lvl.width = py * lvl.width + lvl.width := by ring
    have eadd2 : (py + 2) * lvl.width = py * lvl.width + 2 * lvl.width := by ring
    have hnA : py * lvl.width + px + lvl.width < A.length := by
      have h1 := idx_lt hx (show py + 1 < lvl.height from by omega)
      rw [eadd] at h1; omega
    have hmA : py * lvl.width + px + 2 * lvl.width < A.length := by
      have h1 := idx_lt hx (show py + 2 < lvl.height from by omega)
      rw [eadd2] at h1; omega
    have hne : py * lvl.width + px + lvl.width ≠ py * lvl.width + px := by omega
    have hne' : py * lvl.width + px ≠ py * lvl.width + px + lvl.width := hne.symm
    have hne2 : py * lvl.width + px + 2 * lvl.width ≠ py * lvl.width + px := by omega
    have hne2' : py * lvl.width + px ≠ py * lvl.width + px + 2 * lvl.width := hne2.symm
    have hne3 : py * lvl.width + px + 2 * lvl.width ≠ py * lvl.width + px + lvl.width := by omega
    have hne3' : py * lvl.width + px + lvl.width ≠ py * lvl.width + px + 2 * lvl.width := hne3.symm
    have hnp : (A.getD (py * lvl.width + px + 2 * lvl.width) Field.Wall).is_player = false := by
      cases hq : (A.getD (py * lvl.width + px + 2 * lvl.width) Field.Wall).is_player
      · rfl
      · exact absurd (hu _ hmA hq) (by omega)
    have hvm : A.getD (py * lvl.width + px + 2 * lvl.width) Field.Wall = Field.Empty ∨
        A.getD (py * lvl.width + px + 2 * lvl.width) Field.Wall = Field.Target :=
      Field.eq_empty_or_target _ hbb.1 hbb.2 hnp
    have hvp : (A.getD (py * lvl.width + px + lvl.width) Field.Wall).is_pack = true := by
      rw [hf]; rfl
    simp only [getD_set_ne, getD_set_self, List.length_set, hne, hne', hne2, hne2',
      hne3, hne3', htA, hnA, hmA, ne_eq, not_false_eq_true] at hc
    have hcp : c.set_player = A.getD (py * lvl.width + px) Field.Wall :=
      Field.set_unset_player _ _ hp hc
    rw [undo_eval_down_push lvl px (py + 1) _ mv (pc + 1) (by omega)
      (A.getD (py * lvl.width + px + 2 * lvl.width) Field.Wall) ?hc2]
    case hc2 =>
      rw [show (py + 1) * lvl.width + px + lvl.width = py * lvl.width + px + 2 * lvl.width from by
        rw [eadd]; omega]
      simp only [getD_set_ne, getD_set_self, List.length_set, hne, hne', hne2, hne2',
      hne3, hne3', htA, hnA, hmA, ne_eq, not_false_eq_true]
      exact Field.unset_set_pack _ hvm
    rw [show (py + 1) * lvl.width + px = py * lvl.width + px + lvl.width from by
      rw [eadd]; omega]
    rw [show py * lvl.width + px + lvl.width + lvl.width = py * lvl.width + px + 2 * lvl.width from by omega]
    rw [show py * lvl.width + px + lvl.width - lvl.width = py * lvl.width + px from by omega]
    rw [show py + 1 - 1 = py from by omega]
    rw [show pc + 1 - 1 = pc from by omega]
    simp only [getD_set_ne, getD_set_self, List.length_set, hne, hne', hne2, hne2',
      hne3, hne3', htA, hnA, hmA, ne_eq, not_false_eq_true]
    rw [Field.set_pack_set_player _ hvp, hcp,
      set_roundtrip3 A _ _ _ _ _ _ _ htA hnA hmA hne hne2 hne3]


theorem push_dir_same_left (s : LevelState) :
    s.make_move .PushLeft = s.make_move .Left := rfl

theorem push_dir_same_right (s : LevelState) :
    s.make_move .PushRight = s.make_move .Right := rfl

theorem push_dir_same_up (s : LevelState) :
    s.make_move .PushUp = s.make_move .Up := rfl

theorem push_dir_same_down (s : LevelState) :
    s.make_move .PushDown = s.make_move .Down := rfl

/-- C1: for every state and direction for which make_move returns
(true, _), an immediately following undo_move returns true and restores
the exact prior state: player_x, player_y, the working area grid, the
move log and pushes_count all regain their values from before the move
(under the state well-formedness facts that hold for every reachable
state). -/
theorem make_undo_roundtrip (s : LevelState) (d : Direction) (pushed : Bool)
    (s' : LevelState)
    (hlen : s.area.length = s.level.width * s.level.height)
    (hx : s.player_x < s.level.width) (hy : s.player_y < s.level.height)
    (hp : (s.area.getD (s.player_y * s.level.width + s.player_x)
      Field.Wall).is_player = true)
    (hu : ∀ i, i < s.area.length →
      (s.area.getD i Field.Wall).is_player = true →
      i = s.player_y * s.level.width + s.player_x)
    (h : s.make_move d = some ((true, pushed), s')) :
    s'.undo_move = some (true, s) := by
  cases d
  case Left =>
    obtain ⟨lvl, px, py, A, mv, pc⟩ := s
    exact roundtrip_left lvl px py A mv pc pushed s' hlen hx hy hp hu h
  case PushLeft =>
    rw [push_dir_same_left] at h
    obtain ⟨lvl, px, py, A, mv, pc⟩ := s
    exact roundtrip_left lvl px py A mv pc pushed s' hlen hx hy hp hu h
  case Right =>
    obtain ⟨lvl, px, py, A, mv, pc⟩ := s
    exact roundtrip_right lvl px py A mv pc pushed s' hlen hx hy hp hu h
  case PushRight =>
    rw [push_dir_same_right] at h
    obtain ⟨lvl, px, py, A, mv, pc⟩ := s
    exact roundtrip_right lvl px py A mv pc pushed s' hlen hx hy hp hu h
  case Up =>
    obtain ⟨lvl, px, py, A, mv, pc⟩ := s
    exact roundtrip_up lvl px py A mv pc pushed s' hlen hx hy hp hu h
  case PushUp =>
    rw [push_dir_same_up] at h
    obtain ⟨lvl, px, py, A, mv, pc⟩ := s
    exact roundtrip_up lvl px py A mv pc pushed s' hlen hx hy hp hu h
  case Down =>
    obtain ⟨lvl, px, py, A, mv, pc⟩ := s
    exact roundtrip_down lvl px py A mv pc pushed s' hlen hx hy hp hu h
  case PushDown =>
    rw [push_dir_same_down] at h
    obtain ⟨lvl, px, py, A, mv, pc⟩ := s
    exact roundtrip_down lvl px py A mv pc pushed s' hlen hx hy hp hu h
  case NoDirection =>
    simp [LevelState.make_move] at h


/-- C5: whenever make_move returns (false, false), the state is
completely unchanged: the returned state is the argument state itself,
so the grid, player_x, player_y, the move log and pushes_count keep
their prior values. -/
theorem make_move_failure_no_mutation (s : LevelState) (d : Direction)
    (r : Bool × Bool) (s' : LevelState)
    (h : s.make_move d = some (r, s')) (hf : r.1 = false) :
    s' = s ∧ r.2 = false := by
  cases d <;>
    (simp only [LevelState.make_move] at h
     repeat' split at h
     all_goals (try cases h)
     all_goals simp_all)


/-! ### State-machine invariants: reachable states -/

theorem getD_eq_default {α : Type _} (l : List α) (i : Nat) (d : α)
    (h : l.length ≤ i) : l.getD i d = d := by
  simp [List.getD_eq_getElem?_getD, List.getElem?_eq_none h]

theorem position_lt {α : Type _} (p : α → Bool) :
    ∀ (l : List α) (i : Nat), position p l = some i → i < l.length := by
  intro l
  induction l with
  | nil => intro i h; cases h
  | cons a t ih =>
    intro i h
    simp only [position] at h
    split at h
    · cases h; simp
    · rcases Option.map_eq_some'.mp h with ⟨j, hj, rfl⟩
      have := ih j hj
      simp; omega

theorem position_getD {α : Type _} (p : α → Bool) (d : α) :
    ∀ (l : List α) (i : Nat), position p l = some i → p (l.getD i d) = true := by
  intro l
  induction l with
  | nil => intro i h; cases h
  | cons a t ih =>
    intro i h
    simp only [position] at h
    split at h
    · cases h; simpa
    · rcases Option.map_eq_some'.mp h with ⟨j, hj, rfl⟩
      simpa [List.getD_cons_succ] using ih j hj

theorem position_none {α : Type _} (p : α → Bool) (d : α) :
    ∀ (l : List α), position p l = none → ∀ i, i < l.length → p (l.getD i d) = false := by
  intro l
  induction l with
  | nil => intro _ i h; cases h
  | cons a t ih =>
    intro h i hi
    simp only [position] at h
    split at h
    · cases h
    · rename_i hpa
      match i with
      | 0 => simpa using Bool.of_not_eq_true hpa
      | j + 1 =>
        have ht : position p t = none := by
          cases hq : position p t
          · rfl
          · rw [hq] at h; cases h
        simpa [List.getD_cons_succ] using ih ht j (by simpa using hi)

theorem two_le_filter_length {α : Type _} (p : α → Bool) (d : α) :
    ∀ (l : List α) (i j : Nat), i < j → j < l.length →
      p (l.getD i d) = true → p (l.getD j d) = true →
      2 ≤ (l.filter p).length := by
  intro l
  induction l with
  | nil => intro i j _ hj; simp at hj
  | cons a t ih =>
    intro i j hij hj hpi hpj
    match i, j with
    | 0, j + 1 =>
      have hpa : p a = true := by simpa using hpi
      have hjt : j < t.length := by simpa using hj
      have hmem : t.getD j d ∈ t := by
        rw [List.getD_eq_getElem?_getD, List.getElem?_eq_getElem hjt]
        exact List.getElem_mem hjt
      have : t.getD j d ∈ t.filter p := List.mem_filter.mpr ⟨hmem, by simpa using hpj⟩
      have h1 : 1 ≤ (t.filter p).length := List.length_pos.mpr (List.ne_nil_of_mem this)
      simp [List.filter_cons, hpa]
      omega
    | i + 1, j + 1 =>
      have := ih i j (by omega) (by simpa using hj) (by simpa using hpi)
        (by simpa using hpj)
      rcases hq : p a <;> simp [List.filter_cons, hq] <;> omega

theorem filter_one_unique {α : Type _} (p : α → Bool) (d : α) (l : List α)
    (hc : (l.filter p).length = 1) (i j : Nat) (hi : i < l.length)
    (hj : j < l.length) (hpi : p (l.getD i d) = true)
    (hpj : p (l.getD j d) = true) : i = j := by
  rcases Nat.lt_trichotomy i j with h | h | h
  · have := two_le_filter_length p d l i j h hj hpi hpj; omega
  · exact h
  · have := two_le_filter_length p d l j i h hi hpj hpi; omega

theorem eq_dropLast_append {α : Type _} :
    ∀ (l : List α) (a : α), l.getLast? = some a → l = l.dropLast ++ [a] := by
  intro l
  induction l with
  | nil => intro a h; cases h
  | cons x t ih =>
    intro a h
    match t with
    | [] => cases h; rfl
    | y :: u =>
      have h2 : (y :: u).getLast? = some a := by
        simpa [List.getLast?_cons_cons] using h
      have := ih a h2
      calc x :: y :: u = x :: ((y :: u).dropLast ++ [a]) := by rw [← this]
      _ = (x :: y :: u).dropLast ++ [a] := by simp



theorem Field.set_player_is_player (f : Field) : f.set_player.is_player = true := by
  cases f <;> rfl

theorem Field.unset_player_not_player (f c : Field)
    (h : f.unset_player = some c) : c.is_player = false := by
  cases f <;> (try cases h) <;> rfl

theorem Field.set_pack_not_player (f : Field) : f.set_pack.is_player = false := by
  cases f <;> rfl

theorem Field.unset_pack_not_player (f c : Field)
    (h : f.unset_pack = some c) : c.is_player = false := by
  cases f <;> (try cases h) <;> rfl

theorem check_ok_players (l : Level) (h : l.check = some (.ok ())) :
    (l.area.filter fun f => f.is_player).length = 1 := by
  cases h3 : l.fillErrs with
  | none => simp [Level.check, h3] at h
  | some e3 =>
    cases h4 : l.lock2x2Errs with
    | none => simp [Level.check, h3, h4] at h
    | some e4 =>
      cases h5 : l.lockCornerErrs with
      | none => simp [Level.check, h3, h4, h5] at h
      | some e5 =>
        simp only [Level.check, h3, h4, h5, Option.some_bind, bind, Option.bind,
          pure, Option.some.injEq] at h
        split at h
        · cases h
        · rename_i hlen0
          have hz : (l.playerErrs ++ l.countErrs ++ e3 ++ e4 ++ e5).length = 0 := by
            omega
          simp only [List.length_append] at hz
          have hpe : l.playerErrs.length = 0 := by omega
          revert hpe
          unfold Level.playerErrs Level.playersNum
          split
          · simp
          · rename_i h1; intro _; exact h1
          · simp




theorem WF_move_left (l : Level) (s s' : LevelState) (r : Bool × Bool)
    (hwf : WF l s) (h : s.make_move .Left = some (r, s')) : WF l s' := by
  obtain ⟨lvl, px, py, A, mv, pc⟩ := s
  obtain ⟨hlv, hll, hsl, hx, hy, hp, hu, hpc, hcount⟩ := hwf
  subst hlv
  simp only at hll hsl hx hy hp hu hpc ⊢
  simp only [LevelState.make_move, LevelState.cell] at h
  repeat' split at h
  all_goals (try cases h)
  all_goals (try exact ⟨rfl, hll, hsl, hx, hy, hp, hu, hpc, hcount⟩)
  · -- destination Empty, plain move
    rename_i o1 n hn f hf o2 c hc
    have hpx0 : 0 < px := by by_contra hq; rw [if_neg hq] at hn; cases hn
    rw [if_pos hpx0] at hn; injection hn with hn; subst hn
    have htA : py * lvl.width + px < A.length := hsl ▸ idx_lt hx hy
    have hnA : py * lvl.width + px - 1 < A.length := by omega
    have hne : py * lvl.width + px - 1 ≠ py * lvl.width + px := by omega
    have hne' : py * lvl.width + px ≠ py * lvl.width + px - 1 := hne.symm
    have hcnp : c.is_player = false := Field.unset_player_not_player _ _ hc
    refine ⟨rfl, hll, by simpa using hsl, by show px - 1 < lvl.width; omega, hy, ?_, ?_, ?_, hcount⟩
    · rw [show py * lvl.width + (px - 1) = py * lvl.width + px - 1 from by omega]
      simp only [getD_set_ne, getD_set_self, List.length_set, hne, hne', htA, hnA,
        ne_eq, not_false_eq_true]
      exact Field.set_player_is_player _
    · intro i hi hip
      simp only [List.length_set] at hi
      rw [show py * lvl.width + (px - 1) = py * lvl.width + px - 1 from by omega]
      rcases eq_or_ne i (py * lvl.width + px) with rfl | hit
      · simp only [getD_set_ne, getD_set_self, List.length_set, hne, hne', htA, hnA,
          ne_eq, not_false_eq_true] at hip
        simp [hcnp] at hip
      · rcases eq_or_ne i (py * lvl.width + px - 1) with rfl | hin
        · rfl
        · have hin' := hin.symm
          have hit' := hit.symm
          simp only [getD_set_ne, getD_set_self, List.length_set, hne, hne', htA, hnA,
            hin', hit', ne_eq, not_false_eq_true] at hip
          exact absurd (hu i hi hip) hit
    · simp [List.filter_append, isPushDir, hpc]
  · -- destination Target, plain move
    rename_i o1 n hn f hf o2 c hc
    have hpx0 : 0 < px := by by_contra hq; rw [if_neg hq] at hn; cases hn
    rw [if_pos hpx0] at hn; injection hn with hn; subst hn
    have htA : py * lvl.width + px < A.length := hsl ▸ idx_lt hx hy
    have hnA : py * lvl.width + px - 1 < A.length := by omega
    have hne : py * lvl.width + px - 1 ≠ py * lvl.width + px := by omega
    have hne' : py * lvl.width + px ≠ py * lvl.width + px - 1 := hne.symm
    have hcnp : c.is_player = false := Field.unset_player_not_player _ _ hc
    refine ⟨rfl, hll, by simpa using hsl, by show px - 1 < lvl.width; omega, hy, ?_, ?_, ?_, hcount⟩
    · rw [show py * lvl.width + (px - 1) = py * lvl.width + px - 1 from by omega]
      simp only [getD_set_ne, getD_set_self, List.length_set, hne, hne', htA, hnA,
        ne_eq, not_false_eq_true]
      exact Field.set_player_is_player _
    · intro i hi hip
      simp only [List.length_set] at hi
      rw [show py * lvl.width + (px - 1) = py * lvl.width + px - 1 from by omega]
      rcases eq_or_ne i (py * lvl.width + px) with rfl | hit
      · simp only [getD_set_ne, getD_set_self, List.length_set, hne, hne', htA, hnA,
          ne_eq, not_false_eq_true] at hip
        simp [hcnp] at hip
      · rcases eq_or_ne i (py * lvl.width + px - 1) with rfl | hin
        · rfl
        · have hin' := hin.symm
          have hit' := hit.symm
          simp only [getD_set_ne, getD_set_self, List.length_set, hne, hne', htA, hnA,
            hin', hit', ne_eq, not_false_eq_true] at hip
          exact absurd (hu i hi hip) hit
    · simp [List.filter_append, isPushDir, hpc]
  · -- destination Pack, push move
    rename_i o1 n hn f hf o2 m hm hbb o3 c hc
    have hpx1 : 1 < px := by by_contra hq; rw [if_neg hq] at hm; cases hm
    rw [if_pos hpx1] at hm; injection hm with hm; subst hm
    have hpx0 : 0 < px := by omega
    rw [if_pos hpx0] at hn; injection hn with hn; subst hn
    have htA : py * lvl.width + px < A.length := hsl ▸ idx_lt hx hy
    have hnA : py * lvl.width + px - 1 < A.length := by omega
    have hmA : py * lvl.width + px - 2 < A.length := by omega
    have hne : py * lvl.width + px - 1 ≠ py * lvl.width + px := by omega
    have hne' : py * lvl.width + px ≠ py * lvl.width + px - 1 := hne.symm
    have hne2 : py * lvl.width + px - 2 ≠ py * lvl.width + px := by omega
    have hne2' : py * lvl.width + px ≠ py * lvl.width + px - 2 := hne2.symm
    have hne3 : py * lvl.width + px - 2 ≠ py * lvl.width + px - 1 := by omega
    have hne3' : py * lvl.width + px - 1 ≠ py * lvl.width + px - 2 := hne3.symm
    have hcnp : c.is_player = false := Field.unset_player_not_player _ _ hc
    refine ⟨rfl, hll, by simpa using hsl, by show px - 1 < lvl.width; omega, hy, ?_, ?_, ?_, hcount⟩
    · rw [show py * lvl.width + (px - 1) = py * lvl.width + px - 1 from by omega]
      simp only [getD_set_ne, getD_set_self, List.length_set, hne, hne', hne2, hne2',
        hne3, hne3', htA, hnA, hmA, ne_eq, not_false_eq_true]
      exact Field.set_player_is_player _
    · intro i hi hip
      simp only [List.length_set] at hi
      rw [show py * lvl.width + (px - 1) = py * lvl.width + px - 1 from by omega]
      rcases eq_or_ne i (py * lvl.width + px) with rfl | hit
      · simp only [getD_set_ne, getD_set_self, List.length_set, hne, hne', hne2, hne2',
          hne3, hne3', htA, hnA, hmA, ne_eq, not_false_eq_true] at hip
        simp [hcnp] at hip
      · rcases eq_or_ne i (py * lvl.width + px - 1) with rfl | hin
        · rfl
        · rcases eq_or_ne i (py * lvl.width + px - 2) with rfl | him
          · simp only [getD_set_ne, getD_set_self, List.length_set, hne, hne', hne2,
              hne2', hne3, hne3', htA, hnA, hmA, ne_eq, not_false_eq_true] at hip
            simp [Field.set_pack_not_player] at hip
          · have hin' := hin.symm
            have hit' := hit.symm
            have him' := him.symm
            simp only [getD_set_ne, getD_set_self, List.length_set, hne, hne', hne2,
              hne2', hne3, hne3', htA, hnA, hmA, hin', hit', him', ne_eq,
              not_false_eq_true] at hip
            exact absurd (hu i hi hip) hit
    · simp [List.filter_append, isPushDir, hpc]
  · -- destination PackOnTarget, push move
    rename_i o1 n hn f hf o2 m hm hbb o3 c hc
    have hpx1 : 1 < px := by by_contra hq; rw [if_neg hq] at hm; cases hm
    rw [if_pos hpx1] at hm; injection hm with hm; subst hm
    have hpx0 : 0 < px := by omega
    rw [if_pos hpx0] at hn; injection hn with hn; subst hn
    have htA : py * lvl.width + px < A.length := hsl ▸ idx_lt hx hy
    have hnA : py * lvl.width + px - 1 < A.length := by omega
    have hmA : py * lvl.width + px - 2 < A.length := by omega
    have hne : py * lvl.width + px - 1 ≠ py * lvl.width + px := by omega
    have hne' : py * lvl.width + px ≠ py * lvl.width + px - 1 := hne.symm
    have hne2 : py * lvl.width + px - 2 ≠ py * lvl.width + px := by omega
    have hne2' : py * lvl.width + px ≠ py * lvl.width + px - 2 := hne2.symm
    have hne3 : py * lvl.width + px - 2 ≠ py * lvl.width + px - 1 := by omega
    have hne3' : py * lvl.width + px - 1 ≠ py * lvl.width + px - 2 := hne3.symm
    have hcnp : c.is_player = false := Field.unset_player_not_player _ _ hc
    refine ⟨rfl, hll, by simpa using hsl, by show px - 1 < lvl.width; omega, hy, ?_, ?_, ?_, hcount⟩
    · rw [show py * lvl.width + (px - 1) = py * lvl.width + px - 1 from by omega]
      simp only [getD_set_ne, getD_set_self, List.length_set, hne, hne', hne2, hne2',
        hne3, hne3', htA, hnA, hmA, ne_eq, not_false_eq_true]
      exact Field.set_player_is_player _
    · intro i hi hip
      simp only [List.length_set] at hi
      rw [show py * lvl.width + (px - 1) = py * lvl.width + px - 1 from by omega]
      rcases eq_or_ne i (py * lvl.width + px) with rfl | hit
      · simp only [getD_set_ne, getD_set_self, List.length_set, hne, hne', hne2, hne2',
          hne3, hne3', htA, hnA, hmA, ne_eq, not_false_eq_true] at hip
        simp [hcnp] at hip
      · rcases eq_or_ne i (py * lvl.width + px - 1) with rfl | hin
        · rfl
        · rcases eq_or_ne i (py * lvl.width + px - 2) with rfl | him
          · simp only [getD_set_ne, getD_set_self, List.length_set, hne, hne', hne2,
              hne2', hne3, hne3', htA, hnA, hmA, ne_eq, not_false_eq_true] at hip
            simp [Field.set_pack_not_player] at hip
          · have hin' := hin.symm
            have hit' := hit.symm
            have him' := him.symm
            simp only [getD_set_ne, getD_set_self, List.length_set, hne, hne', hne2,
              hne2', hne3, hne3', htA, hnA, hmA, hin', hit', him', ne_eq,
              not_false_eq_true] at hip
            exact absurd (hu i hi hip) hit
    · simp [List.filter_append, isPushDir, hpc]

theorem WF_move_right (l : Level) (s s' : LevelState) (r : Bool × Bool)
    (hwf : WF l s) (h : s.make_move .Right = some (r, s')) : WF l s' := by
  obtain ⟨lvl, px, py, A, mv, pc⟩ := s
  obtain ⟨hlv, hll, hsl, hx, hy, hp, hu, hpc, hcount⟩ := hwf
  subst hlv
  simp only at hll hsl hx hy hp hu hpc ⊢
  simp only [LevelState.make_move, LevelState.cell] at h
  repeat' split at h
  all_goals (try cases h)
  all_goals (try exact ⟨rfl, hll, hsl, hx, hy, hp, hu, hpc, hcount⟩)
  · rename_i o1 n hn f hf o2 c hc
    have hpxw : px < lvl.width - 1 := by by_contra hq; rw [if_neg hq] at hn; cases hn
    rw [if_pos hpxw] at hn; injection hn with hn; subst hn
    have htA : py * lvl.width + px < A.length := hsl ▸ idx_lt hx hy
    have hnA : py * lvl.width + px + 1 < A.length := by
      have h1 := idx_lt (show px + 1 < lvl.width from by omega) hy; omega
    have hne : py * lvl.width + px + 1 ≠ py * lvl.width + px := by omega
    have hne' : py * lvl.width + px ≠ py * lvl.width + px + 1 := hne.symm
    have hcnp : c.is_player = false := Field.unset_player_not_player _ _ hc
    refine ⟨rfl, hll, by simpa using hsl, by show px + 1 < lvl.width; omega, hy, ?_, ?_, ?_, hcount⟩
    · rw [show py * lvl.width + (px + 1) = py * lvl.width + px + 1 from by omega]
      simp only [getD_set_ne, getD_set_self, List.length_set, hne, hne', htA, hnA,
        ne_eq, not_false_eq_true]
      exact Field.set_player_is_player _
    · intro i hi hip
      simp only [List.length_set] at hi
      rw [show py * lvl.width + (px + 1) = py * lvl.width + px + 1 from by omega]
      rcases eq_or_ne i (py * lvl.width + px) with rfl | hit
      · simp only [getD_set_ne, getD_set_self, List.length_set, hne, hne', htA, hnA,
        ne_eq, not_false_eq_true] at hip
        simp [hcnp] at hip
      · rcases eq_or_ne i (py * lvl.width + px + 1) with rfl | hin
        · rfl
        · have hin' := hin.symm
          have hit' := hit.symm
          simp only [getD_set_ne, getD_set_self, List.length_set, hne, hne', htA, hnA,
        ne_eq, not_false_eq_true, hin', hit'] at hip
          exact absurd (hu i hi hip) hit
    · simp [List.filter_append, isPushDir, hpc]
  · rename_i o1 n hn f hf o2 c hc
    have hpxw : px < lvl.width - 1 := by by_contra hq; rw [if_neg hq] at hn; cases hn
    rw [if_pos hpxw] at hn; injection hn with hn; subst hn
    have htA : py * lvl.width + px < A.length := hsl ▸ idx_lt hx hy
    have hnA : py * lvl.width + px + 1 < A.length := by
      have h1 := idx_lt (show px + 1 < lvl.width from by omega) hy; omega
    have hne : py * lvl.width + px + 1 ≠ py * lvl.width + px := by omega
    have hne' : py * lvl.width + px ≠ py * lvl.width + px + 1 := hne.symm
    have hcnp : c.is_player = false := Field.unset_player_not_player _ _ hc
    refine ⟨rfl, hll, by simpa using hsl, by show px + 1 < lvl.width; omega, hy, ?_, ?_, ?_, hcount⟩
    · rw [show py * lvl.width + (px + 1) = py * lvl.width + px + 1 from by omega]
      simp only [getD_set_ne, getD_set_self, List.length_set, hne, hne', htA, hnA,
        ne_eq, not_false_eq_true]
      exact Field.set_player_is_player _
    · intro i hi hip
      simp only [List.length_set] at hi
      rw [show py * lvl.width + (px + 1) = py * lvl.width + px + 1 from by omega]
      rcases eq_or_ne i (py * lvl.width + px) with rfl | hit
      · simp only [getD_set_ne, getD_set_self, List.length_set, hne, hne', htA, hnA,
        ne_eq, not_false_eq_true] at hip
        simp [hcnp] at hip
      · rcases eq_or_ne i (py * lvl.width + px + 1) with rfl | hin
        · rfl
        · have hin' := hin.symm
          have hit' := hit.symm
          simp only [getD_set_ne, getD_set_self, List.length_set, hne, hne', htA, hnA,
        ne_eq, not_false_eq_true, hin', hit'] at hip
          exact absurd (hu i hi hip) hit
    · simp [List.filter_append, isPushDir, hpc]
  · rename_i o1 n hn f hf o2 m hm hbb o3 c hc
    have hpxw2 : px < lvl.width - 2 := by by_contra hq; rw [if_neg hq] at hm; cases hm
    rw [if_pos hpxw2] at hm; injection hm with hm; subst hm
    have hpxw : px < lvl.width - 1 := by omega
    rw [if_pos hpxw] at hn; injection hn with hn; subst hn
    have htA : py * lvl.width + px < A.length := hsl ▸ idx_lt hx hy
    have hnA : py * lvl.width + px + 1 < A.length := by
      have h1 := idx_lt (show px + 1 < lvl.width from by omega) hy; omega
    have hmA : py * lvl.width + px + 2 < A.length := by
      have h1 := idx_lt (show px + 2 < lvl.width from by omega) hy; omega
    have hne : py * lvl.width + px + 1 ≠ py * lvl.width + px := by omega
    have hne' : py * lvl.width + px ≠ py * lvl.width + px + 1 := hne.symm
    have hne2 : py * lvl.width + px + 2 ≠ py * lvl.width + px := by omega
    have hne2' : py * lvl.width + px ≠ py * lvl.width + px + 2 := hne2.symm
    have hne3 : py * lvl.width + px + 2 ≠ py * lvl.width + px + 1 := by omega
    have hne3' : py * lvl.width + px + 1 ≠ py * lvl.width + px + 2 := hne3.symm
    have hcnp : c.is_player = false := Field.unset_player_not_player _ _ hc
    refine ⟨rfl, hll, by simpa using hsl, by show px + 1 < lvl.width; omega, hy, ?_, ?_, ?_, hcount⟩
    · rw [show py * lvl.width + (px + 1) = py * lvl.width + px + 1 from by omega]
      simp only [getD_set_ne, getD_set_self, List.length_set, hne, hne', hne2, hne2',
        hne3, hne3', htA, hnA, hmA, ne_eq, not_false_eq_true]
      exact Field.set_player_is_player _
    · intro i hi hip
      simp only [List.length_set] at hi
      rw [show py * lvl.width + (px + 1) = py * lvl.width + px + 1 from by omega]
      rcases eq_or_ne i (py * lvl.width + px) with rfl | hit
      · simp only [getD_set_ne, getD_set_self, List.length_set, hne, hne', hne2, hne2',
        hne3, hne3', htA, hnA, hmA, ne_eq, not_false_eq_true] at hip
        simp [hcnp] at hip
      · rcases eq_or_ne i (py * lvl.width + px + 1) with rfl | hin
        · rfl
        · rcases eq_or_ne i (py * lvl.width + px + 2) with rfl | him
          · simp only [getD_set_ne, getD_set_self, List.length_set, hne, hne', hne2, hne2',
        hne3, hne3', htA, hnA, hmA, ne_eq, not_false_eq_true] at hip
            simp [Field.set_pack_not_player] at hip
          · have hin' := hin.symm
            have hit' := hit.symm
            have him' := him.symm
            simp only [getD_set_ne, getD_set_self, List.length_set, hne, hne', hne2, hne2',
        hne3, hne3', htA, hnA, hmA, ne_eq, not_false_eq_true, hin', hit', him'] at hip
            exact absurd (hu i hi hip) hit
    · simp [List.filter_append, isPushDir, hpc]
  · rename_i o1 n hn f hf o2 m hm hbb o3 c hc
    have hpxw2 : px < lvl.width - 2 := by by_contra hq; rw [if_neg hq] at hm; cases hm
    rw [if_pos hpxw2] at hm; injection hm with hm; subst hm
    have hpxw : px < lvl.width - 1 := by omega
    rw [if_pos hpxw] at hn; injection hn with hn; subst hn
    have htA : py * lvl.width + px < A.length := hsl ▸ idx_lt hx hy
    have hnA : py * lvl.width + px + 1 < A.length := by
      have h1 := idx_lt (show px + 1 < lvl.width from by omega) hy; omega
    have hmA : py * lvl.width + px + 2 < A.length := by
      have h1 := idx_lt (show px + 2 < lvl.width from by omega) hy; omega
    have hne : py * lvl.width + px + 1 ≠ py * lvl.width + px := by omega
    have hne' : py * lvl.width + px ≠ py * lvl.width + px + 1 := hne.symm
    have hne2 : py * lvl.width + px + 2 ≠ py * lvl.width + px := by omega
    have hne2' : py * lvl.width + px ≠ py * lvl.width + px + 2 := hne2.symm
    have hne3 : py * lvl.width + px + 2 ≠ py * lvl.width + px + 1 := by omega
    have hne3' : py * lvl.width + px + 1 ≠ py * lvl.width + px + 2 := hne3.symm
    have hcnp : c.is_player = false := Field.unset_player_not_player _ _ hc
    refine ⟨rfl, hll, by simpa using hsl, by show px + 1 < lvl.width; omega, hy, ?_, ?_, ?_, hcount⟩
    · rw [show py * lvl.width + (px + 1) = py * lvl.width + px + 1 from by omega]
      simp only [getD_set_ne, getD_set_self, List.length_set, hne, hne', hne2, hne2',
        hne3, hne3', htA, hnA, hmA, ne_eq, not_false_eq_true]
      exact Field.set_player_is_player _
    · intro i hi hip
      simp only [List.length_set] at hi
      rw [show py * lvl.width + (px + 1) = py * lvl.width + px + 1 from by omega]
      rcases eq_or_ne i (py * lvl.width + px) with rfl | hit
      · simp only [getD_set_ne, getD_set_self, List.length_set, hne, hne', hne2, hne2',
        hne3, hne3', htA, hnA, hmA, ne_eq, not_false_eq_true] at hip
        simp [hcnp] at hip
      · rcases eq_or_ne i (py * lvl.width + px + 1) with rfl | hin
        · rfl
        · rcases eq_or_ne i (py * lvl.width + px + 2) with rfl | him
          · simp only [getD_set_ne, getD_set_self, List.length_set, hne, hne', hne2, hne2',
        hne3, hne3', htA, hnA, hmA, ne_eq, not_false_eq_true] at hip
            simp [Field.set_pack_not_player] at hip
          · have hin' := hin.symm
            have hit' := hit.symm
            have him' := him.symm
            simp only [getD_set_ne, getD_set_self, List.length_set, hne, hne', hne2, hne2',
        hne3, hne3', htA, hnA, hmA, ne_eq, not_false_eq_true, hin', hit', him'] at hip
            exact absurd (hu i hi hip) hit
    · simp [List.filter_append, isPushDir, hpc]


theorem WF_move_up (l : Level) (s s' : LevelState) (r : Bool × Bool)
    (hwf : WF l s) (h : s.make_move .Up = some (r, s')) : WF l s' := by
  obtain ⟨lvl, px, py, A, mv, pc⟩ := s
  obtain ⟨hlv, hll, hsl, hx, hy, hp, hu, hpc, hcount⟩ := hwf
  subst hlv
  simp only at hll hsl hx hy hp hu hpc ⊢
  simp only [LevelState.make_move, LevelState.cell] at h
  repeat' split at h
  all_goals (try cases h)
  all_goals (try exact ⟨rfl, hll, hsl, hx, hy, hp, hu, hpc, hcount⟩)
  · rename_i o1 n hn f hf o2 c hc
    have hpy0 : 0 < py := by by_contra hq; rw [if_neg hq] at hn; cases hn
    rw [if_pos hpy0] at hn; injection hn with hn; subst hn
    have htA : py * lvl.width + px < A.length := hsl ▸ idx_lt hx hy
    have hw0 : 0 < lvl.width := by omega
    have haw : lvl.width ≤ py * lvl.width := Nat.le_mul_of_pos_left _ hpy0
    have esub : (py - 1) * lvl.width = py * lvl.width - lvl.width := by
      rw [Nat.sub_mul, one_mul]
    have hnA : py * lvl.width + px - lvl.width < A.length := by omega
    have hne : py * lvl.width + px - lvl.width ≠ py * lvl.width + px := by omega
    have hne' : py * lvl.width + px ≠ py * lvl.width + px - lvl.width := hne.symm
    have hcnp : c.is_player = false := Field.unset_player_not_player _ _ hc
    refine ⟨rfl, hll, by simpa using hsl, hx, by show py - 1 < lvl.height; omega, ?_, ?_, ?_, hcount⟩
    · rw [show (py - 1) * lvl.width + px = py * lvl.width + px - lvl.width from by
        rw [esub]; omega]
      simp only [getD_set_ne, getD_set_self, List.length_set, hne, hne', htA, hnA,
        ne_eq, not_false_eq_true]
      exact Field.set_player_is_player _
    · intro i hi hip
      simp only [List.length_set] at hi
      rw [show (py - 1) * lvl.width + px = py * lvl.width + px - lvl.width from by
        rw [esub]; omega]
      rcases eq_or_ne i (py * lvl.width + px) with rfl | hit
      · simp only [getD_set_ne, getD_set_self, List.length_set, hne, hne', htA, hnA,
        ne_eq, not_false_eq_true] at hip
        simp [hcnp] at hip
      · rcases eq_or_ne i (py * lvl.width + px - lvl.width) with rfl | hin
        · rfl
        · have hin' := hin.symm
          have hit' := hit.symm
          simp only [getD_set_ne, getD_set_self, List.length_set, hne, hne', htA, hnA,
        ne_eq, not_false_eq_true, hin', hit'] at hip
          exact absurd (hu i hi hip) hit
    · simp [List.filter_append, isPushDir, hpc]
  · rename_i o1 n hn f hf o2 c hc
    have hpy0 : 0 < py := by by_contra hq; rw [if_neg hq] at hn; cases hn
    rw [if_pos hpy0] at hn; injection hn with hn; subst hn
    have htA : py * lvl.width + px < A.length := hsl ▸ idx_lt hx hy
    have hw0 : 0 < lvl.width := by omega
    have haw : lvl.width ≤ py * lvl.width := Nat.le_mul_of_pos_left _ hpy0
    have esub : (py - 1) * lvl.width = py * lvl.width - lvl.width := by
      rw [Nat.sub_mul, one_mul]
    have hnA : py * lvl.width + px - lvl.width < A.length := by omega
    have hne : py * lvl.width + px - lvl.width ≠ py * lvl.width + px := by omega
    have hne' : py * lvl.width + px ≠ py * lvl.width + px - lvl.width := hne.symm
    have hcnp : c.is_player = false := Field.unset_player_not_player _ _ hc
    refine ⟨rfl, hll, by simpa using hsl, hx, by show py - 1 < lvl.height; omega, ?_, ?_, ?_, hcount⟩
    · rw [show (py - 1) * lvl.width + px = py * lvl.width + px - lvl.width from by
        rw [esub]; omega]
      simp only [getD_set_ne, getD_set_self, List.length_set, hne, hne', htA, hnA,
        ne_eq, not_false_eq_true]
      exact Field.set_player_is_player _
    · intro i hi hip
      simp only [List.length_set] at hi
      rw [show (py - 1) * lvl.width + px = py * lvl.width + px - lvl.width from by
        rw [esub]; omega]
      rcases eq_or_ne i (py * lvl.width + px) with rfl | hit
      · simp only [getD_set_ne, getD_set_self, List.length_set, hne, hne', htA, hnA,
        ne_eq, not_false_eq_true] at hip
        simp [hcnp] at hip
      · rcases eq_or_ne i (py * lvl.width + px - lvl.width) with rfl | hin
        · rfl
        · have hin' := hin.symm
          have hit' := hit.symm
          simp only [getD_set_ne, getD_set_self, List.length_set, hne, hne', htA, hnA,
        ne_eq, not_false_eq_true, hin', hit'] at hip
          exact absurd (hu i hi hip) hit
    · simp [List.filter_append, isPushDir, hpc]
  · rename_i o1 n hn f hf o2 m hm hbb o3 c hc
    have hpy1 : 1 < py := by by_contra hq; rw [if_neg hq] at hm; cases hm
    rw [if_pos hpy1] at hm; injection hm with hm; subst hm
    have hpy0 : 0 < py := by omega
    rw [if_pos hpy0] at hn; injection hn with hn; subst hn
    have htA : py * lvl.width + px < A.length := hsl ▸ idx_lt hx hy
    have hw0 : 0 < lvl.width := by omega
    have haw : lvl.width ≤ py * lvl.width := Nat.le_mul_of_pos_left _ hpy0
    have h2w : 2 * lvl.width ≤ py * lvl.width := Nat.mul_le_mul_right _ (by omega)
    have esub : (py - 1) * lvl.width = py * lvl.width - lvl.width := by
      rw [Nat.sub_mul, one_mul]
    have hnA : py * lvl.width + px - lvl.width < A.length := by omega
    have hmA : py * lvl.width + px - 2 * lvl.width < A.length := by omega
    have hne : py * lvl.width + px - lvl.width ≠ py * lvl.width + px := by omega
    have hne' : py * lvl.width + px ≠ py * lvl.width + px - lvl.width := hne.symm
    have hne2 : py * lvl.width + px - 2 * lvl.width ≠ py * lvl.width + px := by omega
    have hne2' : py * lvl.width + px ≠ py * lvl.width + px - 2 * lvl.width := hne2.symm
    have hne3 : py * lvl.width + px - 2 * lvl.width ≠ py * lvl.width + px - lvl.width := by omega
    have hne3' : py * lvl.width + px - lvl.width ≠ py * lvl.width + px - 2 * lvl.width := hne3.symm
    have hcnp : c.is_player = false := Field.unset_player_not_player _ _ hc
    refine ⟨rfl, hll, by simpa using hsl, hx, by show py - 1 < lvl.height; omega, ?_, ?_, ?_, hcount⟩
    · rw [show (py - 1) * lvl.width + px = py * lvl.width + px - lvl.width from by
        rw [esub]; omega]
      simp only [getD_set_ne, getD_set_self, List.length_set, hne, hne', hne2, hne2',
        hne3, hne3', htA, hnA, hmA, ne_eq, not_false_eq_true]
      exact Field.set_player_is_player _
    · intro i hi hip
      simp only [List.length_set] at hi
      rw [show (py - 1) * lvl.width + px = py * lvl.width + px - lvl.width from by
        rw [esub]; omega]
      rcases eq_or_ne i (py * lvl.width + px) with rfl | hit
      · simp only [getD_set_ne, getD_set_self, List.length_set, hne, hne', hne2, hne2',
        hne3, hne3', htA, hnA, hmA, ne_eq, not_false_eq_true] at hip
        simp [hcnp] at hip
      · rcases eq_or_ne i (py * lvl.width + px - lvl.width) with rfl | hin
        · rfl
        · rcases eq_or_ne i (py * lvl.width + px - 2 * lvl.width) with rfl | him
          · simp only [getD_set_ne, getD_set_self, List.length_set, hne, hne', hne2, hne2',
        hne3, hne3', htA, hnA, hmA, ne_eq, not_false_eq_true] at hip
            simp [Field.set_pack_not_player] at hip
          · have hin' := hin.symm
            have hit' := hit.symm
            have him' := him.symm
            simp only [getD_set_ne, getD_set_self, List.length_set, hne, hne', hne2, hne2',
        hne3, hne3', htA, hnA, hmA, ne_eq, not_false_eq_true, hin', hit', him'] at hip
            exact absurd (hu i hi hip) hit
    · simp [List.filter_append, isPushDir, hpc]
  · rename_i o1 n hn f hf o2 m hm hbb o3 c hc
    have hpy1 : 1 < py := by by_contra hq; rw [if_neg hq] at hm; cases hm
    rw [if_pos hpy1] at hm; injection hm with hm; subst hm
    have hpy0 : 0 < py := by omega
    rw [if_pos hpy0] at hn; injection hn with hn; subst hn
    have htA : py * lvl.width + px < A.length := hsl ▸ idx_lt hx hy
    have hw0 : 0 < lvl.width := by omega
    have haw : lvl.width ≤ py * lvl.width := Nat.le_mul_of_pos_left _ hpy0
    have h2w : 2 * lvl.width ≤ py * lvl.width := Nat.mul_le_mul_right _ (by omega)
    have esub : (py - 1) * lvl.width = py * lvl.width - lvl.width := by
      rw [Nat.sub_mul, one_mul]
    have hnA : py * lvl.width + px - lvl.width < A.length := by omega
    have hmA : py * lvl.width + px - 2 * lvl.width < A.length := by omega
    have hne : py * lvl.width + px - lvl.width ≠ py * lvl.width + px := by omega
    have hne' : py * lvl.width + px ≠ py * lvl.width + px - lvl.width := hne.symm
    have hne2 : py * lvl.width + px - 2 * lvl.width ≠ py * lvl.width + px := by omega
    have hne2' : py * lvl.width + px ≠ py * lvl.width + px - 2 * lvl.width := hne2.symm
    have hne3 : py * lvl.width + px - 2 * lvl.width ≠ py * lvl.width + px - lvl.width := by omega
    have hne3' : py * lvl.width + px - lvl.width ≠ py * lvl.width + px - 2 * lvl.width := hne3.symm
    have hcnp : c.is_player = false := Field.unset_player_not_player _ _ hc
    refine ⟨rfl, hll, by simpa using hsl, hx, by show py - 1 < lvl.height; omega, ?_, ?_, ?_, hcount⟩
    · rw [show (py - 1) * lvl.width + px = py * lvl.width + px - lvl.width from by
        rw [esub]; omega]
      simp only [getD_set_ne, getD_set_self, List.length_set, hne, hne', hne2, hne2',
        hne3, hne3', htA, hnA, hmA, ne_eq, not_false_eq_true]
      exact Field.set_player_is_player _
    · intro i hi hip
      simp only [List.length_set] at hi
      rw [show (py - 1) * lvl.width + px = py * lvl.width + px - lvl.width from by
        rw [esub]; omega]
      rcases eq_or_ne i (py * lvl.width + px) with rfl | hit
      · simp only [getD_set_ne, getD_set_self, List.length_set, hne, hne', hne2, hne2',
        hne3, hne3', htA, hnA, hmA, ne_eq, not_false_eq_true] at hip
        simp [hcnp] at hip
      · rcases eq_or_ne i (py * lvl.width + px - lvl.width) with rfl | hin
        · rfl
        · rcases eq_or_ne i (py * lvl.width + px - 2 * lvl.width) with rfl | him
          · simp only [getD_set_ne, getD_set_self, List.length_set, hne, hne', hne2, hne2',
        hne3, hne3', htA, hnA, hmA, ne_eq, not_false_eq_true] at hip
            simp [Field.set_pack_not_player] at hip
          · have hin' := hin.symm
            have hit' := hit.symm
            have him' := him.symm
            simp only [getD_set_ne, getD_set_self, List.length_set, hne, hne', hne2, hne2',
        hne3, hne3', htA, hnA, hmA, ne_eq, not_false_eq_true, hin', hit', him'] at hip
            exact absurd (hu i hi hip) hit
    · simp [List.filter_append, isPushDir, hpc]


theorem WF_move_down (l : Level) (s s' : LevelState) (r : Bool × Bool)
    (hwf : WF l s) (h : s.make_move .Down = some (r, s')) : WF l s' := by
  obtain ⟨lvl, px, py, A, mv, pc⟩ := s
  obtain ⟨hlv, hll, hsl, hx, hy, hp, hu, hpc, hcount⟩ := hwf
  subst hlv
  simp only at hll hsl hx hy hp hu hpc ⊢
  simp only [LevelState.make_move, LevelState.cell] at h
  repeat' split at h
  all_goals (try cases h)
  all_goals (try exact ⟨rfl, hll, hsl, hx, hy, hp, hu, hpc, hcount⟩)
  · rename_i o1 n hn f hf o2 c hc
    have hpyh : py < lvl.height - 1 := by by_contra hq; rw [if_neg hq] at hn; cases hn
    rw [if_pos hpyh] at hn; injection hn with hn; subst hn
    have htA : py * lvl.width + px < A.length := hsl ▸ idx_lt hx hy
    have hw0 : 0 < lvl.width := by omega
    have eadd : (py + 1) * lvl.width = py * lvl.width + lvl.width := by ring
    have hnA : py * lvl.width + px + lvl.width < A.length := by
      have h1 := idx_lt hx (show py + 1 < lvl.height from by omega)
      rw [eadd] at h1; omega
    have hne : py * lvl.width + px + lvl.width ≠ py * lvl.width + px := by omega
    have hne' : py * lvl.width + px ≠ py * lvl.width + px + lvl.width := hne.symm
    have hcnp : c.is_player = false := Field.unset_player_not_player _ _ hc
    refine ⟨rfl, hll, by simpa using hsl, hx, by show py + 1 < lvl.height; omega, ?_, ?_, ?_, hcount⟩
    · rw [show (py + 1) * lvl.width + px = py * lvl.width + px + lvl.width from by
        rw [eadd]; omega]
      simp only [getD_set_ne, getD_set_self, List.length_set, hne, hne', htA, hnA,
        ne_eq, not_false_eq_true]
      exact Field.set_player_is_player _
    · intro i hi hip
      simp only [List.length_set] at hi
      rw [show (py + 1) * lvl.width + px = py * lvl.width + px + lvl.width from by
        rw [eadd]; omega]
      rcases eq_or_ne i (py * lvl.width + px) with rfl | hit
      · simp only [getD_set_ne, getD_set_self, List.length_set, hne, hne', htA, hnA,
        ne_eq, not_false_eq_true] at hip
        simp [hcnp] at hip
      · rcases eq_or_ne i (py * lvl.width + px + lvl.width) with rfl | hin
        · rfl
        · have hin' := hin.symm
          have hit' := hit.symm
          simp only [getD_set_ne, getD_set_self, List.length_set, hne, hne', htA, hnA,
        ne_eq, not_false_eq_true, hin', hit'] at hip
          exact absurd (hu i hi hip) hit
    · simp [List.filter_append, isPushDir, hpc]
  · rename_i o1 n hn f hf o2 c hc
    have hpyh : py < lvl.height - 1 := by by_contra hq; rw [if_neg hq] at hn; cases hn
    rw [if_pos hpyh] at hn; injection hn with hn; subst hn
    have htA : py * lvl.width + px < A.length := hsl ▸ idx_lt hx hy
    have hw0 : 0 < lvl.width := by omega
    have eadd : (py + 1) * lvl.width = py * lvl.width + lvl.width := by ring
    have hnA : py * lvl.width + px + lvl.width < A.length := by
      have h1 := idx_lt hx (show py + 1 < lvl.height from by omega)
      rw [eadd] at h1; omega
    have hne : py * lvl.width + px + lvl.width ≠ py * lvl.width + px := by omega
    have hne' : py * lvl.width + px ≠ py * lvl.width + px + lvl.width := hne.symm
    have hcnp : c.is_player = false := Field.unset_player_not_player _ _ hc
    refine ⟨rfl, hll, by simpa using hsl, hx, by show py + 1 < lvl.height; omega, ?_, ?_, ?_, hcount⟩
    · rw [show (py + 1) * lvl.width + px = py * lvl.width + px + lvl.width from by
        rw [eadd]; omega]
      simp only [getD_set_ne, getD_set_self, List.length_set, hne, hne', htA, hnA,
        ne_eq, not_false_eq_true]
      exact Field.set_player_is_player _
    · intro i hi hip
      simp only [List.length_set] at hi
      rw [show (py + 1) * lvl.width + px = py * lvl.width + px + lvl.width from by
        rw [eadd]; omega]
      rcases eq_or_ne i (py * lvl.width + px) with rfl | hit
      · simp only [getD_set_ne, getD_set_self, List.length_set, hne, hne', htA, hnA,
        ne_eq, not_false_eq_true] at hip
        simp [hcnp] at hip
      · rcases eq_or_ne i (py * lvl.width + px + lvl.width) with rfl | hin
        · rfl
        · have hin' := hin.symm
          have hit' := hit.symm
          simp only [getD_set_ne, getD_set_self, List.length_set, hne, hne', htA, hnA,
        ne_eq, not_false_eq_true, hin', hit'] at hip
          exact absurd (hu i hi hip) hit
    · simp [List.filter_append, isPushDir, hpc]
  · rename_i o1 n hn f hf o2 m hm hbb o3 c hc
    have hpyh2 : py < lvl.height - 2 := by by_contra hq; rw [if_neg hq] at hm; cases hm
    rw [if_pos hpyh2] at hm; injection hm with hm; subst hm
    have hpyh : py < lvl.height - 1 := by omega
    rw [if_pos hpyh] at hn; injection hn with hn; subst hn
    have htA : py * lvl.width + px < A.length := hsl ▸ idx_lt hx hy
    have hw0 : 0 < lvl.width := by omega
    have eadd : (py + 1) * lvl.width = py * lvl.width + lvl.width := by ring
    have eadd2 : (py + 2) * lvl.width = py * lvl.width + 2 * lvl.width := by ring
    have hnA : py * lvl.width + px + lvl.width < A.length := by
      have h1 := idx_lt hx (show py + 1 < lvl.height from by omega)
      rw [eadd] at h1; omega
    have hmA : py * lvl.width + px + 2 * lvl.width < A.length := by
      have h1 := idx_lt hx (show py + 2 < lvl.height from by omega)
      rw [eadd2] at h1; omega
    have hne : py * lvl.width + px + lvl.width ≠ py * lvl.width + px := by omega
    have hne' : py * lvl.width + px ≠ py * lvl.width + px + lvl.width := hne.symm
    have hne2 : py * lvl.width + px + 2 * lvl.width ≠ py * lvl.width + px := by omega
    have hne2' : py * lvl.width + px ≠ py * lvl.width + px + 2 * lvl.width := hne2.symm
    have hne3 : py * lvl.width + px + 2 * lvl.width ≠ py * lvl.width + px + lvl.width := by omega
    have hne3' : py * lvl.width + px + lvl.width ≠ py * lvl.width + px + 2 * lvl.width := hne3.symm
    have hcnp : c.is_player = false := Field.unset_player_not_player _ _ hc
    refine ⟨rfl, hll, by simpa using hsl, hx, by show py + 1 < lvl.height; omega, ?_, ?_, ?_, hcount⟩
    · rw [show (py + 1) * lvl.width + px = py * lvl.width + px + lvl.width from by
        rw [eadd]; omega]
      simp only [getD_set_ne, getD_set_self, List.length_set, hne, hne', hne2, hne2',
        hne3, hne3', htA, hnA, hmA, ne_eq, not_false_eq_true]
      exact Field.set_player_is_player _
    · intro i hi hip
      simp only [List.length_set] at hi
      rw [show (py + 1) * lvl.width + px = py * lvl.width + px + lvl.width from by
        rw [eadd]; omega]
      rcases eq_or_ne i (py * lvl.width + px) with rfl | hit
      · simp only [getD_set_ne, getD_set_self, List.length_set, hne, hne', hne2, hne2',
        hne3, hne3', htA, hnA, hmA, ne_eq, not_false_eq_true] at hip
        simp [hcnp] at hip
      · rcases eq_or_ne i (py * lvl.width + px + lvl.width) with rfl | hin
        · rfl
        · rcases eq_or_ne i (py * lvl.width + px + 2 * lvl.width) with rfl | him
          · simp only [getD_set_ne, getD_set_self, List.length_set, hne, hne', hne2, hne2',
        hne3, hne3', htA, hnA, hmA, ne_eq, not_false_eq_true] at hip
            simp [Field.set_pack_not_player] at hip
          · have hin' := hin.symm
            have hit' := hit.symm
            have him' := him.symm
            simp only [getD_set_ne, getD_set_self, List.length_set, hne, hne', hne2, hne2',
        hne3, hne3', htA, hnA, hmA, ne_eq, not_false_eq_true, hin', hit', him'] at hip
            exact absurd (hu i hi hip) hit
    · simp [List.filter_append, isPushDir, hpc]
  · rename_i o1 n hn f hf o2 m hm hbb o3 c hc
    have hpyh2 : py < lvl.height - 2 := by by_contra hq; rw [if_neg hq] at hm; cases hm
    rw [if_pos hpyh2] at hm; injection hm with hm; subst hm
    have hpyh : py < lvl.height - 1 := by omega
    rw [if_pos hpyh] at hn; injection hn with hn; subst hn
    have htA : py * lvl.width + px < A.length := hsl ▸ idx_lt hx hy
    have hw0 : 0 < lvl.width := by omega
    have eadd : (py + 1) * lvl.width = py * lvl.width + lvl.width := by ring
    have eadd2 : (py + 2) * lvl.width = py * lvl.width + 2 * lvl.width := by ring
    have hnA : py * lvl.width + px + lvl.width < A.length := by
      have h1 := idx_lt hx (show py + 1 < lvl.height from by omega)
      rw [eadd] at h1; omega
    have hmA : py * lvl.width + px + 2 * lvl.width < A.length := by
      have h1 := idx_lt hx (show py + 2 < lvl.height from by omega)
      rw [eadd2] at h1; omega
    have hne : py * lvl.width + px + lvl.width ≠ py * lvl.width + px := by omega
    have hne' : py * lvl.width + px ≠ py * lvl.width + px + lvl.width := hne.symm
    have hne2 : py * lvl.width + px + 2 * lvl.width ≠ py * lvl.width + px := by omega
    have hne2' : py * lvl.width + px ≠ py * lvl.width + px + 2 * lvl.width := hne2.symm
    have hne3 : py * lvl.width + px + 2 * lvl.width ≠ py * lvl.width + px + lvl.width := by omega
    have hne3' : py * lvl.width + px + lvl.width ≠ py * lvl.width + px + 2 * lvl.width := hne3.symm
    have hcnp : c.is_player = false := Field.unset_player_not_player _ _ hc
    refine ⟨rfl, hll, by simpa using hsl, hx, by show py + 1 < lvl.height; omega, ?_, ?_, ?_, hcount⟩
    · rw [show (py + 1) * lvl.width + px = py * lvl.width + px + lvl.width from by
        rw [eadd]; omega]
      simp only [getD_set_ne, getD_set_self, List.length_set, hne, hne', hne2, hne2',
        hne3, hne3', htA, hnA, hmA, ne_eq, not_false_eq_true]
      exact Field.set_player_is_player _
    · intro i hi hip
      simp only [List.length_set] at hi
      rw [show (py + 1) * lvl.width + px = py * lvl.width + px + lvl.width from by
        rw [eadd]; omega]
      rcases eq_or_ne i (py * lvl.width + px) with rfl | hit
      · simp only [getD_set_ne, getD_set_self, List.length_set, hne, hne', hne2, hne2',
        hne3, hne3', htA, hnA, hmA, ne_eq, not_false_eq_true] at hip
        simp [hcnp] at hip
      · rcases eq_or_ne i (py * lvl.width + px + lvl.width) with rfl | hin
        · rfl
        · rcases eq_or_ne i (py * lvl.width + px + 2 * lvl.width) with rfl | him
          · simp only [getD_set_ne, getD_set_self, List.length_set, hne, hne', hne2, hne2',
        hne3, hne3', htA, hnA, hmA, ne_eq, not_false_eq_true] at hip
            simp [Field.set_pack_not_player] at hip
          · have hin' := hin.symm
            have hit' := hit.symm
            have him' := him.symm
            simp only [getD_set_ne, getD_set_self, List.length_set, hne, hne', hne2, hne2',
        hne3, hne3', htA, hnA, hmA, ne_eq, not_false_eq_true, hin', hit', him'] at hip
            exact absurd (hu i hi hip) hit
    · simp [List.filter_append, isPushDir, hpc]


theorem WF_undo (l : Level) (s s' : LevelState) (b : Bool)
    (hwf : WF l s) (h : s.undo_move = some (b, s')) : WF l s' := by
  obtain ⟨lvl, px, py, A, mv, pc⟩ := s
  obtain ⟨hlv, hll, hsl, hx, hy, hp, hu, hpc, hcount⟩ := hwf
  subst hlv
  simp only at hll hsl hx hy hp hu hpc ⊢
  have htA : py * lvl.width + px < A.length := hsl ▸ idx_lt hx hy
  simp only [LevelState.undo_move, LevelState.cell] at h
  split at h
  case h_1 =>
    cases h
    exact ⟨rfl, hll, hsl, hx, hy, hp, hu, hpc, hcount⟩
  case h_2 dir heq =>
    cases dir
    case Right =>
      repeat' split at h
      all_goals (try cases h)
      rename_i o1 prev pnext ox oy heq1 o5 a2 pc2 heq2
      simp only [show (Direction.Right = Direction.PushRight) = False from by simp,
        if_false] at heq1
      have hg : ¬ px = 0 := by by_contra hq; rw [if_pos hq] at heq1; cases heq1
      rw [if_neg hg] at heq1
      cases heq1

      simp only [] at heq2
      split at heq2
      · rename_i c hc
        cases heq2
        have hprevA : py * lvl.width + px - 1 < A.length := by omega
        have hneP : py * lvl.width + px - 1 ≠ py * lvl.width + px := by omega
        have hneP' : py * lvl.width + px ≠ py * lvl.width + px - 1 := hneP.symm
        have hcnp : c.is_player = false := Field.unset_player_not_player _ _ hc
        have hmveq := eq_dropLast_append mv _ heq
        rw [hmveq] at hpc
        simp [List.filter_append, isPushDir] at hpc
        refine ⟨rfl, hll, by simpa using hsl, by show px - 1 < lvl.width; omega, hy, ?_, ?_, ?_, hcount⟩
        · rw [show py * lvl.width + (px - 1) = py * lvl.width + px - 1 from by omega]
          simp only [getD_set_ne, getD_set_self, List.length_set, hneP, hneP', htA, hprevA,
          ne_eq, not_false_eq_true]
          exact Field.set_player_is_player _
        · intro i hi hip
          simp only [List.length_set] at hi
          rw [show py * lvl.width + (px - 1) = py * lvl.width + px - 1 from by omega]
          rcases eq_or_ne i (py * lvl.width + px - 1) with rfl | hiP
          · rfl
          · rcases eq_or_ne i (py * lvl.width + px) with rfl | hit
            · have hiP' := hiP.symm
              simp only [getD_set_ne, getD_set_self, List.length_set, hneP, hneP', htA, hprevA,
          ne_eq, not_false_eq_true, hiP'] at hip
              simp [hcnp] at hip
            · have hiP' := hiP.symm
              have hit' := hit.symm
              simp only [getD_set_ne, getD_set_self, List.length_set, hneP, hneP', htA, hprevA,
          ne_eq, not_false_eq_true, hiP', hit'] at hip
              exact absurd (hu i hi hip) hit
        · show pc = (List.filter isPushDir mv.dropLast).length
          omega
      · cases heq2
    case PushRight =>
      repeat' split at h
      all_goals (try cases h)
      rename_i o1 prev pnext ox oy heq1 o5 a2 pc2 heq2
      simp only [show (Direction.PushRight = Direction.PushRight) = True from by simp,
        if_true] at heq1
      have hg : ¬ px = 0 := by by_contra hq; rw [if_pos hq] at heq1; cases heq1
      rw [if_neg hg] at heq1
      cases heq1

      simp only [] at heq2
      split at heq2
      · rename_i c2 hc2
        cases heq2
        have hnextA : py * lvl.width + px + 1 < A.length := by
          by_contra hq
          rw [getD_eq_default _ _ _ (by omega)] at hc2; cases hc2
        have hprevA : py * lvl.width + px - 1 < A.length := by omega
        have hneP : py * lvl.width + px - 1 ≠ py * lvl.width + px := by omega
        have hneP' : py * lvl.width + px ≠ py * lvl.width + px - 1 := hneP.symm
        have hneN : py * lvl.width + px + 1 ≠ py * lvl.width + px := by omega
        have hneN' : py * lvl.width + px ≠ py * lvl.width + px + 1 := hneN.symm
        have hnePN : py * lvl.width + px - 1 ≠ py * lvl.width + px + 1 := by omega
        have hnePN' : py * lvl.width + px + 1 ≠ py * lvl.width + px - 1 := hnePN.symm
        have hcnp : c2.is_player = false := Field.unset_pack_not_player _ _ hc2
        have hmveq := eq_dropLast_append mv _ heq
        rw [hmveq] at hpc
        simp [List.filter_append, isPushDir] at hpc
        refine ⟨rfl, hll, by simpa using hsl, by show px - 1 < lvl.width; omega, hy, ?_, ?_, ?_, hcount⟩
        · rw [show py * lvl.width + (px - 1) = py * lvl.width + px - 1 from by omega]
          simp only [getD_set_ne, getD_set_self, List.length_set, hneP, hneP', hneN, hneN',
          hnePN, hnePN', htA, hprevA, hnextA, ne_eq, not_false_eq_true]
          exact Field.set_player_is_player _
        · intro i hi hip
          simp only [List.length_set] at hi
          rw [show py * lvl.width + (px - 1) = py * lvl.width + px - 1 from by omega]
          rcases eq_or_ne i (py * lvl.width + px - 1) with rfl | hiP
          · rfl
          · rcases eq_or_ne i (py * lvl.width + px) with rfl | hit
            · have hiP' := hiP.symm
              simp only [getD_set_ne, getD_set_self, List.length_set, hneP, hneP', hneN, hneN',
          hnePN, hnePN', htA, hprevA, hnextA, ne_eq, not_false_eq_true, hiP'] at hip
              simp [Field.set_pack_not_player] at hip
            · rcases eq_or_ne i (py * lvl.width + px + 1) with rfl | hiN
              · have hiP' := hiP.symm
                have hit' := hit.symm
                simp only [getD_set_ne, getD_set_self, List.length_set, hneP, hneP', hneN, hneN',
          hnePN, hnePN', htA, hprevA, hnextA, ne_eq, not_false_eq_true, hiP', hit'] at hip
                simp [hcnp] at hip
              · have hiP' := hiP.symm
                have hit' := hit.symm
                have hiN' := hiN.symm
                simp only [getD_set_ne, getD_set_self, List.length_set, hneP, hneP', hneN, hneN',
          hnePN, hnePN', htA, hprevA, hnextA, ne_eq, not_false_eq_true, hiP', hit', hiN'] at hip
                exact absurd (hu i hi hip) hit
        · show pc - 1 = (List.filter isPushDir mv.dropLast).length
          omega
      · cases heq2
    case Left =>
      repeat' split at h
      all_goals (try cases h)
      rename_i o1 prev pnext ox oy heq1 o5 a2 pc2 heq2
      simp only [show (Direction.Left = Direction.PushLeft) = False from by simp,
        if_false] at heq1
      have hg : ¬ px ≥ lvl.width - 1 := by
        by_contra hq; rw [if_pos hq] at heq1; cases heq1
      rw [if_neg hg] at heq1
      cases heq1

      simp only [] at heq2
      split at heq2
      · rename_i c hc
        cases heq2
        have hprevA : py * lvl.width + px + 1 < A.length := by
          have h1 := idx_lt (show px + 1 < lvl.width from by omega) hy; omega
        have hneP : py * lvl.width + px + 1 ≠ py * lvl.width + px := by omega
        have hneP' : py * lvl.width + px ≠ py * lvl.width + px + 1 := hneP.symm
        have hcnp : c.is_player = false := Field.unset_player_not_player _ _ hc
        have hmveq := eq_dropLast_append mv _ heq
        rw [hmveq] at hpc
        simp [List.filter_append, isPushDir] at hpc
        refine ⟨rfl, hll, by simpa using hsl, by show px + 1 < lvl.width; omega, hy, ?_, ?_, ?_, hcount⟩
        · rw [show py * lvl.width + (px + 1) = py * lvl.width + px + 1 from by omega]
          simp only [getD_set_ne, getD_set_self, List.length_set, hneP, hneP', htA, hprevA,
          ne_eq, not_false_eq_true]
          exact Field.set_player_is_player _
        · intro i hi hip
          simp only [List.length_set] at hi
          rw [show py * lvl.width + (px + 1) = py * lvl.width + px + 1 from by omega]
          rcases eq_or_ne i (py * lvl.width + px + 1) with rfl | hiP
          · rfl
          · rcases eq_or_ne i (py * lvl.width + px) with rfl | hit
            · have hiP' := hiP.symm
              simp only [getD_set_ne, getD_set_self, List.length_set, hneP, hneP', htA, hprevA,
          ne_eq, not_false_eq_true, hiP'] at hip
              simp [hcnp] at hip
            · have hiP' := hiP.symm
              have hit' := hit.symm
              simp only [getD_set_ne, getD_set_self, List.length_set, hneP, hneP', htA, hprevA,
          ne_eq, not_false_eq_true, hiP', hit'] at hip
              exact absurd (hu i hi hip) hit
        · show pc = (List.filter isPushDir mv.dropLast).length
          omega
      · cases heq2
    case PushLeft =>
      repeat' split at h
      all_goals (try cases h)
      rename_i o1 prev pnext ox oy heq1 o5 a2 pc2 heq2
      simp only [show (Direction.PushLeft = Direction.PushLeft) = True from by simp,
        if_true] at heq1
      have hg : ¬ px ≥ lvl.width - 1 := by
        by_contra hq; rw [if_pos hq] at heq1; cases heq1
      rw [if_neg hg] at heq1
      have h1t : 1 ≤ py * lvl.width + px := by
        by_contra hq
        simp only [checkedSub, if_neg hq] at heq1; cases heq1
      simp only [checkedSub, if_pos h1t] at heq1
      cases heq1

      simp only [] at heq2
      split at heq2
      · rename_i c2 hc2
        cases heq2
        have hnextA : py * lvl.width + px - 1 < A.length := by
          by_contra hq
          rw [getD_eq_default _ _ _ (by omega)] at hc2; cases hc2
        have hprevA : py * lvl.width + px + 1 < A.length := by
          have h1 := idx_lt (show px + 1 < lvl.width from by omega) hy; omega
        have hneP : py * lvl.width + px + 1 ≠ py * lvl.width + px := by omega
        have hneP' : py * lvl.width + px ≠ py * lvl.width + px + 1 := hneP.symm
        have hneN : py * lvl.width + px - 1 ≠ py * lvl.width + px := by omega
        have hneN' : py * lvl.width + px ≠ py * lvl.width + px - 1 := hneN.symm
        have hnePN : py * lvl.width + px + 1 ≠ py * lvl.width + px - 1 := by omega
        have hnePN' : py * lvl.width + px - 1 ≠ py * lvl.width + px + 1 := hnePN.symm
        have hcnp : c2.is_player = false := Field.unset_pack_not_player _ _ hc2
        have hmveq := eq_dropLast_append mv _ heq
        rw [hmveq] at hpc
        simp [List.filter_append, isPushDir] at hpc
        refine ⟨rfl, hll, by simpa using hsl, by show px + 1 < lvl.width; omega, hy, ?_, ?_, ?_, hcount⟩
        · rw [show py * lvl.width + (px + 1) = py * lvl.width + px + 1 from by omega]
          simp only [getD_set_ne, getD_set_self, List.length_set, hneP, hneP', hneN, hneN',
          hnePN, hnePN', htA, hprevA, hnextA, ne_eq, not_false_eq_true]
          exact Field.set_player_is_player _
        · intro i hi hip
          simp only [List.length_set] at hi
          rw [show py * lvl.width + (px + 1) = py * lvl.width + px + 1 from by omega]
          rcases eq_or_ne i (py * lvl.width + px + 1) with rfl | hiP
          · rfl
          · rcases eq_or_ne i (py * lvl.width + px) with rfl | hit
            · have hiP' := hiP.symm
              simp only [getD_set_ne, getD_set_self, List.length_set, hneP, hneP', hneN, hneN',
          hnePN, hnePN', htA, hprevA, hnextA, ne_eq, not_false_eq_true, hiP'] at hip
              simp [Field.set_pack_not_player] at hip
            · rcases eq_or_ne i (py * lvl.width + px - 1) with rfl | hiN
              · have hiP' := hiP.symm
                have hit' := hit.symm
                simp only [getD_set_ne, getD_set_self, List.length_set, hneP, hneP', hneN, hneN',
          hnePN, hnePN', htA, hprevA, hnextA, ne_eq, not_false_eq_true, hiP', hit'] at hip
                simp [hcnp] at hip
              · have hiP' := hiP.symm
                have hit' := hit.symm
                have hiN' := hiN.symm
                simp only [getD_set_ne, getD_set_self, List.length_set, hneP, hneP', hneN, hneN',
          hnePN, hnePN', htA, hprevA, hnextA, ne_eq, not_false_eq_true, hiP', hit', hiN'] at hip
                exact absurd (hu i hi hip) hit
        · show pc - 1 = (List.filter isPushDir mv.dropLast).length
          omega
      · cases heq2
    case Down =>
      repeat' split at h
      all_goals (try cases h)
      rename_i o1 prev pnext ox oy heq1 o5 a2 pc2 heq2
      simp only [show (Direction.Down = Direction.PushDown) = False from by simp,
        if_false] at heq1
      have hg : ¬ py = 0 := by by_contra hq; rw [if_pos hq] at heq1; cases heq1
      rw [if_neg hg] at heq1
      cases heq1

      simp only [] at heq2
      split at heq2
      · rename_i c hc
        cases heq2
        have hw0 : 0 < lvl.width := by omega
        have haw : lvl.width ≤ py * lvl.width := Nat.le_mul_of_pos_left _ (by omega)
        have esub : (py - 1) * lvl.width = py * lvl.width - lvl.width := by
          rw [Nat.sub_mul, one_mul]
        have hprevA : py * lvl.width + px - lvl.width < A.length := by omega
        have hneP : py * lvl.width + px - lvl.width ≠ py * lvl.width + px := by omega
        have hneP' : py * lvl.width + px ≠ py * lvl.width + px - lvl.width := hneP.symm
        have hcnp : c.is_player = false := Field.unset_player_not_player _ _ hc
        have hmveq := eq_dropLast_append mv _ heq
        rw [hmveq] at hpc
        simp [List.filter_append, isPushDir] at hpc
        refine ⟨rfl, hll, by simpa using hsl, hx, by show py - 1 < lvl.height; omega, ?_, ?_, ?_, hcount⟩
        · rw [show (py - 1) * lvl.width + px = py * lvl.width + px - lvl.width from by
            rw [esub]; omega]
          simp only [getD_set_ne, getD_set_self, List.length_set, hneP, hneP', htA, hprevA,
          ne_eq, not_false_eq_true]
          exact Field.set_player_is_player _
        · intro i hi hip
          simp only [List.length_set] at hi
          rw [show (py - 1) * lvl.width + px = py * lvl.width + px - lvl.width from by
            rw [esub]; omega]
          rcases eq_or_ne i (py * lvl.width + px - lvl.width) with rfl | hiP
          · rfl
          · rcases eq_or_ne i (py * lvl.width + px) with rfl | hit
            · have hiP' := hiP.symm
              simp only [getD_set_ne, getD_set_self, List.length_set, hneP, hneP', htA, hprevA,
          ne_eq, not_false_eq_true, hiP'] at hip
              simp [hcnp] at hip
            · have hiP' := hiP.symm
              have hit' := hit.symm
              simp only [getD_set_ne, getD_set_self, List.length_set, hneP, hneP', htA, hprevA,
          ne_eq, not_false_eq_true, hiP', hit'] at hip
              exact absurd (hu i hi hip) hit
        · show pc = (List.filter isPushDir mv.dropLast).length
          omega
      · cases heq2
    case PushDown =>
      repeat' split at h
      all_goals (try cases h)
      rename_i o1 prev pnext ox oy heq1 o5 a2 pc2 heq2
      simp only [show (Direction.PushDown = Direction.PushDown) = True from by simp,
        if_true] at heq1
      have hg : ¬ py = 0 := by by_contra hq; rw [if_pos hq] at heq1; cases heq1
      rw [if_neg hg] at heq1
      cases heq1

      simp only [] at heq2
      split at heq2
      · rename_i c2 hc2
        cases heq2
        have hnextA : py * lvl.width + px + lvl.width < A.length := by
          by_contra hq
          rw [getD_eq_default _ _ _ (by omega)] at hc2; cases hc2
        have hw0 : 0 < lvl.width := by omega
        have haw : lvl.width ≤ py * lvl.width := Nat.le_mul_of_pos_left _ (by omega)
        have esub : (py - 1) * lvl.width = py * lvl.width - lvl.width := by
          rw [Nat.sub_mul, one_mul]
        have hprevA : py * lvl.width + px - lvl.width < A.length := by omega
        have hneP : py * lvl.width + px - lvl.width ≠ py * lvl.width + px := by omega
        have hneP' : py * lvl.width + px ≠ py * lvl.width + px - lvl.width := hneP.symm
        have hneN : py * lvl.width + px + lvl.width ≠ py * lvl.width + px := by omega
        have hneN' : py * lvl.width + px ≠ py * lvl.width + px + lvl.width := hneN.symm
        have hnePN : py * lvl.width + px - lvl.width ≠ py * lvl.width + px + lvl.width := by omega
        have hnePN' : py * lvl.width + px + lvl.width ≠ py * lvl.width + px - lvl.width := hnePN.symm
        have hcnp : c2.is_player = false := Field.unset_pack_not_player _ _ hc2
        have hmveq := eq_dropLast_append mv _ heq
        rw [hmveq] at hpc
        simp [List.filter_append, isPushDir] at hpc
        refine ⟨rfl, hll, by simpa using hsl, hx, by show py - 1 < lvl.height; omega, ?_, ?_, ?_, hcount⟩
        · rw [show (py - 1) * lvl.width + px = py * lvl.width + px - lvl.width from by
            rw [esub]; omega]
          simp only [getD_set_ne, getD_set_self, List.length_set, hneP, hneP', hneN, hneN',
          hnePN, hnePN', htA, hprevA, hnextA, ne_eq, not_false_eq_true]
          exact Field.set_player_is_player _
        · intro i hi hip
          simp only [List.length_set] at hi
          rw [show (py - 1) * lvl.width + px = py * lvl.width + px - lvl.width from by
            rw [esub]; omega]
          rcases eq_or_ne i (py * lvl.width + px - lvl.width) with rfl | hiP
          · rfl
          · rcases eq_or_ne i (py * lvl.width + px) with rfl | hit
            · have hiP' := hiP.symm
              simp only [getD_set_ne, getD_set_self, List.length_set, hneP, hneP', hneN, hneN',
          hnePN, hnePN', htA, hprevA, hnextA, ne_eq, not_false_eq_true, hiP'] at hip
              simp [Field.set_pack_not_player] at hip
            · rcases eq_or_ne i (py * lvl.width + px + lvl.width) with rfl | hiN
              · have hiP' := hiP.symm
                have hit' := hit.symm
                simp only [getD_set_ne, getD_set_self, List.length_set, hneP, hneP', hneN, hneN',
          hnePN, hnePN', htA, hprevA, hnextA, ne_eq, not_false_eq_true, hiP', hit'] at hip
                simp [hcnp] at hip
              · have hiP' := hiP.symm
                have hit' := hit.symm
                have hiN' := hiN.symm
                simp only [getD_set_ne, getD_set_self, List.length_set, hneP, hneP', hneN, hneN',
          hnePN, hnePN', htA, hprevA, hnextA, ne_eq, not_false_eq_true, hiP', hit', hiN'] at hip
                exact absurd (hu i hi hip) hit
        · show pc - 1 = (List.filter isPushDir mv.dropLast).length
          omega
      · cases heq2
    case Up =>
      repeat' split at h
      all_goals (try cases h)
      rename_i o1 prev pnext ox oy heq1 o5 a2 pc2 heq2
      simp only [show (Direction.Up = Direction.PushUp) = False from by simp,
        if_false] at heq1
      have hg : ¬ py ≥ lvl.height - 1 := by
        by_contra hq; rw [if_pos hq] at heq1; cases heq1
      rw [if_neg hg] at heq1
      cases heq1

      simp only [] at heq2
      split at heq2
      · rename_i c hc
        cases heq2
        have hw0 : 0 < lvl.width := by omega
        have eadd : (py + 1) * lvl.width = py * lvl.width + lvl.width := by ring
        have hprevA : py * lvl.width + px + lvl.width < A.length := by
          have h1 := idx_lt hx (show py + 1 < lvl.height from by omega)
          rw [eadd] at h1; omega
        have hneP : py * lvl.width + px + lvl.width ≠ py * lvl.width + px := by omega
        have hneP' : py * lvl.width + px ≠ py * lvl.width + px + lvl.width := hneP.symm
        have hcnp : c.is_player = false := Field.unset_player_not_player _ _ hc
        have hmveq := eq_dropLast_append mv _ heq
        rw [hmveq] at hpc
        simp [List.filter_append, isPushDir] at hpc
        refine ⟨rfl, hll, by simpa using hsl, hx, by show py + 1 < lvl.height; omega, ?_, ?_, ?_, hcount⟩
        · rw [show (py + 1) * lvl.width + px = py * lvl.width + px + lvl.width from by
            rw [eadd]; omega]
          simp only [getD_set_ne, getD_set_self, List.length_set, hneP, hneP', htA, hprevA,
          ne_eq, not_false_eq_true]
          exact Field.set_player_is_player _
        · intro i hi hip
          simp only [List.length_set] at hi
          rw [show (py + 1) * lvl.width + px = py * lvl.width + px + lvl.width from by
            rw [eadd]; omega]
          rcases eq_or_ne i (py * lvl.width + px + lvl.width) with rfl | hiP
          · rfl
          · rcases eq_or_ne i (py * lvl.width + px) with rfl | hit
            · have hiP' := hiP.symm
              simp only [getD_set_ne, getD_set_self, List.length_set, hneP, hneP', htA, hprevA,
          ne_eq, not_false_eq_true, hiP'] at hip
              simp [hcnp] at hip
            · have hiP' := hiP.symm
              have hit' := hit.symm
              simp only [getD_set_ne, getD_set_self, List.length_set, hneP, hneP', htA, hprevA,
          ne_eq, not_false_eq_true, hiP', hit'] at hip
              exact absurd (hu i hi hip) hit
        · show pc = (List.filter isPushDir mv.dropLast).length
          omega
      · cases heq2
    case PushUp =>
      repeat' split at h
      all_goals (try cases h)
      rename_i o1 prev pnext ox oy heq1 o5 a2 pc2 heq2
      simp only [show (Direction.PushUp = Direction.PushUp) = True from by simp,
        if_true] at heq1
      have hg : ¬ py ≥ lvl.height - 1 := by
        by_contra hq; rw [if_pos hq] at heq1; cases heq1
      rw [if_neg hg] at heq1
      have hwt : lvl.width ≤ py * lvl.width + px := by
        by_contra hq
        simp only [checkedSub, if_neg hq] at heq1; cases heq1
      simp only [checkedSub, if_pos hwt] at heq1
      cases heq1

      simp only [] at heq2
      split at heq2
      · rename_i c2 hc2
        cases heq2
        have hnextA : py * lvl.width + px - lvl.width < A.length := by
          by_contra hq
          rw [getD_eq_default _ _ _ (by omega)] at hc2; cases hc2
        have hw0 : 0 < lvl.width := by omega
        have eadd : (py + 1) * lvl.width = py * lvl.width + lvl.width := by ring
        have hprevA : py * lvl.width + px + lvl.width < A.length := by
          have h1 := idx_lt hx (show py + 1 < lvl.height from by omega)
          rw [eadd] at h1; omega
        have hneP : py * lvl.width + px + lvl.width ≠ py * lvl.width + px := by omega
        have hneP' : py * lvl.width + px ≠ py * lvl.width + px + lvl.width := hneP.symm
        have hneN : py * lvl.width + px - lvl.width ≠ py * lvl.width + px := by omega
        have hneN' : py * lvl.width + px ≠ py * lvl.width + px - lvl.width := hneN.symm
        have hnePN : py * lvl.width + px + lvl.width ≠ py * lvl.width + px - lvl.width := by omega
        have hnePN' : py * lvl.width + px - lvl.width ≠ py * lvl.width + px + lvl.width := hnePN.symm
        have hcnp : c2.is_player = false := Field.unset_pack_not_player _ _ hc2
        have hmveq := eq_dropLast_append mv _ heq
        rw [hmveq] at hpc
        simp [List.filter_append, isPushDir] at hpc
        refine ⟨rfl, hll, by simpa using hsl, hx, by show py + 1 < lvl.height; omega, ?_, ?_, ?_, hcount⟩
        · rw [show (py + 1) * lvl.width + px = py * lvl.width + px + lvl.width from by
            rw [eadd]; omega]
          simp only [getD_set_ne, getD_set_self, List.length_set, hneP, hneP', hneN, hneN',
          hnePN, hnePN', htA, hprevA, hnextA, ne_eq, not_false_eq_true]
          exact Field.set_player_is_player _
        · intro i hi hip
          simp only [List.length_set] at hi
          rw [show (py + 1) * lvl.width + px = py * lvl.width + px + lvl.width from by
            rw [eadd]; omega]
          rcases eq_or_ne i (py * lvl.width + px + lvl.width) with rfl | hiP
          · rfl
          · rcases eq_or_ne i (py * lvl.width + px) with rfl | hit
            · have hiP' := hiP.symm
              simp only [getD_set_ne, getD_set_self, List.length_set, hneP, hneP', hneN, hneN',
          hnePN, hnePN', htA, hprevA, hnextA, ne_eq, not_false_eq_true, hiP'] at hip
              simp [Field.set_pack_not_player] at hip
            · rcases eq_or_ne i (py * lvl.width + px - lvl.width) with rfl | hiN
              · have hiP' := hiP.symm
                have hit' := hit.symm
                simp only [getD_set_ne, getD_set_self, List.length_set, hneP, hneP', hneN, hneN',
          hnePN, hnePN', htA, hprevA, hnextA, ne_eq, not_false_eq_true, hiP', hit'] at hip
                simp [hcnp] at hip
              · have hiP' := hiP.symm
                have hit' := hit.symm
                have hiN' := hiN.symm
                simp only [getD_set_ne, getD_set_self, List.length_set, hneP, hneP', hneN, hneN',
          hnePN, hnePN', htA, hprevA, hnextA, ne_eq, not_false_eq_true, hiP', hit', hiN'] at hip
                exact absurd (hu i hi hip) hit
        · show pc - 1 = (List.filter isPushDir mv.dropLast).length
          omega
      · cases heq2
    case NoDirection =>
      simp only [] at h
      cases h

theorem WF_new (l : Level) (s : LevelState)
    (hlenl : l.area.length = l.width * l.height)
    (h : LevelState.new l = some (.ok s)) : WF l s := by
  unfold LevelState.new at h
  split at h
  case h_2 => simp at h
  case h_1 pp hpp =>
    split at h
    · cases h
    · simp at h
    · rename_i u hck
      cases h
      obtain ⟨⟩ := u
      have hcount := check_ok_players l hck
      have hlt : pp < l.area.length := position_lt _ _ _ hpp
      have hpl : (l.area.getD pp Field.Wall).is_player = true :=
        position_getD _ _ _ _ hpp
      have hw : 0 < l.width := by
        rcases Nat.eq_zero_or_pos l.width with h0 | h0
        · rw [h0, Nat.zero_mul] at hlenl; omega
        · exact h0
      have hpwh : pp < l.height * l.width := by
        rw [Nat.mul_comm l.height l.width, ← hlenl]; exact hlt
      have hppx : pp / l.width * l.width + pp % l.width = pp := by
        rw [Nat.mul_comm]; exact Nat.div_add_mod pp l.width
      refine ⟨rfl, hlenl, hlenl, Nat.mod_lt _ hw,
        (Nat.div_lt_iff_lt_mul hw).mpr hpwh, ?_, ?_, rfl, hcount⟩
      · show (l.area.getD (pp / l.width * l.width + pp % l.width)
          Field.Wall).is_player = true
        rw [hppx]; exact hpl
      · intro i hi hip
        show i = pp / l.width * l.width + pp % l.width
        rw [hppx]
        exact filter_one_unique _ Field.Wall l.area hcount i pp hi hlt hip hpl

theorem WF_reset (l : Level) (s s' : LevelState)
    (hwf : WF l s) (h : s.reset = some s') : WF l s' := by
  obtain ⟨lvl, px, py, A, mv, pc⟩ := s
  obtain ⟨hlv, hll, hsl, hx, hy, hp, hu, hpc, hcount⟩ := hwf
  subst hlv
  simp only at hll hsl hx hy hp hu hpc hcount ⊢
  simp only [LevelState.reset] at h
  split at h
  case h_2 => cases h
  case h_1 pp hpp =>
    split at h
    swap
    · cases h
    · cases h
      have hlt : pp < lvl.area.length := position_lt _ _ _ hpp
      have hpl : (lvl.area.getD pp Field.Wall).is_player = true :=
        position_getD _ _ _ _ hpp
      have hw : 0 < lvl.width := by omega
      have hpwh : pp < lvl.height * lvl.width := by
        rw [Nat.mul_comm lvl.height lvl.width, ← hll]; exact hlt
      have hppx : pp / lvl.width * lvl.width + pp % lvl.width = pp := by
        rw [Nat.mul_comm]; exact Nat.div_add_mod pp lvl.width
      refine ⟨rfl, hll, hll, Nat.mod_lt _ hw,
        (Nat.div_lt_iff_lt_mul hw).mpr hpwh, ?_, ?_, rfl, hcount⟩
      · show (lvl.area.getD (pp / lvl.width * lvl.width + pp % lvl.width)
          Field.Wall).is_player = true
        rw [hppx]; exact hpl
      · intro i hi hip
        show i = pp / lvl.width * lvl.width + pp % lvl.width
        rw [hppx]
        exact filter_one_unique _ Field.Wall lvl.area hcount i pp hi hlt hip hpl

theorem WF_move (l : Level) (s s' : LevelState) (d : Direction) (r : Bool × Bool)
    (hwf : WF l s) (h : s.make_move d = some (r, s')) : WF l s' := by
  cases d
  case Left => exact WF_move_left l s s' r hwf h
  case PushLeft =>
    rw [push_dir_same_left] at h
    exact WF_move_left l s s' r hwf h
  case Right => exact WF_move_right l s s' r hwf h
  case PushRight =>
    rw [push_dir_same_right] at h
    exact WF_move_right l s s' r hwf h
  case Up => exact WF_move_up l s s' r hwf h
  case PushUp =>
    rw [push_dir_same_up] at h
    exact WF_move_up l s s' r hwf h
  case Down => exact WF_move_down l s s' r hwf h
  case PushDown =>
    rw [push_dir_same_down] at h
    exact WF_move_down l s s' r hwf h
  case NoDirection =>
    simp only [LevelState.make_move] at h
    cases h
    exact hwf

theorem reachable_WF (l : Level) (s : LevelState)
    (hlenl : l.area.length = l.width * l.height) (h : Reachable l s) : WF l s := by
  induction h with
  | init s hs => exact WF_new l s hlenl hs
  | mv s s' d r _ hstep ih => exact WF_move l s s' d r ih hstep
  | undo s s' b _ hstep ih => exact WF_undo l s s' b ih hstep
  | rst s s' _ hstep ih => exact WF_reset l s s' ih hstep

/-- C7: every state reachable from LevelState::new on a validated level
by any sequence of make_move, undo_move and reset calls keeps exactly one
player-tagged cell (Player or PlayerOnTarget) in the working grid, located
at (player_x, player_y). -/
theorem reachable_one_player (l : Level) (s : LevelState)
    (hlenl : l.area.length = l.width * l.height) (h : Reachable l s) :
    (s.area.getD (s.player_y * s.level.width + s.player_x)
      Field.Wall).is_player = true ∧
    ∀ i, i < s.area.length → (s.area.getD i Field.Wall).is_player = true →
      i = s.player_y * s.level.width + s.player_x := by
  obtain ⟨hlv, _, _, _, _, hp, hu, _, _⟩ := reachable_WF l s hlenl h
  rw [hlv]
  exact ⟨hp, hu⟩

/-- C9: every state reachable from LevelState::new by any sequence of
make_move, undo_move and reset calls keeps pushes_count equal to the
number of push-variant directions currently stored in the move log. -/
theorem reachable_pushes_count (l : Level) (s : LevelState)
    (hlenl : l.area.length = l.width * l.height) (h : Reachable l s) :
    s.pushes_count = (s.moves.filter isPushDir).length := by
  obtain ⟨_, _, _, _, _, _, _, hpc, _⟩ := reachable_WF l s hlenl h
  exact hpc

example : LevelState.new ring3 = some (.ok ring3State) := by rfl
example : LevelState.new lvl53 = some (.ok st53) := by rfl
example : st53.make_move .Left = some ((true, true), st53p) := by rfl

theorem reachable_one_player_witness :
    (ring3State.area.getD (ring3State.player_y * ring3State.level.width +
      ring3State.player_x) Field.Wall).is_player = true ∧
    ∀ i, i < ring3State.area.length →
      (ring3State.area.getD i Field.Wall).is_player = true →
      i = ring3State.player_y * ring3State.level.width + ring3State.player_x :=
  reachable_one_player ring3 ring3State (by rfl)
    (Reachable.init ring3State (by rfl))

theorem reachable_pushes_count_witness :
    st53p.pushes_count = (st53p.moves.filter isPushDir).length :=
  reachable_pushes_count lvl53 st53p (by rfl)
    (Reachable.mv st53 st53p .Left (true, true)
      (Reachable.init st53 (by rfl)) (by rfl))

theorem make_undo_roundtrip_witness :
    st53p.undo_move = some (true, st53) :=
  make_undo_roundtrip st53 .Left true st53p (by rfl) (by decide) (by decide)
    (by rfl) (by decide) (by rfl)

theorem make_move_failure_witness :
    st53 = st53 ∧ ((false : Bool), (false : Bool)).2 = false :=
  make_move_failure_no_mutation st53 .Right ((false : Bool), (false : Bool))
    st53 (by rfl) (by rfl)


theorem upd_self (f : Nat → Bool) (i : Nat) : updateFilled f i i = true := by
  simp [updateFilled]

theorem upd_mono (f : Nat → Bool) (i j : Nat) (h : f j = true) :
    updateFilled f i j = true := by
  unfold updateFilled; split <;> simp [h]

theorem upd_eq_true (f : Nat → Bool) (i j : Nat) :
    updateFilled f i j = true ↔ j = i ∨ f j = true := by
  unfold updateFilled
  split
  · simp [*]
  · simp [*]

theorem idx_inj {w x y x2 y2 : Nat} (hx : x < w) (hx2 : x2 < w)
    (h : y * w + x = y2 * w + x2) : x = x2 ∧ y = y2 := by
  have hw : 0 < w := by omega
  have h1 : (y * w + x) % w = x := by
    rw [Nat.mul_comm y w, Nat.mul_add_mod]
    exact Nat.mod_eq_of_lt hx
  have h2 : (y2 * w + x2) % w = x2 := by
    rw [Nat.mul_comm y2 w, Nat.mul_add_mod]
    exact Nat.mod_eq_of_lt hx2
  have hxx : x = x2 := by rw [← h1, ← h2, h]
  constructor
  · exact hxx
  · subst hxx
    have := Nat.eq_of_mul_eq_mul_right hw (show y * w = y2 * w by omega)
    exact this

theorem Reach_not_wall (l : Level) (px py : Nat)
    (hsnw : l.cell (py * l.width + px) ≠ .Wall) :
    ∀ {x y : Nat}, Reach l px py x y → l.cell (y * l.width + x) ≠ .Wall := by
  intro x y h
  induction h with
  | base => exact hsnw
  | step _ _ _ _ hnw => exact hnw

theorem Reach_bounds (l : Level) (px py : Nat) (hpx : px < l.width)
    (hpy : py < l.height) :
    ∀ {x y : Nat}, Reach l px py x y → x < l.width ∧ y < l.height := by
  intro x y h
  induction h with
  | base => exact ⟨hpx, hpy⟩
  | step _ _ hx2 hy2 _ => exact ⟨hx2, hy2⟩

theorem nbOK_mono (l : Level) {filled filled1 : Nat → Bool} {it : StackItem}
    {rest stk2 : List StackItem} {x y k : Nat}
    (hmono : ∀ j, filled j = true → filled1 j = true)
    (hsub : ∀ q ∈ rest, q ∈ stk2)
    (hfh : filled1 (it.y * l.width + it.x) = true)
    (h : nbOK l filled (it :: rest) x y k) : nbOK l filled1 stk2 x y k := by
  match k with
  | 0 =>
    rcases h with h | h | h | ⟨q, hq, hq1, hq2⟩
    · exact Or.inl h
    · exact Or.inr (Or.inl h)
    · exact Or.inr (Or.inr (Or.inl (hmono _ h)))
    · rcases List.mem_cons.mp hq with rfl | hq
      · refine Or.inr (Or.inr (Or.inl ?_))
        rw [← hq1, ← hq2]; exact hfh
      · exact Or.inr (Or.inr (Or.inr ⟨q, hsub q hq, hq1, hq2⟩))
  | 1 =>
    rcases h with h | h | h | ⟨q, hq, hq1, hq2⟩
    · exact Or.inl h
    · exact Or.inr (Or.inl h)
    · exact Or.inr (Or.inr (Or.inl (hmono _ h)))
    · rcases List.mem_cons.mp hq with rfl | hq
      · refine Or.inr (Or.inr (Or.inl ?_))
        rw [← hq1, ← hq2]; exact hfh
      · exact Or.inr (Or.inr (Or.inr ⟨q, hsub q hq, hq1, hq2⟩))
  | 2 =>
    rcases h with h | h | h | ⟨q, hq, hq1, hq2⟩
    · exact Or.inl h
    · exact Or.inr (Or.inl h)
    · exact Or.inr (Or.inr (Or.inl (hmono _ h)))
    · rcases List.mem_cons.mp hq with rfl | hq
      · refine Or.inr (Or.inr (Or.inl ?_))
        rw [← hq1, ← hq2]; exact hfh
      · exact Or.inr (Or.inr (Or.inr ⟨q, hsub q hq, hq1, hq2⟩))
  | 3 =>
    rcases h with h | h | h | ⟨q, hq, hq1, hq2⟩
    · exact Or.inl h
    · exact Or.inr (Or.inl h)
    · exact Or.inr (Or.inr (Or.inl (hmono _ h)))
    · rcases List.mem_cons.mp hq with rfl | hq
      · refine Or.inr (Or.inr (Or.inl ?_))
        rw [← hq1, ← hq2]; exact hfh
      · exact Or.inr (Or.inr (Or.inr ⟨q, hsub q hq, hq1, hq2⟩))
  | n + 4 => trivial

theorem nbOK_pop (l : Level) {filled : Nat → Bool} {it : StackItem}
    {rest : List StackItem} {x y k : Nat}
    (hpop : l.cell (it.y * l.width + it.x) = .Wall ∨
      (filled (it.y * l.width + it.x) = true ∧ it.d = .Left))
    (h : nbOK l filled (it :: rest) x y k) : nbOK l filled rest x y k := by
  match k with
  | 0 =>
    rcases h with h | h | h | ⟨q, hq, hq1, hq2⟩
    · exact Or.inl h
    · exact Or.inr (Or.inl h)
    · exact Or.inr (Or.inr (Or.inl h))
    · rcases List.mem_cons.mp hq with rfl | hq
      · rcases hpop with h | ⟨h, _⟩
        · refine Or.inr (Or.inl ?_)
          rw [hq1, hq2] at h; exact h
        · refine Or.inr (Or.inr (Or.inl ?_))
          rw [hq1, hq2] at h; exact h
      · exact Or.inr (Or.inr (Or.inr ⟨q, hq, hq1, hq2⟩))
  | 1 =>
    rcases h with h | h | h | ⟨q, hq, hq1, hq2⟩
    · exact Or.inl h
    · exact Or.inr (Or.inl h)
    · exact Or.inr (Or.inr (Or.inl h))
    · rcases List.mem_cons.mp hq with rfl | hq
      · rcases hpop with h | ⟨h, _⟩
        · refine Or.inr (Or.inl ?_)
          rw [hq1, hq2] at h; exact h
        · refine Or.inr (Or.inr (Or.inl ?_))
          rw [hq1, hq2] at h; exact h
      · exact Or.inr (Or.inr (Or.inr ⟨q, hq, hq1, hq2⟩))
  | 2 =>
    rcases h with h | h | h | ⟨q, hq, hq1, hq2⟩
    · exact Or.inl h
    · exact Or.inr (Or.inl h)
    · exact Or.inr (Or.inr (Or.inl h))
    · rcases List.mem_cons.mp hq with rfl | hq
      · rcases hpop with h | ⟨h, _⟩
        · refine Or.inr (Or.inl ?_)
          rw [hq1, hq2] at h; exact h
        · refine Or.inr (Or.inr (Or.inl ?_))
          rw [hq1, hq2] at h; exact h
      · exact Or.inr (Or.inr (Or.inr ⟨q, hq, hq1, hq2⟩))
  | 3 =>
    rcases h with h | h | h | ⟨q, hq, hq1, hq2⟩
    · exact Or.inl h
    · exact Or.inr (Or.inl h)
    · exact Or.inr (Or.inr (Or.inl h))
    · rcases List.mem_cons.mp hq with rfl | hq
      · rcases hpop with h | ⟨h, _⟩
        · refine Or.inr (Or.inl ?_)
          rw [hq1, hq2] at h; exact h
        · refine Or.inr (Or.inr (Or.inl ?_))
          rw [hq1, hq2] at h; exact h
      · exact Or.inr (Or.inr (Or.inr ⟨q, hq, hq1, hq2⟩))
  | n + 4 => trivial

theorem fillInv_pop (l : Level) (px py : Nat) (filled : Nat → Bool)
    (it : StackItem) (rest : List StackItem)
    (hsnw : l.cell (py * l.width + px) ≠ .Wall)
    (hInv : FillInv l px py filled (it :: rest))
    (hpop : l.cell (it.y * l.width + it.x) = .Wall ∨
      (filled (it.y * l.width + it.x) = true ∧ it.d = .Left)) :
    FillInv l px py filled rest := by
  obtain ⟨hBP, hD, hS1, hS2, hSt, hC⟩ := hInv
  refine ⟨?_, ?_, hS1, ?_, ?_, ?_⟩
  · intro q hq; exact hBP q (List.mem_cons_of_mem _ hq)
  · intro q hq; exact hD q (List.mem_cons_of_mem _ hq)
  · intro q hq; exact hS2 q (List.mem_cons_of_mem _ hq)
  · rcases hSt with h | ⟨q, hq, hq1, hq2⟩
    · exact Or.inl h
    · rcases List.mem_cons.mp hq with rfl | hq
      · rcases hpop with hw | ⟨hf, _⟩
        · rw [hq1, hq2] at hw
          exact absurd hw hsnw
        · rw [hq1, hq2] at hf
          exact Or.inl hf
      · exact Or.inr ⟨q, hq, hq1, hq2⟩
  · intro x y hx hy hf k hk
    rcases hC x y hx hy hf k hk with ⟨q, hq, hq1, hq2, hq3, hq4⟩ | hnb
    · rcases List.mem_cons.mp hq with rfl | hq
      · rcases hpop with hw | ⟨_, hdl⟩
        · have hfil := hD q (List.mem_cons_self _ _) hq3
          obtain ⟨x2, y2, hx2, hy2, hidx, hr⟩ := hS1 _ hfil
          have hnw2 := Reach_not_wall l px py hsnw hr
          rw [← hidx] at hnw2
          exact absurd hw hnw2
        · exact absurd hdl hq3
      · exact Or.inl ⟨q, hq, hq1, hq2, hq3, hq4⟩
    · exact Or.inr (nbOK_pop l hpop hnb)

theorem fillInv_left_push (l : Level) (px py ix iy : Nat) (filled : Nat → Bool)
    (rest : List StackItem)
    (hInv : FillInv l px py filled (⟨ix, iy, .Left⟩ :: rest))
    (hnw : l.cell (iy * l.width + ix) ≠ .Wall)
    (hg : ix > 0) :
    FillInv l px py (updateFilled filled (iy * l.width + ix))
      (⟨ix - 1, iy, .Left⟩ :: ⟨ix, iy, .Right⟩ :: rest) := by
  obtain ⟨hBP, hD, hS1, hS2, hSt, hC⟩ := hInv
  obtain ⟨hix, hiy, _⟩ := hBP _ (List.mem_cons_self _ _)
  simp only at hix hiy
  have hRC : Reach l px py ix iy := by
    rcases hS2 _ (List.mem_cons_self _ _) with ⟨h1, h2⟩ | ⟨x2, y2, hr, hadj⟩
    · simp only at h1 h2
      rw [h1, h2]; exact Reach.base
    · exact Reach.step hr hadj hix hiy hnw
  have hmono : ∀ j, filled j = true →
      updateFilled filled (iy * l.width + ix) j = true :=
    fun j h => upd_mono _ _ _ h
  have hfh : updateFilled filled (iy * l.width + ix) (iy * l.width + ix) = true :=
    upd_self _ _
  have hsub : ∀ q ∈ rest, q ∈ (⟨ix - 1, iy, .Left⟩ : StackItem) ::
      ⟨ix, iy, .Right⟩ :: rest :=
    fun q hq => List.mem_cons_of_mem _ (List.mem_cons_of_mem _ hq)
  refine ⟨?_, ?_, ?_, ?_, ?_, ?_⟩
  · intro q hq
    rcases List.mem_cons.mp hq with rfl | hq
    · exact ⟨by show ix - 1 < l.width; omega, hiy, Or.inl rfl⟩
    rcases List.mem_cons.mp hq with rfl | hq
    · exact ⟨hix, hiy, Or.inr (Or.inl rfl)⟩
    · exact hBP q (List.mem_cons_of_mem _ hq)
  · intro q hq hdq
    rcases List.mem_cons.mp hq with rfl | hq
    · exact absurd rfl hdq
    rcases List.mem_cons.mp hq with rfl | hq
    · exact hfh
    · exact hmono _ (hD q (List.mem_cons_of_mem _ hq) hdq)
  · intro j hj
    rcases (upd_eq_true _ _ _).mp hj with rfl | hj
    · exact ⟨ix, iy, hix, hiy, rfl, hRC⟩
    · exact hS1 j hj
  · intro q hq
    rcases List.mem_cons.mp hq with rfl | hq
    · exact Or.inr ⟨ix, iy, hRC, Or.inr (Or.inl ⟨by show ix = ix - 1 + 1; omega, rfl⟩)⟩
    rcases List.mem_cons.mp hq with rfl | hq
    · exact hS2 ⟨ix, iy, .Left⟩ (List.mem_cons_self _ _)
    · exact hS2 q (List.mem_cons_of_mem _ hq)
  · rcases hSt with h | ⟨q, hq, hq1, hq2⟩
    · exact Or.inl (hmono _ h)
    · rcases List.mem_cons.mp hq with rfl | hq
      · exact Or.inr ⟨⟨ix, iy, .Right⟩,
          List.mem_cons_of_mem _ (List.mem_cons_self _ _), hq1, hq2⟩
      · exact Or.inr ⟨q, hsub q hq, hq1, hq2⟩
  · intro x y hx hy hf k hk
    rcases (upd_eq_true _ _ _).mp hf with hidx | hf
    · obtain ⟨rfl, rfl⟩ := idx_inj hx hix hidx
      interval_cases k
      · exact Or.inr (Or.inr (Or.inr (Or.inr
          ⟨⟨x - 1, y, .Left⟩, List.mem_cons_self _ _, rfl, rfl⟩)))
      · exact Or.inl ⟨⟨x, y, .Right⟩,
          List.mem_cons_of_mem _ (List.mem_cons_self _ _), rfl, rfl,
          by simp, by simp [rankD]⟩
      · exact Or.inl ⟨⟨x, y, .Right⟩,
          List.mem_cons_of_mem _ (List.mem_cons_self _ _), rfl, rfl,
          by simp, by simp [rankD]⟩
      · exact Or.inl ⟨⟨x, y, .Right⟩,
          List.mem_cons_of_mem _ (List.mem_cons_self _ _), rfl, rfl,
          by simp, by simp [rankD]⟩
    · rcases hC x y hx hy hf k hk with ⟨q, hq, hq1, hq2, hq3, hq4⟩ | hnb
      · rcases List.mem_cons.mp hq with rfl | hq
        · exact absurd rfl hq3
        · exact Or.inl ⟨q, hsub q hq, hq1, hq2, hq3, hq4⟩
      · exact Or.inr (nbOK_mono l hmono hsub hfh hnb)

theorem fillInv_left_nopush (l : Level) (px py ix iy : Nat) (filled : Nat → Bool)
    (rest : List StackItem)
    (hInv : FillInv l px py filled (⟨ix, iy, .Left⟩ :: rest))
    (hnw : l.cell (iy * l.width + ix) ≠ .Wall)
    (hg : ¬ ix > 0) :
    FillInv l px py (updateFilled filled (iy * l.width + ix)) (⟨ix, iy, .Right⟩ :: rest) := by
  obtain ⟨hBP, hD, hS1, hS2, hSt, hC⟩ := hInv
  obtain ⟨hix, hiy, _⟩ := hBP _ (List.mem_cons_self _ _)
  simp only at hix hiy
  have hRC : Reach l px py ix iy := by
    rcases hS2 _ (List.mem_cons_self _ _) with ⟨h1, h2⟩ | ⟨x2, y2, hr, hadj⟩
    · simp only at h1 h2
      rw [h1, h2]; exact Reach.base
    · exact Reach.step hr hadj hix hiy hnw
  have hmono : ∀ j, filled j = true →
      updateFilled filled (iy * l.width + ix) j = true :=
    fun j h => upd_mono _ _ _ h
  have hfh : updateFilled filled (iy * l.width + ix) (iy * l.width + ix) = true :=
    upd_self _ _
  have hsub : ∀ q ∈ rest, q ∈ (⟨ix, iy, .Right⟩ :: rest : List StackItem) :=
    fun q hq => List.mem_cons_of_mem _ hq
  refine ⟨?_, ?_, ?_, ?_, ?_, ?_⟩
  · intro q hq
    rcases List.mem_cons.mp hq with rfl | hq
    · exact ⟨hix, hiy, Or.inr (Or.inl rfl)⟩
    · exact hBP q (List.mem_cons_of_mem _ hq)
  · intro q hq hdq
    rcases List.mem_cons.mp hq with rfl | hq
    · exact hfh
    · exact hmono _ (hD q (List.mem_cons_of_mem _ hq) hdq)
  · intro j hj
    rcases (upd_eq_true _ _ _).mp hj with rfl | hj
    · exact ⟨ix, iy, hix, hiy, rfl, hRC⟩
    · exact hS1 j hj
  · intro q hq
    rcases List.mem_cons.mp hq with rfl | hq
    · exact hS2 ⟨ix, iy, .Left⟩ (List.mem_cons_self _ _)
    · exact hS2 q (List.mem_cons_of_mem _ hq)
  · rcases hSt with h | ⟨q, hq, hq1, hq2⟩
    · exact Or.inl (hmono _ h)
    · rcases List.mem_cons.mp hq with rfl | hq
      · exact Or.inr ⟨⟨ix, iy, .Right⟩, List.mem_cons_self _ _, hq1, hq2⟩
      · exact Or.inr ⟨q, hsub q hq, hq1, hq2⟩
  · intro x y hx hy hf k hk
    rcases (upd_eq_true _ _ _).mp hf with hidx | hf
    · obtain ⟨rfl, rfl⟩ := idx_inj hx hix hidx
      interval_cases k
      · exact Or.inr (Or.inl (by omega))
      · exact Or.inl ⟨⟨x, y, .Right⟩, List.mem_cons_self _ _, rfl, rfl,
          by simp, by simp [rankD]⟩
      · exact Or.inl ⟨⟨x, y, .Right⟩, List.mem_cons_self _ _, rfl, rfl,
          by simp, by simp [rankD]⟩
      · exact Or.inl ⟨⟨x, y, .Right⟩, List.mem_cons_self _ _, rfl, rfl,
          by simp, by simp [rankD]⟩
    · rcases hC x y hx hy hf k hk with ⟨q, hq, hq1, hq2, hq3, hq4⟩ | hnb
      · rcases List.mem_cons.mp hq with rfl | hq
        · exact absurd rfl hq3
        · exact Or.inl ⟨q, hsub q hq, hq1, hq2, hq3, hq4⟩
      · exact Or.inr (nbOK_mono l hmono hsub hfh hnb)

theorem fillInv_right_push (l : Level) (px py ix iy : Nat) (filled : Nat → Bool)
    (rest : List StackItem)
    (hInv : FillInv l px py filled (⟨ix, iy, .Right⟩ :: rest))
    (hnw : l.cell (iy * l.width + ix) ≠ .Wall)
    (hg : ix + 1 < l.width) :
    FillInv l px py (updateFilled filled (iy * l.width + ix)) (⟨ix + 1, iy, .Left⟩ :: ⟨ix, iy, .Down⟩ :: rest) := by
  obtain ⟨hBP, hD, hS1, hS2, hSt, hC⟩ := hInv
  obtain ⟨hix, hiy, _⟩ := hBP _ (List.mem_cons_self _ _)
  simp only at hix hiy
  have hRC : Reach l px py ix iy := by
    rcases hS2 _ (List.mem_cons_self _ _) with ⟨h1, h2⟩ | ⟨x2, y2, hr, hadj⟩
    · simp only at h1 h2
      rw [h1, h2]; exact Reach.base
    · exact Reach.step hr hadj hix hiy hnw
  have hmono : ∀ j, filled j = true →
      updateFilled filled (iy * l.width + ix) j = true :=
    fun j h => upd_mono _ _ _ h
  have hfh : updateFilled filled (iy * l.width + ix) (iy * l.width + ix) = true :=
    upd_self _ _
  have hsub : ∀ q ∈ rest, q ∈ (⟨ix + 1, iy, .Left⟩ :: ⟨ix, iy, .Down⟩ :: rest : List StackItem) :=
    fun q hq => List.mem_cons_of_mem _ (List.mem_cons_of_mem _ hq)
  have hfOld : filled (iy * l.width + ix) = true :=
    hD _ (List.mem_cons_self _ _) (by simp)
  refine ⟨?_, ?_, ?_, ?_, ?_, ?_⟩
  · intro q hq
    rcases List.mem_cons.mp hq with rfl | hq
    · exact ⟨hg, hiy, Or.inl rfl⟩
    rcases List.mem_cons.mp hq with rfl | hq
    · exact ⟨hix, hiy, Or.inr (Or.inr (Or.inl rfl))⟩
    · exact hBP q (List.mem_cons_of_mem _ hq)
  · intro q hq hdq
    rcases List.mem_cons.mp hq with rfl | hq
    · exact absurd rfl hdq
    rcases List.mem_cons.mp hq with rfl | hq
    · exact hfh
    · exact hmono _ (hD q (List.mem_cons_of_mem _ hq) hdq)
  · intro j hj
    rcases (upd_eq_true _ _ _).mp hj with rfl | hj
    · exact ⟨ix, iy, hix, hiy, rfl, hRC⟩
    · exact hS1 j hj
  · intro q hq
    rcases List.mem_cons.mp hq with rfl | hq
    · exact Or.inr ⟨ix, iy, hRC, Or.inl ⟨rfl, rfl⟩⟩
    rcases List.mem_cons.mp hq with rfl | hq
    · exact hS2 ⟨ix, iy, .Right⟩ (List.mem_cons_self _ _)
    · exact hS2 q (List.mem_cons_of_mem _ hq)
  · rcases hSt with h | ⟨q, hq, hq1, hq2⟩
    · exact Or.inl (hmono _ h)
    · rcases List.mem_cons.mp hq with rfl | hq
      · exact Or.inr ⟨⟨ix, iy, .Down⟩, List.mem_cons_of_mem _ (List.mem_cons_self _ _), hq1, hq2⟩
      · exact Or.inr ⟨q, hsub q hq, hq1, hq2⟩
  · intro x y hx hy hf k hk
    have hf2 : filled (y * l.width + x) = true := by
      rcases (upd_eq_true _ _ _).mp hf with hidx | hf3
      · rw [hidx]; exact hfOld
      · exact hf3
    rcases hC x y hx hy hf2 k hk with ⟨q, hq, hq1, hq2, hq3, hq4⟩ | hnb
    · rcases List.mem_cons.mp hq with rfl | hq
      · simp only at hq1 hq2
        subst hq1; subst hq2
        have hq4b : 1 ≤ k := hq4
        rcases k with _ | _ | _ | _ | k
        · omega
        · exact Or.inr (Or.inr (Or.inr (Or.inr ⟨⟨ix + 1, iy, .Left⟩, List.mem_cons_self _ _, rfl, rfl⟩)))
        · exact Or.inl ⟨⟨ix, iy, .Down⟩, List.mem_cons_of_mem _ (List.mem_cons_self _ _), rfl, rfl, by simp, by simp [rankD]⟩
        · exact Or.inl ⟨⟨ix, iy, .Down⟩, List.mem_cons_of_mem _ (List.mem_cons_self _ _), rfl, rfl, by simp, by simp [rankD]⟩
        · omega
      · exact Or.inl ⟨q, hsub q hq, hq1, hq2, hq3, hq4⟩
    · exact Or.inr (nbOK_mono l hmono hsub hfh hnb)

theorem fillInv_right_nopush (l : Level) (px py ix iy : Nat) (filled : Nat → Bool)
    (rest : List StackItem)
    (hInv : FillInv l px py filled (⟨ix, iy, .Right⟩ :: rest))
    (hnw : l.cell (iy * l.width + ix) ≠ .Wall)
    (hg : ¬ ix + 1 < l.width) :
    FillInv l px py (updateFilled filled (iy * l.width + ix)) (⟨ix, iy, .Down⟩ :: rest) := by
  obtain ⟨hBP, hD, hS1, hS2, hSt, hC⟩ := hInv
  obtain ⟨hix, hiy, _⟩ := hBP _ (List.mem_cons_self _ _)
  simp only at hix hiy
  have hRC : Reach l px py ix iy := by
    rcases hS2 _ (List.mem_cons_self _ _) with ⟨h1, h2⟩ | ⟨x2, y2, hr, hadj⟩
    · simp only at h1 h2
      rw [h1, h2]; exact Reach.base
    · exact Reach.step hr hadj hix hiy hnw
  have hmono : ∀ j, filled j = true →
      updateFilled filled (iy * l.width + ix) j = true :=
    fun j h => upd_mono _ _ _ h
  have hfh : updateFilled filled (iy * l.width + ix) (iy * l.width + ix) = true :=
    upd_self _ _
  have hsub : ∀ q ∈ rest, q ∈ (⟨ix, iy, .Down⟩ :: rest : List StackItem) :=
    fun q hq => List.mem_cons_of_mem _ hq
  have hfOld : filled (iy * l.width + ix) = true :=
    hD _ (List.mem_cons_self _ _) (by simp)
  refine ⟨?_, ?_, ?_, ?_, ?_, ?_⟩
  · intro q hq
    rcases List.mem_cons.mp hq with rfl | hq
    · exact ⟨hix, hiy, Or.inr (Or.inr (Or.inl rfl))⟩
    · exact hBP q (List.mem_cons_of_mem _ hq)
  · intro q hq hdq
    rcases List.mem_cons.mp hq with rfl | hq
    · exact hfh
    · exact hmono _ (hD q (List.mem_cons_of_mem _ hq) hdq)
  · intro j hj
    rcases (upd_eq_true _ _ _).mp hj with rfl | hj
    · exact ⟨ix, iy, hix, hiy, rfl, hRC⟩
    · exact hS1 j hj
  · intro q hq
    rcases List.mem_cons.mp hq with rfl | hq
    · exact hS2 ⟨ix, iy, .Right⟩ (List.mem_cons_self _ _)
    · exact hS2 q (List.mem_cons_of_mem _ hq)
  · rcases hSt with h | ⟨q, hq, hq1, hq2⟩
    · exact Or.inl (hmono _ h)
    · rcases List.mem_cons.mp hq with rfl | hq
      · exact Or.inr ⟨⟨ix, iy, .Down⟩, List.mem_cons_self _ _, hq1, hq2⟩
      · exact Or.inr ⟨q, hsub q hq, hq1, hq2⟩
  · intro x y hx hy hf k hk
    have hf2 : filled (y * l.width + x) = true := by
      rcases (upd_eq_true _ _ _).mp hf with hidx | hf3
      · rw [hidx]; exact hfOld
      · exact hf3
    rcases hC x y hx hy hf2 k hk with ⟨q, hq, hq1, hq2, hq3, hq4⟩ | hnb
    · rcases List.mem_cons.mp hq with rfl | hq
      · simp only at hq1 hq2
        subst hq1; subst hq2
        have hq4b : 1 ≤ k := hq4
        rcases k with _ | _ | _ | _ | k
        · omega
        · exact Or.inr (Or.inl hg)
        · exact Or.inl ⟨⟨ix, iy, .Down⟩, List.mem_cons_self _ _, rfl, rfl, by simp, by simp [rankD]⟩
        · exact Or.inl ⟨⟨ix, iy, .Down⟩, List.mem_cons_self _ _, rfl, rfl, by simp, by simp [rankD]⟩
        · omega
      · exact Or.inl ⟨q, hsub q hq, hq1, hq2, hq3, hq4⟩
    · exact Or.inr (nbOK_mono l hmono hsub hfh hnb)

theorem fillInv_down_push (l : Level) (px py ix iy : Nat) (filled : Nat → Bool)
    (rest : List StackItem)
    (hInv : FillInv l px py filled (⟨ix, iy, .Down⟩ :: rest))
    (hnw : l.cell (iy * l.width + ix) ≠ .Wall)
    (hg : iy > 0) :
    FillInv l px py (updateFilled filled (iy * l.width + ix)) (⟨ix, iy - 1, .Left⟩ :: ⟨ix, iy, .Up⟩ :: rest) := by
  obtain ⟨hBP, hD, hS1, hS2, hSt, hC⟩ := hInv
  obtain ⟨hix, hiy, _⟩ := hBP _ (List.mem_cons_self _ _)
  simp only at hix hiy
  have hRC : Reach l px py ix iy := by
    rcases hS2 _ (List.mem_cons_self _ _) with ⟨h1, h2⟩ | ⟨x2, y2, hr, hadj⟩
    · simp only at h1 h2
      rw [h1, h2]; exact Reach.base
    · exact Reach.step hr hadj hix hiy hnw
  have hmono : ∀ j, filled j = true →
      updateFilled filled (iy * l.width + ix) j = true :=
    fun j h => upd_mono _ _ _ h
  have hfh : updateFilled filled (iy * l.width + ix) (iy * l.width + ix) = true :=
    upd_self _ _
  have hsub : ∀ q ∈ rest, q ∈ (⟨ix, iy - 1, .Left⟩ :: ⟨ix, iy, .Up⟩ :: rest : List StackItem) :=
    fun q hq => List.mem_cons_of_mem _ (List.mem_cons_of_mem _ hq)
  have hfOld : filled (iy * l.width + ix) = true :=
    hD _ (List.mem_cons_self _ _) (by simp)
  refine ⟨?_, ?_, ?_, ?_, ?_, ?_⟩
  · intro q hq
    rcases List.mem_cons.mp hq with rfl | hq
    · exact ⟨hix, by show iy - 1 < l.height; omega, Or.inl rfl⟩
    rcases List.mem_cons.mp hq with rfl | hq
    · exact ⟨hix, hiy, Or.inr (Or.inr (Or.inr (Or.inl rfl)))⟩
    · exact hBP q (List.mem_cons_of_mem _ hq)
  · intro q hq hdq
    rcases List.mem_cons.mp hq with rfl | hq
    · exact absurd rfl hdq
    rcases List.mem_cons.mp hq with rfl | hq
    · exact hfh
    · exact hmono _ (hD q (List.mem_cons_of_mem _ hq) hdq)
  · intro j hj
    rcases (upd_eq_true _ _ _).mp hj with rfl | hj
    · exact ⟨ix, iy, hix, hiy, rfl, hRC⟩
    · exact hS1 j hj
  · intro q hq
    rcases List.mem_cons.mp hq with rfl | hq
    · exact Or.inr ⟨ix, iy, hRC, Or.inr (Or.inr (Or.inr ⟨rfl, by show iy = iy - 1 + 1; omega⟩))⟩
    rcases List.mem_cons.mp hq with rfl | hq
    · exact hS2 ⟨ix, iy, .Down⟩ (List.mem_cons_self _ _)
    · exact hS2 q (List.mem_cons_of_mem _ hq)
  · rcases hSt with h | ⟨q, hq, hq1, hq2⟩
    · exact Or.inl (hmono _ h)
    · rcases List.mem_cons.mp hq with rfl | hq
      · exact Or.inr ⟨⟨ix, iy, .Up⟩, List.mem_cons_of_mem _ (List.mem_cons_self _ _), hq1, hq2⟩
      · exact Or.inr ⟨q, hsub q hq, hq1, hq2⟩
  · intro x y hx hy hf k hk
    have hf2 : filled (y * l.width + x) = true := by
      rcases (upd_eq_true _ _ _).mp hf with hidx | hf3
      · rw [hidx]; exact hfOld
      · exact hf3
    rcases hC x y hx hy hf2 k hk with ⟨q, hq, hq1, hq2, hq3, hq4⟩ | hnb
    · rcases List.mem_cons.mp hq with rfl | hq
      · simp only at hq1 hq2
        subst hq1; subst hq2
        have hq4b : 2 ≤ k := hq4
        rcases k with _ | _ | _ | _ | k
        · omega
        · omega
        · exact Or.inr (Or.inr (Or.inr (Or.inr ⟨⟨ix, iy - 1, .Left⟩, List.mem_cons_self _ _, rfl, rfl⟩)))
        · exact Or.inl ⟨⟨ix, iy, .Up⟩, List.mem_cons_of_mem _ (List.mem_cons_self _ _), rfl, rfl, by simp, by simp [rankD]⟩
        · omega
      · exact Or.inl ⟨q, hsub q hq, hq1, hq2, hq3, hq4⟩
    · exact Or.inr (nbOK_mono l hmono hsub hfh hnb)

theorem fillInv_down_nopush (l : Level) (px py ix iy : Nat) (filled : Nat → Bool)
    (rest : List StackItem)
    (hInv : FillInv l px py filled (⟨ix, iy, .Down⟩ :: rest))
    (hnw : l.cell (iy * l.width + ix) ≠ .Wall)
    (hg : ¬ iy > 0) :
    FillInv l px py (updateFilled filled (iy * l.width + ix)) (⟨ix, iy, .Up⟩ :: rest) := by
  obtain ⟨hBP, hD, hS1, hS2, hSt, hC⟩ := hInv
  obtain ⟨hix, hiy, _⟩ := hBP _ (List.mem_cons_self _ _)
  simp only at hix hiy
  have hRC : Reach l px py ix iy := by
    rcases hS2 _ (List.mem_cons_self _ _) with ⟨h1, h2⟩ | ⟨x2, y2, hr, hadj⟩
    · simp only at h1 h2
      rw [h1, h2]; exact Reach.base
    · exact Reach.step hr hadj hix hiy hnw
  have hmono : ∀ j, filled j = true →
      updateFilled filled (iy * l.width + ix) j = true :=
    fun j h => upd_mono _ _ _ h
  have hfh : updateFilled filled (iy * l.width + ix) (iy * l.width + ix) = true :=
    upd_self _ _
  have hsub : ∀ q ∈ rest, q ∈ (⟨ix, iy, .Up⟩ :: rest : List StackItem) :=
    fun q hq => List.mem_cons_of_mem _ hq
  have hfOld : filled (iy * l.width + ix) = true :=
    hD _ (List.mem_cons_self _ _) (by simp)
  refine ⟨?_, ?_, ?_, ?_, ?_, ?_⟩
  · intro q hq
    rcases List.mem_cons.mp hq with rfl | hq
    · exact ⟨hix, hiy, Or.inr (Or.inr (Or.inr (Or.inl rfl)))⟩
    · exact hBP q (List.mem_cons_of_mem _ hq)
  · intro q hq hdq
    rcases List.mem_cons.mp hq with rfl | hq
    · exact hfh
    · exact hmono _ (hD q (List.mem_cons_of_mem _ hq) hdq)
  · intro j hj
    rcases (upd_eq_true _ _ _).mp hj with rfl | hj
    · exact ⟨ix, iy, hix, hiy, rfl, hRC⟩
    · exact hS1 j hj
  · intro q hq
    rcases List.mem_cons.mp hq with rfl | hq
    · exact hS2 ⟨ix, iy, .Down⟩ (List.mem_cons_self _ _)
    · exact hS2 q (List.mem_cons_of_mem _ hq)
  · rcases hSt with h | ⟨q, hq, hq1, hq2⟩
    · exact Or.inl (hmono _ h)
    · rcases List.mem_cons.mp hq with rfl | hq
      · exact Or.inr ⟨⟨ix, iy, .Up⟩, List.mem_cons_self _ _, hq1, hq2⟩
      · exact Or.inr ⟨q, hsub q hq, hq1, hq2⟩
  · intro x y hx hy hf k hk
    have hf2 : filled (y * l.width + x) = true := by
      rcases (upd_eq_true _ _ _).mp hf with hidx | hf3
      · rw [hidx]; exact hfOld
      · exact hf3
    rcases hC x y hx hy hf2 k hk with ⟨q, hq, hq1, hq2, hq3, hq4⟩ | hnb
    · rcases List.mem_cons.mp hq with rfl | hq
      · simp only at hq1 hq2
        subst hq1; subst hq2
        have hq4b : 2 ≤ k := hq4
        rcases k with _ | _ | _ | _ | k
        · omega
        · omega
        · exact Or.inr (Or.inl (by omega))
        · exact Or.inl ⟨⟨ix, iy, .Up⟩, List.mem_cons_self _ _, rfl, rfl, by simp, by simp [rankD]⟩
        · omega
      · exact Or.inl ⟨q, hsub q hq, hq1, hq2, hq3, hq4⟩
    · exact Or.inr (nbOK_mono l hmono hsub hfh hnb)

theorem fillInv_up_push (l : Level) (px py ix iy : Nat) (filled : Nat → Bool)
    (rest : List StackItem)
    (hInv : FillInv l px py filled (⟨ix, iy, .Up⟩ :: rest))
    (hnw : l.cell (iy * l.width + ix) ≠ .Wall)
    (hg : iy + 1 < l.height) :
    FillInv l px py (updateFilled filled (iy * l.width + ix)) (⟨ix, iy + 1, .Left⟩ :: ⟨ix, iy, .NoDirection⟩ :: rest) := by
  obtain ⟨hBP, hD, hS1, hS2, hSt, hC⟩ := hInv
  obtain ⟨hix, hiy, _⟩ := hBP _ (List.mem_cons_self _ _)
  simp only at hix hiy
  have hRC : Reach l px py ix iy := by
    rcases hS2 _ (List.mem_cons_self _ _) with ⟨h1, h2⟩ | ⟨x2, y2, hr, hadj⟩
    · simp only at h1 h2
      rw [h1, h2]; exact Reach.base
    · exact Reach.step hr hadj hix hiy hnw
  have hmono : ∀ j, filled j = true →
      updateFilled filled (iy * l.width + ix) j = true :=
    fun j h => upd_mono _ _ _ h
  have hfh : updateFilled filled (iy * l.width + ix) (iy * l.width + ix) = true :=
    upd_self _ _
  have hsub : ∀ q ∈ rest, q ∈ (⟨ix, iy + 1, .Left⟩ :: ⟨ix, iy, .NoDirection⟩ :: rest : List StackItem) :=
    fun q hq => List.mem_cons_of_mem _ (List.mem_cons_of_mem _ hq)
  have hfOld : filled (iy * l.width + ix) = true :=
    hD _ (List.mem_cons_self _ _) (by simp)
  refine ⟨?_, ?_, ?_, ?_, ?_, ?_⟩
  · intro q hq
    rcases List.mem_cons.mp hq with rfl | hq
    · exact ⟨hix, hg, Or.inl rfl⟩
    rcases List.mem_cons.mp hq with rfl | hq
    · exact ⟨hix, hiy, Or.inr (Or.inr (Or.inr (Or.inr rfl)))⟩
    · exact hBP q (List.mem_cons_of_mem _ hq)
  · intro q hq hdq
    rcases List.mem_cons.mp hq with rfl | hq
    · exact absurd rfl hdq
    rcases List.mem_cons.mp hq with rfl | hq
    · exact hfh
    · exact hmono _ (hD q (List.mem_cons_of_mem _ hq) hdq)
  · intro j hj
    rcases (upd_eq_true _ _ _).mp hj with rfl | hj
    · exact ⟨ix, iy, hix, hiy, rfl, hRC⟩
    · exact hS1 j hj
  · intro q hq
    rcases List.mem_cons.mp hq with rfl | hq
    · exact Or.inr ⟨ix, iy, hRC, Or.inr (Or.inr (Or.inl ⟨rfl, rfl⟩))⟩
    rcases List.mem_cons.mp hq with rfl | hq
    · exact hS2 ⟨ix, iy, .Up⟩ (List.mem_cons_self _ _)
    · exact hS2 q (List.mem_cons_of_mem _ hq)
  · rcases hSt with h | ⟨q, hq, hq1, hq2⟩
    · exact Or.inl (hmono _ h)
    · rcases List.mem_cons.mp hq with rfl | hq
      · exact Or.inr ⟨⟨ix, iy, .NoDirection⟩, List.mem_cons_of_mem _ (List.mem_cons_self _ _), hq1, hq2⟩
      · exact Or.inr ⟨q, hsub q hq, hq1, hq2⟩
  · intro x y hx hy hf k hk
    have hf2 : filled (y * l.width + x) = true := by
      rcases (upd_eq_true _ _ _).mp hf with hidx | hf3
      · rw [hidx]; exact hfOld
      · exact hf3
    rcases hC x y hx hy hf2 k hk with ⟨q, hq, hq1, hq2, hq3, hq4⟩ | hnb
    · rcases List.mem_cons.mp hq with rfl | hq
      · simp only at hq1 hq2
        subst hq1; subst hq2
        have hq4b : 3 ≤ k := hq4
        rcases k with _ | _ | _ | _ | k
        · omega
        · omega
        · omega
        · exact Or.inr (Or.inr (Or.inr (Or.inr ⟨⟨ix, iy + 1, .Left⟩, List.mem_cons_self _ _, rfl, rfl⟩)))
        · omega
      · exact Or.inl ⟨q, hsub q hq, hq1, hq2, hq3, hq4⟩
    · exact Or.inr (nbOK_mono l hmono hsub hfh hnb)

theorem fillInv_up_nopush (l : Level) (px py ix iy : Nat) (filled : Nat → Bool)
    (rest : List StackItem)
    (hInv : FillInv l px py filled (⟨ix, iy, .Up⟩ :: rest))
    (hnw : l.cell (iy * l.width + ix) ≠ .Wall)
    (hg : ¬ iy + 1 < l.height) :
    FillInv l px py (updateFilled filled (iy * l.width + ix)) (rest) := by
  obtain ⟨hBP, hD, hS1, hS2, hSt, hC⟩ := hInv
  obtain ⟨hix, hiy, _⟩ := hBP _ (List.mem_cons_self _ _)
  simp only at hix hiy
  have hRC : Reach l px py ix iy := by
    rcases hS2 _ (List.mem_cons_self _ _) with ⟨h1, h2⟩ | ⟨x2, y2, hr, hadj⟩
    · simp only at h1 h2
      rw [h1, h2]; exact Reach.base
    · exact Reach.step hr hadj hix hiy hnw
  have hmono : ∀ j, filled j = true →
      updateFilled filled (iy * l.width + ix) j = true :=
    fun j h => upd_mono _ _ _ h
  have hfh : updateFilled filled (iy * l.width + ix) (iy * l.width + ix) = true :=
    upd_self _ _
  have hsub : ∀ q ∈ rest, q ∈ (rest : List StackItem) :=
    fun q hq => hq
  have hfOld : filled (iy * l.width + ix) = true :=
    hD _ (List.mem_cons_self _ _) (by simp)
  refine ⟨?_, ?_, ?_, ?_, ?_, ?_⟩
  · intro q hq
    exact hBP q (List.mem_cons_of_mem _ hq)
  · intro q hq hdq
    exact hmono _ (hD q (List.mem_cons_of_mem _ hq) hdq)
  · intro j hj
    rcases (upd_eq_true _ _ _).mp hj with rfl | hj
    · exact ⟨ix, iy, hix, hiy, rfl, hRC⟩
    · exact hS1 j hj
  · intro q hq
    exact hS2 q (List.mem_cons_of_mem _ hq)
  · rcases hSt with h | ⟨q, hq, hq1, hq2⟩
    · exact Or.inl (hmono _ h)
    · rcases List.mem_cons.mp hq with rfl | hq
      · simp only at hq1 hq2
        refine Or.inl ?_
        rw [← hq1, ← hq2]
        exact hfh
      · exact Or.inr ⟨q, hsub q hq, hq1, hq2⟩
  · intro x y hx hy hf k hk
    have hf2 : filled (y * l.width + x) = true := by
      rcases (upd_eq_true _ _ _).mp hf with hidx | hf3
      · rw [hidx]; exact hfOld
      · exact hf3
    rcases hC x y hx hy hf2 k hk with ⟨q, hq, hq1, hq2, hq3, hq4⟩ | hnb
    · rcases List.mem_cons.mp hq with rfl | hq
      · simp only at hq1 hq2
        subst hq1; subst hq2
        have hq4b : 3 ≤ k := hq4
        rcases k with _ | _ | _ | _ | k
        · omega
        · omega
        · omega
        · exact Or.inr (Or.inl hg)
        · omega
      · exact Or.inl ⟨q, hsub q hq, hq1, hq2, hq3, hq4⟩
    · exact Or.inr (nbOK_mono l hmono hsub hfh hnb)

theorem fillInv_nd (l : Level) (px py ix iy : Nat) (filled : Nat → Bool)
    (rest : List StackItem)
    (hInv : FillInv l px py filled (⟨ix, iy, .NoDirection⟩ :: rest))
    (hnw : l.cell (iy * l.width + ix) ≠ .Wall) :
    FillInv l px py (updateFilled filled (iy * l.width + ix)) (rest) := by
  obtain ⟨hBP, hD, hS1, hS2, hSt, hC⟩ := hInv
  obtain ⟨hix, hiy, _⟩ := hBP _ (List.mem_cons_self _ _)
  simp only at hix hiy
  have hRC : Reach l px py ix iy := by
    rcases hS2 _ (List.mem_cons_self _ _) with ⟨h1, h2⟩ | ⟨x2, y2, hr, hadj⟩
    · simp only at h1 h2
      rw [h1, h2]; exact Reach.base
    · exact Reach.step hr hadj hix hiy hnw
  have hmono : ∀ j, filled j = true →
      updateFilled filled (iy * l.width + ix) j = true :=
    fun j h => upd_mono _ _ _ h
  have hfh : updateFilled filled (iy * l.width + ix) (iy * l.width + ix) = true :=
    upd_self _ _
  have hsub : ∀ q ∈ rest, q ∈ (rest : List StackItem) :=
    fun q hq => hq
  have hfOld : filled (iy * l.width + ix) = true :=
    hD _ (List.mem_cons_self _ _) (by simp)
  refine ⟨?_, ?_, ?_, ?_, ?_, ?_⟩
  · intro q hq
    exact hBP q (List.mem_cons_of_mem _ hq)
  · intro q hq hdq
    exact hmono _ (hD q (List.mem_cons_of_mem _ hq) hdq)
  · intro j hj
    rcases (upd_eq_true _ _ _).mp hj with rfl | hj
    · exact ⟨ix, iy, hix, hiy, rfl, hRC⟩
    · exact hS1 j hj
  · intro q hq
    exact hS2 q (List.mem_cons_of_mem _ hq)
  · rcases hSt with h | ⟨q, hq, hq1, hq2⟩
    · exact Or.inl (hmono _ h)
    · rcases List.mem_cons.mp hq with rfl | hq
      · simp only at hq1 hq2
        refine Or.inl ?_
        rw [← hq1, ← hq2]
        exact hfh
      · exact Or.inr ⟨q, hsub q hq, hq1, hq2⟩
  · intro x y hx hy hf k hk
    have hf2 : filled (y * l.width + x) = true := by
      rcases (upd_eq_true _ _ _).mp hf with hidx | hf3
      · rw [hidx]; exact hfOld
      · exact hf3
    rcases hC x y hx hy hf2 k hk with ⟨q, hq, hq1, hq2, hq3, hq4⟩ | hnb
    · rcases List.mem_cons.mp hq with rfl | hq
      · simp only at hq1 hq2
        subst hq1; subst hq2
        have hq4b : 4 ≤ k := hq4
        rcases k with _ | _ | _ | _ | k
        · omega
        · omega
        · omega
        · omega
        · omega
      · exact Or.inl ⟨q, hsub q hq, hq1, hq2, hq3, hq4⟩
    · exact Or.inr (nbOK_mono l hmono hsub hfh hnb)

theorem fillLoop_inv (l : Level) (px py : Nat)
    (hsnw : l.cell (py * l.width + px) ≠ .Wall) :
    ∀ (fuel : Nat) (filled : Nat → Bool) (stk : List StackItem) (touch : Bool)
      (f2 : Nat → Bool) (t2 : Bool),
      FillInv l px py filled stk →
      fillLoop l fuel filled stk touch = some (f2, t2) →
      FillInv l px py f2 [] := by
  intro fuel
  induction fuel with
  | zero => intro _ _ _ _ _ hInv h; cases h
  | succ fuel ih =>
    intro filled stk touch f2 t2 hInv h
    match stk with
    | [] =>
      cases h
      exact hInv
    | it :: rest =>
      obtain ⟨ix, iy, d⟩ := it
      simp only [fillLoop] at h
      split at h
      · rename_i hcond
        exact ih filled rest touch f2 t2
          (fillInv_pop l px py filled ⟨ix, iy, d⟩ rest hsnw hInv hcond) h
      · rename_i hcond
        have hnw : l.cell (iy * l.width + ix) ≠ .Wall := (not_or.mp hcond).1
        split at h
        · split at h
          · rename_i hg
            exact ih _ _ touch f2 t2
              (fillInv_left_push l px py ix iy filled rest hInv hnw hg) h
          · rename_i hg
            exact ih _ _ _ f2 t2
              (fillInv_left_nopush l px py ix iy filled rest hInv hnw hg) h
        · split at h
          · rename_i hg
            exact ih _ _ touch f2 t2
              (fillInv_right_push l px py ix iy filled rest hInv hnw hg) h
          · rename_i hg
            exact ih _ _ _ f2 t2
              (fillInv_right_nopush l px py ix iy filled rest hInv hnw hg) h
        · split at h
          · rename_i hg
            exact ih _ _ touch f2 t2
              (fillInv_down_push l px py ix iy filled rest hInv hnw hg) h
          · rename_i hg
            exact ih _ _ _ f2 t2
              (fillInv_down_nopush l px py ix iy filled rest hInv hnw hg) h
        · split at h
          · rename_i hg
            exact ih _ _ touch f2 t2
              (fillInv_up_push l px py ix iy filled rest hInv hnw hg) h
          · rename_i hg
            exact ih _ _ _ f2 t2
              (fillInv_up_nopush l px py ix iy filled rest hInv hnw hg) h
        · exact ih _ _ touch f2 t2
            (fillInv_nd l px py ix iy filled rest hInv hnw) h
        · obtain ⟨_, _, hd⟩ := hInv.1 _ (List.mem_cons_self _ _)
          rcases hd with hd | hd | hd | hd | hd <;> subst hd <;> simp_all

theorem fill_complete (l : Level) (px py : Nat)
    (hpx : px < l.width) (hpy : py < l.height)
    (f2 : Nat → Bool) (hInv : FillInv l px py f2 []) :
    ∀ x y, Reach l px py x y → f2 (y * l.width + x) = true := by
  intro x y hr
  induction hr with
  | base =>
    rcases hInv.2.2.2.2.1 with h | ⟨q, hq, _⟩
    · exact h
    · simp at hq
  | step hr hadj hx2 hy2 hnw ih =>
    rename_i a b a2 b2
    obtain ⟨ha, hb⟩ := Reach_bounds l px py hpx hpy hr
    have hC := hInv.2.2.2.2.2
    rcases hadj with ⟨h1, h2⟩ | ⟨h1, h2⟩ | ⟨h1, h2⟩ | ⟨h1, h2⟩
    · rw [h1] at hx2
      rw [h1, h2] at hnw ⊢
      rcases hC a b ha hb ih 1 (by omega) with ⟨q, hq, _⟩ | hnb
      · simp at hq
      · rcases hnb with hq | hq | hq | ⟨q, hq, _⟩
        · exact absurd hx2 hq
        · exact absurd hq hnw
        · exact hq
        · simp at hq
    · rw [h2] at hnw ⊢
      have he : a - 1 = a2 := by omega
      rw [← he] at hnw ⊢
      rcases hC a b ha hb ih 0 (by omega) with ⟨q, hq, _⟩ | hnb
      · simp at hq
      · rcases hnb with hq | hq | hq | ⟨q, hq, _⟩
        · omega
        · exact absurd hq hnw
        · exact hq
        · simp at hq
    · rw [h2] at hy2
      rw [h1, h2] at hnw ⊢
      rcases hC a b ha hb ih 3 (by omega) with ⟨q, hq, _⟩ | hnb
      · simp at hq
      · rcases hnb with hq | hq | hq | ⟨q, hq, _⟩
        · exact absurd hy2 hq
        · exact absurd hq hnw
        · exact hq
        · simp at hq
    · rw [h1] at hnw ⊢
      have he : b - 1 = b2 := by omega
      rw [← he] at hnw ⊢
      rcases hC a b ha hb ih 2 (by omega) with ⟨q, hq, _⟩ | hnb
      · simp at hq
      · rcases hnb with hq | hq | hq | ⟨q, hq, _⟩
        · omega
        · exact absurd hq hnw
        · exact hq
        · simp at hq

theorem stackCost_cons (it : StackItem) (rest : List StackItem) :
    stackCost (it :: rest) = dCost it.d + stackCost rest := rfl

theorem dCost_pos (d : Direction) : 1 ≤ dCost d := by
  cases d <;> simp [dCost]

theorem ucount_update_le (l : Level) (filled : Nat → Bool) (idx : Nat) :
    ucount l (updateFilled filled idx) ≤ ucount l filled := by
  apply Finset.card_le_card
  intro i hi
  simp only [Finset.mem_filter, Finset.mem_range] at hi ⊢
  refine ⟨hi.1, ?_⟩
  have h := hi.2
  by_cases hii : i = idx
  · subst hii
    rw [upd_self] at h
    cases h
  · simpa [updateFilled, hii] using h

theorem ucount_update_lt (l : Level) (filled : Nat → Bool) (idx : Nat)
    (hidx : idx < l.width * l.height) (hf : filled idx = false) :
    ucount l (updateFilled filled idx) < ucount l filled := by
  apply Finset.card_lt_card
  rw [Finset.ssubset_iff_of_subset]
  · exact ⟨idx, by simp [Finset.mem_filter, Finset.mem_range, hidx, hf],
      by simp [Finset.mem_filter, updateFilled]⟩
  · intro i hi
    simp only [Finset.mem_filter, Finset.mem_range] at hi ⊢
    refine ⟨hi.1, ?_⟩
    have h := hi.2
    by_cases hii : i = idx
    · subst hii
      rw [upd_self] at h
      cases h
    · simpa [updateFilled, hii] using h

theorem fillLoop_some (l : Level) (px py : Nat)
    (hsnw : l.cell (py * l.width + px) ≠ .Wall) :
    ∀ (fuel : Nat) (filled : Nat → Bool) (stk : List StackItem) (touch : Bool),
      FillInv l px py filled stk → Phi l filled stk < fuel →
      ∃ r, fillLoop l fuel filled stk touch = some r := by
  intro fuel
  induction fuel with
  | zero => intro _ _ _ _ hp; omega
  | succ fuel ih =>
    intro filled stk touch hInv hp
    match stk with
    | [] => exact ⟨(filled, touch), rfl⟩
    | it :: rest =>
      obtain ⟨ix, iy, d⟩ := it
      obtain ⟨hbx, hby, hbd⟩ := hInv.1 _ (List.mem_cons_self _ _)
      have hbx2 : ix < l.width := hbx
      have hby2 : iy < l.height := hby
      have hidx : iy * l.width + ix < l.width * l.height := idx_lt hbx2 hby2
      by_cases hcond : l.cell (iy * l.width + ix) = .Wall ∨
          (filled (iy * l.width + ix) = true ∧ d = .Left)
      · have h1 := fillInv_pop l px py filled ⟨ix, iy, d⟩ rest hsnw hInv hcond
        have hp2 : Phi l filled rest < fuel := by
          have := dCost_pos d
          simp only [Phi, stackCost_cons] at hp ⊢
          omega
        obtain ⟨r, hr⟩ := ih filled rest touch h1 hp2
        exact ⟨r, by simp only [fillLoop]; rw [if_pos hcond]; exact hr⟩
      · have hnw : l.cell (iy * l.width + ix) ≠ .Wall := (not_or.mp hcond).1
        have hbd2 : d = .Left ∨ d = .Right ∨ d = .Down ∨ d = .Up ∨
            d = .NoDirection := hbd
        have hule := ucount_update_le l filled (iy * l.width + ix)
        rcases hbd2 with rfl | rfl | rfl | rfl | rfl
        · have hf : filled (iy * l.width + ix) = false := by
            have h2 := (not_or.mp hcond).2
            simp at h2
            exact h2
          have hult := ucount_update_lt l filled _ hidx hf
          have hcond3 : ¬(l.cell (iy * l.width + ix) = Field.Wall ∨
              (filled (iy * l.width + ix) = true ∧ True)) :=
            fun h => hcond (h.elim Or.inl (fun hh => Or.inr ⟨hh.1, rfl⟩))
          by_cases hg : ix > 0
          · obtain ⟨r, hr⟩ := ih _ _ touch
              (fillInv_left_push l px py ix iy filled rest hInv hnw hg)
              (by simp only [Phi, stackCost_cons, dCost] at hp ⊢; omega)
            exact ⟨r, by simp only [fillLoop]; rw [if_neg hcond3, if_pos hg]; exact hr⟩
          · obtain ⟨r, hr⟩ := ih _ _ true
              (fillInv_left_nopush l px py ix iy filled rest hInv hnw hg)
              (by simp only [Phi, stackCost_cons, dCost] at hp ⊢; omega)
            exact ⟨r, by simp only [fillLoop]; rw [if_neg hcond3, if_neg hg]; exact hr⟩
        · by_cases hg : ix + 1 < l.width
          · obtain ⟨r, hr⟩ := ih _ _ touch
              (fillInv_right_push l px py ix iy filled rest hInv hnw hg)
              (by simp only [Phi, stackCost_cons, dCost] at hp ⊢; omega)
            exact ⟨r, by simp only [fillLoop]; rw [if_neg hcond, if_pos hg]; exact hr⟩
          · obtain ⟨r, hr⟩ := ih _ _ true
              (fillInv_right_nopush l px py ix iy filled rest hInv hnw hg)
              (by simp only [Phi, stackCost_cons, dCost] at hp ⊢; omega)
            exact ⟨r, by simp only [fillLoop]; rw [if_neg hcond, if_neg hg]; exact hr⟩
        · by_cases hg : iy > 0
          · obtain ⟨r, hr⟩ := ih _ _ touch
              (fillInv_down_push l px py ix iy filled rest hInv hnw hg)
              (by simp only [Phi, stackCost_cons, dCost] at hp ⊢; omega)
            exact ⟨r, by simp only [fillLoop]; rw [if_neg hcond, if_pos hg]; exact hr⟩
          · obtain ⟨r, hr⟩ := ih _ _ true
              (fillInv_down_nopush l px py ix iy filled rest hInv hnw hg)
              (by simp only [Phi, stackCost_cons, dCost] at hp ⊢; omega)
            exact ⟨r, by simp only [fillLoop]; rw [if_neg hcond, if_neg hg]; exact hr⟩
        · by_cases hg : iy + 1 < l.height
          · obtain ⟨r, hr⟩ := ih _ _ touch
              (fillInv_up_push l px py ix iy filled rest hInv hnw hg)
              (by simp only [Phi, stackCost_cons, dCost] at hp ⊢; omega)
            exact ⟨r, by simp only [fillLoop]; rw [if_neg hcond, if_pos hg]; exact hr⟩
          · obtain ⟨r, hr⟩ := ih _ _ true
              (fillInv_up_nopush l px py ix iy filled rest hInv hnw hg)
              (by simp only [Phi, stackCost_cons, dCost] at hp ⊢; omega)
            exact ⟨r, by simp only [fillLoop]; rw [if_neg hcond, if_neg hg]; exact hr⟩
        · obtain ⟨r, hr⟩ := ih _ _ touch
            (fillInv_nd l px py ix iy filled rest hInv hnw)
            (by simp only [Phi, stackCost_cons, dCost] at hp ⊢; omega)
          exact ⟨r, by simp only [fillLoop]; rw [if_neg hcond]; exact hr⟩

theorem fillInv_init (l : Level) (px py : Nat) (hpx : px < l.width)
    (hpy : py < l.height) :
    FillInv l px py (fun _ => false) [⟨px, py, .Left⟩] := by
  refine ⟨?_, ?_, ?_, ?_, ?_, ?_⟩
  · intro it hit
    simp at hit
    subst hit
    exact ⟨hpx, hpy, Or.inl rfl⟩
  · intro it hit hd
    simp at hit
    subst hit
    exact absurd rfl hd
  · intro j hj
    cases hj
  · intro it hit
    simp at hit
    subst hit
    exact Or.inl ⟨rfl, rfl⟩
  · exact Or.inr ⟨⟨px, py, .Left⟩, by simp, rfl, rfl⟩
  · intro x y _ _ hf
    cases hf

theorem runFill_some (l : Level) (px py : Nat) (hpx : px < l.width)
    (hpy : py < l.height) (hsnw : l.cell (py * l.width + px) ≠ .Wall) :
    ∃ r, runFill l px py = some r := by
  have hu0 : ucount l (fun _ => false) = l.width * l.height := by
    simp [ucount]
  have hPhi : Phi l (fun _ => false) [⟨px, py, .Left⟩] < fillFuel l := by
    simp only [Phi, fillFuel, hu0, stackCost_cons, dCost]
    simp [stackCost]
  obtain ⟨r, hr⟩ := fillLoop_some l px py hsnw (fillFuel l) (fun _ => false)
    [⟨px, py, .Left⟩] false (fillInv_init l px py hpx hpy) hPhi
  exact ⟨r, hr⟩

/-- C3: the explicit-stack flood fill of check_level_by_fill terminates on
every in-bounds non-wall start cell, and the set of cells it marks filled
is exactly the 4-connected component of non-wall cells containing the
start: an in-bounds cell is marked iff it is Reach-able from the start
(walls impassable, every non-wall cell passable), and every marked index
lies in bounds and in that component, so no cell outside the component is
ever marked. -/
theorem runFill_eq_reach (l : Level) (px py : Nat) (hpx : px < l.width)
    (hpy : py < l.height) (hsnw : l.cell (py * l.width + px) ≠ .Wall) :
    ∃ filled touch, runFill l px py = some (filled, touch) ∧
      (∀ x y, x < l.width → y < l.height →
        (filled (y * l.width + x) = true ↔ Reach l px py x y)) ∧
      (∀ j, filled j = true → ∃ x y, x < l.width ∧ y < l.height ∧
        j = y * l.width + x ∧ Reach l px py x y) := by
  obtain ⟨⟨filled, touch⟩, hr⟩ := runFill_some l px py hpx hpy hsnw
  have hInv := fillLoop_inv l px py hsnw (fillFuel l) (fun _ => false)
    [⟨px, py, .Left⟩] false filled touch (fillInv_init l px py hpx hpy) hr
  refine ⟨filled, touch, hr, ?_, hInv.2.2.1⟩
  intro x y hx hy
  constructor
  · intro hf
    obtain ⟨x2, y2, hx2, hy2, hje, hre⟩ := hInv.2.2.1 _ hf
    obtain ⟨hxx, hyy⟩ := idx_inj hx2 hx hje.symm
    rw [hxx, hyy] at hre
    exact hre
  · intro hre
    exact fill_complete l px py hpx hpy filled hInv x y hre

theorem is_player_ne_wall (f : Field) (h : f.is_player = true) :
    f ≠ .Wall := by
  cases f <;> simp_all [Field.is_player]

theorem foldlM_append_shape_aux {α β : Type} (xs : List α)
    (f : List β → α → Option (List β)) (P : β → Prop)
    (h : ∀ acc a, a ∈ xs → ∃ row, f acc a = some (acc ++ row) ∧ ∀ e ∈ row, P e) :
    ∀ acc, ∃ out, xs.foldlM f acc = some out ∧ ∀ e ∈ out, e ∈ acc ∨ P e := by
  induction xs with
  | nil => intro acc; exact ⟨acc, rfl, fun e he => Or.inl he⟩
  | cons x xs ih =>
    intro acc
    obtain ⟨row, hf, hP⟩ := h acc x (List.mem_cons_self _ _)
    obtain ⟨out, ho, hmem⟩ :=
      ih (fun acc2 a ha => h acc2 a (List.mem_cons_of_mem _ ha)) (acc ++ row)
    refine ⟨out, ?_, ?_⟩
    · rw [List.foldlM_cons, hf]
      simpa using ho
    · intro e he
      rcases hmem e he with h1 | h2
      · rcases List.mem_append.mp h1 with h3 | h4
        · exact Or.inl h3
        · exact Or.inr (hP e h4)
      · exact Or.inr h2

theorem foldlM_append_shape {α β : Type} (xs : List α)
    (f : List β → α → Option (List β)) (P : β → Prop)
    (h : ∀ acc a, a ∈ xs → ∃ row, f acc a = some (acc ++ row) ∧ ∀ e ∈ row, P e) :
    ∃ out, xs.foldlM f [] = some out ∧ ∀ e ∈ out, P e := by
  obtain ⟨out, ho, hmem⟩ := foldlM_append_shape_aux xs f P h []
  exact ⟨out, ho, fun e he => (hmem e he).resolve_left (by simp)⟩

theorem fillErrs_total (l : Level) (hw : 0 < l.width)
    (hlen : l.area.length = l.width * l.height) :
    ∃ openE packE targetE, l.fillErrs = some (openE ++ packE ++ targetE) ∧
      (∀ e ∈ openE, e = CheckError.LevelOpen) ∧
      (∀ e ∈ packE, ∃ x y, e = CheckError.PackNotAvailable x y) ∧
      (∀ e ∈ targetE, ∃ x y, e = CheckError.TargetNotAvailable x y) := by
  cases hpos : position (fun f => f.is_player) l.area with
  | none =>
    refine ⟨[], [], [], by simp [Level.fillErrs, hpos], ?_, ?_, ?_⟩ <;>
      (intro e he; simp at he)
  | some pp =>
    have hpplt : pp < l.width * l.height := by
      have := position_lt _ _ _ hpos
      omega
    have hpx : pp % l.width < l.width := Nat.mod_lt _ hw
    have hpy : pp / l.width < l.height := by
      rw [Nat.div_lt_iff_lt_mul hw, Nat.mul_comm]
      omega
    have hidxe : pp / l.width * l.width + pp % l.width = pp := by
      rw [Nat.mul_comm]
      exact Nat.div_add_mod pp l.width
    have hsnw : l.cell (pp / l.width * l.width + pp % l.width) ≠ .Wall := by
      rw [hidxe]
      exact is_player_ne_wall _ (position_getD _ _ _ _ hpos)
    obtain ⟨⟨filled, touch⟩, hr⟩ := runFill_some l (pp % l.width) (pp / l.width)
      hpx hpy hsnw
    refine ⟨if touch then [CheckError.LevelOpen] else [],
      (List.range l.area.length).filterMap fun i =>
        if l.cell i = .Pack ∧ filled i = false then
          some (.PackNotAvailable (i % l.width) (i / l.width))
        else none,
      (List.range l.area.length).filterMap fun i =>
        if l.cell i = .Target ∧ filled i = false then
          some (.TargetNotAvailable (i % l.width) (i / l.width))
        else none, ?_, ?_, ?_, ?_⟩
    · simp only [Level.fillErrs, hpos, Level.check_level_by_fill, hr, availErrs,
        List.append_assoc]
    · intro e he
      cases touch <;> simp_all
    · intro e he
      obtain ⟨i, _, hi⟩ := List.mem_filterMap.mp he
      rw [ite_eq_iff] at hi
      rcases hi with ⟨-, hi⟩ | ⟨-, hi⟩
      · injection hi with hi
        exact ⟨i % l.width, i / l.width, hi.symm⟩
      · cases hi
    · intro e he
      obtain ⟨i, _, hi⟩ := List.mem_filterMap.mp he
      rw [ite_eq_iff] at hi
      rcases hi with ⟨-, hi⟩ | ⟨-, hi⟩
      · injection hi with hi
        exact ⟨i % l.width, i / l.width, hi.symm⟩
      · cases hi

theorem lock2x2Errs_total (l : Level) (hw : 0 < l.width) (hh : 0 < l.height) :
    ∃ blockE, l.lock2x2Errs = some blockE ∧
      ∀ e ∈ blockE, ∃ x y, e = CheckError.Locked2x2Block x y := by
  have hhb : checkedSub l.height 1 = some (l.height - 1) := by
    unfold checkedSub
    rw [if_pos (show 1 ≤ l.height from hh)]
  have hwb : checkedSub l.width 1 = some (l.width - 1) := by
    unfold checkedSub
    rw [if_pos (show 1 ≤ l.width from hw)]
  unfold Level.lock2x2Errs
  rw [hhb]
  simp only [Option.some_bind, bind, Option.bind]
  apply foldlM_append_shape
  intro acc iy hiy
  simp only [hwb, Option.some_bind, bind, Option.bind, pure]
  refine ⟨_, rfl, ?_⟩
  intro e he
  obtain ⟨ix, _, hi⟩ := List.mem_filterMap.mp he
  rw [ite_eq_iff] at hi
  rcases hi with ⟨-, hi⟩ | ⟨-, hi⟩
  · rw [ite_eq_iff] at hi
    rcases hi with ⟨-, hi⟩ | ⟨-, hi⟩
    · injection hi with hi
      exact ⟨ix, iy, hi.symm⟩
    · cases hi
  · cases hi

theorem lockCornerErrs_total (l : Level) (hw : 0 < l.width) (hh : 0 < l.height) :
    ∃ cornerE, l.lockCornerErrs = some cornerE ∧
      ∀ e ∈ cornerE, ∃ x y, e = CheckError.LockedPackApartWalls x y := by
  have hhb : checkedSub l.height 1 = some (l.height - 1) := by
    unfold checkedSub
    rw [if_pos (show 1 ≤ l.height from hh)]
  have hwb : checkedSub l.width 1 = some (l.width - 1) := by
    unfold checkedSub
    rw [if_pos (show 1 ≤ l.width from hw)]
  unfold Level.lockCornerErrs
  rw [hhb]
  simp only [Option.some_bind, bind, Option.bind]
  apply foldlM_append_shape
  intro acc iy hiy
  simp only [hwb, Option.some_bind, bind, Option.bind, pure]
  refine ⟨_, rfl, ?_⟩
  intro e he
  obtain ⟨ix, _, hi⟩ := List.mem_filterMap.mp he
  rw [ite_eq_iff] at hi
  rcases hi with ⟨-, hi⟩ | ⟨-, hi⟩
  · rw [ite_eq_iff] at hi
    rcases hi with ⟨-, hi⟩ | ⟨-, hi⟩
    · injection hi with hi
      exact ⟨ix, iy, hi.symm⟩
    · cases hi
  · cases hi

theorem ite_len_ne (errs : List CheckError) :
    (if errs.length ≠ 0 then (Except.error errs : Except (List CheckError) Unit)
     else Except.ok ()) =
    (if errs = [] then Except.ok () else Except.error errs) := by
  by_cases he : errs = []
  · subst he
    simp
  · rw [if_neg he, if_pos (fun h0 => he (List.length_eq_zero.mp h0))]

/-- C2: for every level with positive width and height (and a grid of the
declared size), check() is total and never short-circuits: it returns some
result, every defect lands in one list ordered as player-count errors,
pack/target-count errors, LevelOpen, PackNotAvailable entries,
TargetNotAvailable entries, Locked2x2Block entries, LockedPackApartWalls
entries, and the result is Ok(()) exactly when that list is empty. -/
theorem check_no_short_circuit (l : Level) (hw : 0 < l.width)
    (hh : 0 < l.height) (hlen : l.area.length = l.width * l.height) :
    ∃ openE packE targetE blockE cornerE,
      (∀ e ∈ openE, e = CheckError.LevelOpen) ∧
      (∀ e ∈ packE, ∃ x y, e = CheckError.PackNotAvailable x y) ∧
      (∀ e ∈ targetE, ∃ x y, e = CheckError.TargetNotAvailable x y) ∧
      (∀ e ∈ blockE, ∃ x y, e = CheckError.Locked2x2Block x y) ∧
      (∀ e ∈ cornerE, ∃ x y, e = CheckError.LockedPackApartWalls x y) ∧
      l.check = some
        (if l.playerErrs ++ l.countErrs ++ (openE ++ packE ++ targetE) ++
            blockE ++ cornerE = [] then Except.ok ()
         else Except.error (l.playerErrs ++ l.countErrs ++
            (openE ++ packE ++ targetE) ++ blockE ++ cornerE)) := by
  obtain ⟨oE, pE, tE, h3, hoE, hpE, htE⟩ := fillErrs_total l hw hlen
  obtain ⟨e4, h4, hb⟩ := lock2x2Errs_total l hw hh
  obtain ⟨e5, h5, hc⟩ := lockCornerErrs_total l hw hh
  refine ⟨oE, pE, tE, e4, e5, hoE, hpE, htE, hb, hc, ?_⟩
  simp only [Level.check, h3, h4, h5, Option.some_bind, bind, Option.bind, pure,
    Option.some.injEq]
  exact ite_len_ne _

/-- C2 witness. -/
theorem check_no_short_circuit_witness :
    0 < ring3.width ∧ 0 < ring3.height ∧
    ring3.area.length = ring3.width * ring3.height ∧
    (∃ openE packE targetE blockE cornerE,
      (∀ e ∈ openE, e = CheckError.LevelOpen) ∧
      (∀ e ∈ packE, ∃ x y, e = CheckError.PackNotAvailable x y) ∧
      (∀ e ∈ targetE, ∃ x y, e = CheckError.TargetNotAvailable x y) ∧
      (∀ e ∈ blockE, ∃ x y, e = CheckError.Locked2x2Block x y) ∧
      (∀ e ∈ cornerE, ∃ x y, e = CheckError.LockedPackApartWalls x y) ∧
      ring3.check = some
        (if ring3.playerErrs ++ ring3.countErrs ++ (openE ++ packE ++ targetE) ++
            blockE ++ cornerE = [] then Except.ok ()
         else Except.error (ring3.playerErrs ++ ring3.countErrs ++
            (openE ++ packE ++ targetE) ++ blockE ++ cornerE))) :=
  ⟨by decide, by decide, by decide,
    check_no_short_circuit ring3 (by decide) (by decide) (by decide)⟩

/-- C3 witness. -/
theorem runFill_eq_reach_witness :
    1 < ring3.width ∧ 1 < ring3.height ∧
    ring3.cell (1 * ring3.width + 1) ≠ Field.Wall ∧
    (∃ filled touch, runFill ring3 1 1 = some (filled, touch) ∧
      (∀ x y, x < ring3.width → y < ring3.height →
        (filled (y * ring3.width + x) = true ↔ Reach ring3 1 1 x y)) ∧
      (∀ j, filled j = true → ∃ x y, x < ring3.width ∧ y < ring3.height ∧
        j = y * ring3.width + x ∧ Reach ring3 1 1 x y)) :=
  ⟨by decide, by decide, by decide,
    runFill_eq_reach ring3 1 1 (by decide) (by decide) (by decide)⟩

/-- C4 counterexample: in lvlC4 the cell at index 11 (x = 4, y = 1) is a
box (PackOnTarget, so is_box holds) sealed off from the player, the fill
leaves it unmarked, yet the availability scan emits no PackNotAvailable
entry at all and the whole check succeeds: the scan compares cells against
plain Pack/Target, not is_box()/is_target(). -/
theorem avail_scan_skips_box_on_target :
    (lvlC4.cell 11).is_pack = true ∧
    ((runFill lvlC4 1 1).map fun ft => ft.1 11) = some false ∧
    lvlC4.fillErrs = some [] ∧
    lvlC4.check = some (Except.ok ()) := by
  decide

/-- C4 amended: the availability scan emits PackNotAvailable (x, y)
exactly for unmarked cells that are literally Pack (not PackOnTarget),
and TargetNotAvailable (x, y) exactly for unmarked cells that are
literally Target (not PackOnTarget or PlayerOnTarget). -/
theorem availErrs_plain_scan (l : Level) (filled : Nat → Bool)
    (hlen : l.area.length = l.width * l.height) (hw : 0 < l.width)
    (x y : Nat) (hx : x < l.width) (hy : y < l.height) :
    (CheckError.PackNotAvailable x y ∈ availErrs l filled ↔
      l.cell (y * l.width + x) = .Pack ∧ filled (y * l.width + x) = false) ∧
    (CheckError.TargetNotAvailable x y ∈ availErrs l filled ↔
      l.cell (y * l.width + x) = .Target ∧ filled (y * l.width + x) = false) := by
  have hidx : y * l.width + x < l.area.length := by
    rw [hlen]
    exact idx_lt hx hy
  have hmod : (y * l.width + x) % l.width = x := by
    rw [Nat.mul_comm y l.width, Nat.mul_add_mod, Nat.mod_eq_of_lt hx]
  have hdiv : (y * l.width + x) / l.width = y := by
    rw [Nat.mul_comm y l.width, Nat.mul_add_div hw, Nat.div_eq_of_lt hx,
      Nat.add_zero]
  constructor
  · constructor
    · intro hm
      rcases List.mem_append.mp hm with hm1 | hm2
      · obtain ⟨i, hir, hi⟩ := List.mem_filterMap.mp hm1
        rw [ite_eq_iff] at hi
        rcases hi with ⟨hcnd, hi⟩ | ⟨-, hi⟩
        · injection hi with hi
          injection hi with hx2 hy2
          have hdm := Nat.div_add_mod i l.width
          rw [hx2, hy2] at hdm
          have hieq : i = y * l.width + x := by
            rw [← hdm, Nat.mul_comm]
          rw [hieq] at hcnd
          exact hcnd
        · cases hi
      · obtain ⟨i, hir, hi⟩ := List.mem_filterMap.mp hm2
        rw [ite_eq_iff] at hi
        rcases hi with ⟨-, hi⟩ | ⟨-, hi⟩
        · cases hi
        · cases hi
    · intro ⟨hc, hf⟩
      apply List.mem_append.mpr
      left
      apply List.mem_filterMap.mpr
      refine ⟨y * l.width + x, List.mem_range.mpr hidx, ?_⟩
      rw [if_pos ⟨hc, hf⟩, hmod, hdiv]
  · constructor
    · intro hm
      rcases List.mem_append.mp hm with hm1 | hm2
      · obtain ⟨i, hir, hi⟩ := List.mem_filterMap.mp hm1
        rw [ite_eq_iff] at hi
        rcases hi with ⟨-, hi⟩ | ⟨-, hi⟩
        · cases hi
        · cases hi
      · obtain ⟨i, hir, hi⟩ := List.mem_filterMap.mp hm2
        rw [ite_eq_iff] at hi
        rcases hi with ⟨hcnd, hi⟩ | ⟨-, hi⟩
        · injection hi with hi
          injection hi with hx2 hy2
          have hdm := Nat.div_add_mod i l.width
          rw [hx2, hy2] at hdm
          have hieq : i = y * l.width + x := by
            rw [← hdm, Nat.mul_comm]
          rw [hieq] at hcnd
          exact hcnd
        · cases hi
    · intro ⟨hc, hf⟩
      apply List.mem_append.mpr
      right
      apply List.mem_filterMap.mpr
      refine ⟨y * l.width + x, List.mem_range.mpr hidx, ?_⟩
      rw [if_pos ⟨hc, hf⟩, hmod, hdiv]

/-- C4 amended witness. -/
theorem availErrs_plain_scan_witness :
    lvlC4.area.length = lvlC4.width * lvlC4.height ∧ 0 < lvlC4.width ∧
    4 < lvlC4.width ∧ 1 < lvlC4.height ∧
    ((CheckError.PackNotAvailable 4 1 ∈ availErrs lvlC4 (fun _ => false) ↔
      lvlC4.cell (1 * lvlC4.width + 4) = .Pack ∧
        (fun _ => false : Nat → Bool) (1 * lvlC4.width + 4) = false) ∧
     (CheckError.TargetNotAvailable 4 1 ∈ availErrs lvlC4 (fun _ => false) ↔
      lvlC4.cell (1 * lvlC4.width + 4) = .Target ∧
        (fun _ => false : Nat → Bool) (1 * lvlC4.width + 4) = false)) :=
  ⟨by decide, by decide, by decide, by decide,
    availErrs_plain_scan lvlC4 (fun _ => false) (by decide) (by decide) 4 1
      (by decide) (by decide)⟩

/-- C6 counterexample: lvl51 contains a player (at index 1), yet
LevelState::new does not return Ok: the full Level::check runs inside it
and reports the level defects (a missing target and an open level). -/
theorem levelState_new_not_only_player_check :
    position (fun f => f.is_player) lvl51.area = some 1 ∧
    LevelState.new lvl51 =
      some (.error [.TooFewTargets 1, .LevelOpen]) := by
  decide

/-- C6 amended: LevelState::new first locates the player (failing with
NoPlayer when absent), then runs the full Level::check and propagates any
error list it produces; only when check passes does it return the fresh
state with the located player position, a copy of the grid, empty moves
and zero pushes. -/
theorem levelState_new_full_check (level : Level) :
    (position (fun f => f.is_player) level.area = none →
      LevelState.new level = some (.error [.NoPlayer])) ∧
    (∀ pp e, position (fun f => f.is_player) level.area = some pp →
      level.check = some (.error e) →
      LevelState.new level = some (.error e)) ∧
    (∀ pp, position (fun f => f.is_player) level.area = some pp →
      level.check = some (.ok ()) →
      LevelState.new level = some (.ok
        ⟨level, pp % level.width, pp / level.width, level.area, [], 0⟩)) := by
  refine ⟨?_, ?_, ?_⟩
  · intro h
    simp [LevelState.new, h]
  · intro pp e h1 h2
    simp [LevelState.new, h1, h2]
  · intro pp h1 h2
    simp [LevelState.new, h1, h2]

/-- C6 amended witness. -/
theorem levelState_new_full_check_witness :
    position (fun f => f.is_player) ring3.area = some 4 ∧
    ring3.check = some (.ok ()) ∧
    LevelState.new ring3 = some (.ok
      ⟨ring3, 4 % ring3.width, 4 / ring3.width, ring3.area, [], 0⟩) :=
  ⟨by decide, by decide,
    (levelState_new_full_check ring3).2.2 4 (by decide) (by decide)⟩

/-- C8 counterexample: make_move with the NoDirection sentinel on a
concrete reachable state does not panic; it returns the recoverable
result (false, false) and leaves the state unchanged. -/
theorem make_move_nodirection_counterexample :
    ring3State.make_move .NoDirection = some ((false, false), ring3State) :=
  rfl

/-- C8 amended: for every state, make_move with the NoDirection sentinel
returns some ((false, false), s): the unknown direction is handled as an
ordinary failed move (no neighbour cell to step to), never a panic. -/
theorem make_move_nodirection (s : LevelState) :
    s.make_move .NoDirection = some ((false, false), s) :=
  rfl

/-- C10 counterexample: Level::new succeeds on width 0, height 1 with an
empty grid (0 = 0 * 1), and check() on that degenerate level does not
panic: it returns the NoPlayer error, because the outer lock-scan loop
bound height - 1 = 0 empties both scans before width - 1 is ever
computed. -/
theorem check_width0_height1_no_panic :
    Level.new "" 0 1 [] = .ok lvlW0H1 ∧
    lvlW0H1.check = some (.error [.NoPlayer]) := by
  constructor
  · rfl
  · decide

/-- C10 amended: on a degenerate level the outcome of check() depends on
the shape: height 0 always panics (height - 1 underflows), width 0 with
height at least 2 panics (width - 1 underflows inside the first outer
iteration), but width 0 with height exactly 1 returns the NoPlayer error
because the outer loop is empty; with positive width and height check()
is total. -/
theorem check_degenerate (l : Level)
    (hlen : l.area.length = l.width * l.height) :
    (l.height = 0 → l.check = none) ∧
    (l.width = 0 → 2 ≤ l.height → l.check = none) ∧
    (l.width = 0 → l.height = 1 →
      l.check = some (.error [.NoPlayer])) ∧
    (0 < l.width → 0 < l.height → ∃ r, l.check = some r) := by
  refine ⟨?_, ?_, ?_, ?_⟩
  · intro h0
    have ha : l.area = [] := by
      rw [← List.length_eq_zero, hlen, h0, Nat.mul_zero]
    simp [Level.check, Level.fillErrs, ha, position, Level.lock2x2Errs,
      checkedSub, h0]
  · intro h0 h2
    have ha : l.area = [] := by
      rw [← List.length_eq_zero, hlen, h0, Nat.zero_mul]
    have hhb : checkedSub l.height 1 = some (l.height - 1) := by
      unfold checkedSub
      rw [if_pos (show 1 ≤ l.height by omega)]
    have hk : l.height - 1 = (l.height - 2) + 1 := by omega
    have hlock : l.lock2x2Errs = none := by
      unfold Level.lock2x2Errs
      rw [hhb, hk]
      simp only [Option.some_bind, bind, Option.bind]
      rw [List.range_succ_eq_map, List.foldlM_cons]
      simp [checkedSub, h0]
    simp [Level.check, Level.fillErrs, ha, position, hlock]
  · intro h0 h1
    have ha : l.area = [] := by
      rw [← List.length_eq_zero, hlen, h0, Nat.zero_mul]
    simp [Level.check, Level.fillErrs, ha, position, Level.lock2x2Errs,
      Level.lockCornerErrs, checkedSub, h0, h1, Level.playerErrs,
      Level.playersNum, Level.countErrs, Level.packsNum, Level.targetsNum]
  · intro hw hh
    obtain ⟨oE, pE, tE, h3, -, -, -⟩ := fillErrs_total l hw hlen
    obtain ⟨e4, h4, -⟩ := lock2x2Errs_total l hw hh
    obtain ⟨e5, h5, -⟩ := lockCornerErrs_total l hw hh
    refine ⟨if (l.playerErrs ++ l.countErrs ++ (oE ++ pE ++ tE) ++ e4 ++
        e5).length ≠ 0 then Except.error (l.playerErrs ++ l.countErrs ++
        (oE ++ pE ++ tE) ++ e4 ++ e5) else Except.ok (), ?_⟩
    simp only [Level.check, h3, h4, h5, Option.some_bind, bind, Option.bind,
      pure]

/-- C10 amended witness. -/
theorem check_degenerate_witness :
    Level.empty.area.length = Level.empty.width * Level.empty.height ∧
    ((Level.empty.height = 0 → Level.empty.check = none) ∧
     (Level.empty.width = 0 → 2 ≤ Level.empty.height →
       Level.empty.check = none) ∧
     (Level.empty.width = 0 → Level.empty.height = 1 →
       Level.empty.check = some (.error [.NoPlayer])) ∧
     (0 < Level.empty.width → 0 < Level.empty.height →
       ∃ r, Level.empty.check = some r)) :=
  ⟨rfl, check_degenerate Level.empty rfl⟩

end Sokoban
